import Mathlib

/-!
# rwmem: byte-order codec, I2C target and register catalog

A shallow embedding of `librwmem/i2ctarget.cpp`, `librwmem/regfiledata.cpp` and
`librwmem/regs.cpp`, followed by theorems about the embedded functions.

Conventions of the embedding:

* machine integers are natural numbers, reduced modulo `2^w` at the places
  where the C++ arithmetic can wrap;
* a byte buffer is a list of bytes (numbers below 256);
* a pointer into one of the catalog arrays is the index of the record, a null
  pointer is `none`;
* a C string is the list of its characters before the terminating NUL,
  carried as a `String`;
* every way a call can end is a constructor of `Result`.
-/

namespace Rwmem

/-! ## Outcomes -/

/-- C++ exceptions thrown by the library, with their message. -/
inductive Exn where
  | invalid_argument (msg : String)
  | runtime_error (msg : String)
deriving DecidableEq, Repr

/-- Undefined behaviour the code can run into. The embedding follows a call up
to the first such step and no further: what the program does after it depends
on the memory beside the object and is not modelled. -/
inductive Fault where
  /-- a member is read through a null pointer -/
  | null_deref
  /-- a record or byte is read or written outside its array; in a catalog
  lookup the code goes on with the bytes that follow the array in the blob,
  which the embedding does not hold -/
  | out_of_bounds
deriving DecidableEq, Repr

/-- How a call ends: it returns, throws, calls `abort()`, reports a failed
transfer, or runs into undefined behaviour. -/
inductive Result (α : Type) where
  | ok (a : α)
  | throw (e : Exn)
  | abort
  | transfer_failed (msg : String)
  | fault (f : Fault)
deriving DecidableEq, Repr

/-- Sequencing: the continuation runs only after a normal return. -/
def Result.bind {α β : Type} (r : Result α) (k : α → Result β) : Result β :=
  match r with
  | .ok a => k a
  | .throw e => .throw e
  | .abort => .abort
  | .transfer_failed m => .transfer_failed m
  | .fault f => .fault f

/-! ## Byte order -/

/-- The `Endianness` enumeration; `other` stands for any value that is none of
the four enumerators the codec names. -/
inductive Endianness where
  | Big
  | Little
  | BigSwapped
  | LittleSwapped
  | other (raw : Nat)
deriving DecidableEq, Repr

/-- Byte order of the machine running the code. -/
inductive HostOrder where
  | little
  | big
deriving DecidableEq, Repr

/-- The `n` low bytes of `v`, least significant first. -/
def bytes_le : Nat → Nat → List Nat
  | 0, _ => []
  | n + 1, v => (v % 256) :: bytes_le n (v / 256)

/-- The number whose bytes, least significant first, are `bs`. -/
def of_bytes_le : List Nat → Nat
  | [] => 0
  | b :: bs => b + 256 * of_bytes_le bs

/-- `*(uintN_t*)buf = v`: the `n` bytes of `v` in the host's memory order. -/
def store (host : HostOrder) (n v : Nat) : List Nat :=
  match host with
  | .little => bytes_le n v
  | .big => (bytes_le n v).reverse

/-- `*(uintN_t*)buf` over the bytes `bs` in the host's memory order. -/
def load (host : HostOrder) (bs : List Nat) : Nat :=
  match host with
  | .little => of_bytes_le bs
  | .big => of_bytes_le bs.reverse

/-- Reads an `n`-byte integer at the start of `buf`; `none` when the buffer is
shorter than `n` bytes. -/
def load_at (host : HostOrder) (buf : List Nat) (n : Nat) : Option Nat :=
  if n ≤ buf.length then some (load host (buf.take n)) else none

/-- Byte reversal of an `n`-byte integer (`bswap_16/32/64`). -/
def bswap (n v : Nat) : Nat := of_bytes_le (bytes_le n v).reverse

/-- `htobeN` and `beNtoh` of `<endian.h>` for an `n`-byte integer. -/
def host_be (host : HostOrder) (n v : Nat) : Nat :=
  match host with
  | .little => bswap n v
  | .big => v

/-- `htoleN` and `leNtoh` of `<endian.h>` for an `n`-byte integer. -/
def host_le (host : HostOrder) (n v : Nat) : Nat :=
  match host with
  | .little => v
  | .big => bswap n v

def htobe16 (host : HostOrder) (v : Nat) : Nat := host_be host 2 v
def htole16 (host : HostOrder) (v : Nat) : Nat := host_le host 2 v
def be16toh (host : HostOrder) (v : Nat) : Nat := host_be host 2 v
def le16toh (host : HostOrder) (v : Nat) : Nat := host_le host 2 v
def htobe32 (host : HostOrder) (v : Nat) : Nat := host_be host 4 v
def htole32 (host : HostOrder) (v : Nat) : Nat := host_le host 4 v
def be32toh (host : HostOrder) (v : Nat) : Nat := host_be host 4 v
def le32toh (host : HostOrder) (v : Nat) : Nat := host_le host 4 v
def htobe64 (host : HostOrder) (v : Nat) : Nat := host_be host 8 v
def htole64 (host : HostOrder) (v : Nat) : Nat := host_le host 8 v
def be64toh (host : HostOrder) (v : Nat) : Nat := host_be host 8 v
def le64toh (host : HostOrder) (v : Nat) : Nat := host_le host 8 v

/-- `swap32`: `(v << 16) | (v >> 16)` on `uint32_t`. -/
def swap32 (v : Nat) : Nat := ((v <<< 16) % 2 ^ 32) ||| (v >>> 16)

/-- `swap64`: `(v << 32) | (v >> 32)` on `uint64_t`. -/
def swap64 (v : Nat) : Nat := ((v <<< 32) % 2 ^ 64) ||| (v >>> 32)

/-- `device_to_host(buf, numbytes, endianness)`: decodes the first `numbytes`
bytes of `buf`. -/
def device_to_host (host : HostOrder) (buf : List Nat) (numbytes : Nat)
    (endianness : Endianness) : Result Nat :=
  match numbytes with
  | 1 =>
    match buf[0]? with
    | some b => .ok b
    | none => .fault .out_of_bounds
  | 2 =>
    match load_at host buf 2 with
    | none => .fault .out_of_bounds
    | some v =>
      match endianness with
      | .Big => .ok (be16toh host v)
      | .Little => .ok (le16toh host v)
      | _ => .throw (.invalid_argument "Bad endianness")
  | 4 =>
    match load_at host buf 4 with
    | none => .fault .out_of_bounds
    | some v =>
      match endianness with
      | .Big => .ok (be32toh host v)
      | .Little => .ok (le32toh host v)
      | .BigSwapped => .ok (swap32 (be32toh host v))
      | .LittleSwapped => .ok (swap32 (le32toh host v))
      | _ => .throw (.invalid_argument "Bad endianness")
  | 8 =>
    match load_at host buf 8 with
    | none => .fault .out_of_bounds
    | some v =>
      match endianness with
      | .Big => .ok (be64toh host v)
      | .Little => .ok (le64toh host v)
      | .BigSwapped => .ok (swap64 (be64toh host v))
      | .LittleSwapped => .ok (swap64 (le64toh host v))
      | _ => .throw (.invalid_argument "Bad endianness")
  | _ => .abort

/-- `host_to_device(value, numbytes, buf, endianness)`: the result is the bytes
the call writes to `buf[0 .. numbytes)`. -/
def host_to_device (host : HostOrder) (value numbytes : Nat)
    (endianness : Endianness) : Result (List Nat) :=
  match numbytes with
  | 1 => .ok [value &&& 0xff]
  | 2 =>
    let v := value % 2 ^ 16
    match endianness with
    | .Big => .ok (store host 2 (htobe16 host v))
    | .Little => .ok (store host 2 (htole16 host v))
    | _ => .throw (.invalid_argument "Bad endianness")
  | 4 =>
    let v := value % 2 ^ 32
    match endianness with
    | .Big => .ok (store host 4 (htobe32 host v))
    | .Little => .ok (store host 4 (htole32 host v))
    | .BigSwapped => .ok (store host 4 (swap32 (htobe32 host v)))
    | .LittleSwapped => .ok (store host 4 (swap32 (htole32 host v)))
    | _ => .throw (.invalid_argument "Bad endianness")
  | 8 =>
    let v := value % 2 ^ 64
    match endianness with
    | .Big => .ok (store host 8 (htobe64 host v))
    | .Little => .ok (store host 8 (htole64 host v))
    | .BigSwapped => .ok (store host 8 (swap64 (htobe64 host v)))
    | .LittleSwapped => .ok (store host 8 (swap64 (htole64 host v)))
    | _ => .throw (.invalid_argument "Bad endianness")
  | _ => .abort

/-- The (width, order) pairs the codec converts. -/
def supported (numbytes : Nat) (endianness : Endianness) : Bool :=
  match numbytes, endianness with
  | 1, _ => true
  | 2, .Big => true
  | 2, .Little => true
  | 4, .Big => true
  | 4, .Little => true
  | 4, .BigSwapped => true
  | 4, .LittleSwapped => true
  | 8, .Big => true
  | 8, .Little => true
  | 8, .BigSwapped => true
  | 8, .LittleSwapped => true
  | _, _ => false

/-! ## The I2C target -/

/-- `struct i2c_msg` of `<linux/i2c.h>`; `buf` holds the contents of the
buffer the message points to. -/
structure i2c_msg where
  addr : Nat
  flags : Nat
  len : Nat
  buf : List Nat
deriving DecidableEq, Repr

/-- Flag `I2C_M_RD` of `<linux/i2c.h>`. -/
def I2C_M_RD : Nat := 1

/-- The transport behind `ioctl(m_fd, I2C_RDWR, &data)`: from the state of the
bus and the messages it gives the return value, the new state of the bus and
the messages with their buffers after the call. -/
def Transport (σ : Type) : Type := σ → List i2c_msg → Int × σ × List i2c_msg

/-- Modelled from the spec: the data members of `I2CTarget` declared in
`i2ctarget.h`, which is missing; the members are the ones the member functions
of `i2ctarget.cpp` assign and read. -/
structure I2CTarget where
  m_i2c_addr : Nat
  m_offset : Nat
  m_address_endianness : Endianness
  m_address_bytes : Nat
  m_data_endianness : Endianness
  m_data_bytes : Nat
deriving DecidableEq, Repr

/-- `I2CTarget::map`. -/
def I2CTarget.map (t : I2CTarget) (offset _length : Nat) (addr_endianness : Endianness)
    (addr_size : Nat) (data_endianness : Endianness) (data_size : Nat) : I2CTarget :=
  { t with
    m_offset := offset
    m_address_endianness := addr_endianness
    m_address_bytes := addr_size
    m_data_endianness := data_endianness
    m_data_bytes := data_size }

/-- Overwrites `buf[pos .. pos + bytes.length)`; `none` when that range does not
lie inside the buffer. -/
def write_at (buf : List Nat) (pos : Nat) (bytes : List Nat) : Option (List Nat) :=
  if pos + bytes.length ≤ buf.length then
    some (buf.take pos ++ bytes ++ buf.drop (pos + bytes.length))
  else none

/-- `host_to_device(value, numbytes, buf + pos, endianness)` on a buffer. -/
def host_to_device_at (host : HostOrder) (value numbytes : Nat) (buf : List Nat) (pos : Nat)
    (endianness : Endianness) : Result (List Nat) :=
  (host_to_device host value numbytes endianness).bind fun bytes =>
    match write_at buf pos bytes with
    | some buf1 => .ok buf1
    | none => .fault .out_of_bounds

/-- `I2CTarget::read`; the result comes with the state of the bus after the
call. -/
def I2CTarget.read {σ : Type} (host : HostOrder) (t : I2CTarget) (ioctl : Transport σ)
    (dev : σ) (addr numbytes : Nat) : Result Nat × σ :=
  let addr := (addr + t.m_offset) % 2 ^ 64
  let addr_buf := List.replicate 8 0
  let data_buf := List.replicate 8 0
  let numbytes := if numbytes = 0 then t.m_data_bytes else numbytes
  match host_to_device_at host addr t.m_address_bytes addr_buf 0 t.m_address_endianness with
  | .ok addr_buf =>
    let msgs : List i2c_msg :=
      [ { addr := t.m_i2c_addr, flags := 0, len := t.m_address_bytes, buf := addr_buf },
        { addr := t.m_i2c_addr, flags := I2C_M_RD, len := numbytes, buf := data_buf } ]
    match ioctl dev msgs with
    | (r, dev1, msgs1) =>
      if r < 0 then (.transfer_failed "i2c transfer failed", dev1)
      else
        let data_buf := match msgs1[1]? with
          | some m => m.buf
          | none => data_buf
        (device_to_host host data_buf numbytes t.m_data_endianness, dev1)
  | .throw e => (.throw e, dev)
  | .abort => (.abort, dev)
  | .transfer_failed m => (.transfer_failed m, dev)
  | .fault f => (.fault f, dev)

/-- `I2CTarget::write`; the result comes with the state of the bus after the
call. -/
def I2CTarget.write {σ : Type} (host : HostOrder) (t : I2CTarget) (ioctl : Transport σ)
    (dev : σ) (addr numbytes value : Nat) : Result Unit × σ :=
  let addr := (addr + t.m_offset) % 2 ^ 64
  let data_buf := List.replicate 12 0
  let numbytes := if numbytes = 0 then t.m_data_bytes else numbytes
  match (host_to_device_at host addr t.m_address_bytes data_buf 0 t.m_address_endianness).bind
      (fun data_buf => host_to_device_at host value numbytes data_buf t.m_address_bytes
        t.m_data_endianness) with
  | .ok data_buf =>
    let msgs : List i2c_msg :=
      [ { addr := t.m_i2c_addr, flags := 0, len := t.m_address_bytes + numbytes,
          buf := data_buf } ]
    match ioctl dev msgs with
    | (r, dev1, _) =>
      if r < 0 then (.transfer_failed "i2c transfer failed", dev1)
      else (.ok (), dev1)
  | .throw e => (.throw e, dev)
  | .abort => (.abort, dev)
  | .transfer_failed m => (.transfer_failed m, dev)
  | .fault f => (.fault f, dev)

/-- A transport stub that echoes: a write message stores the bytes that follow
its `abytes` address bytes, and an address-then-read transaction copies the
stored bytes to the start of the read buffer. -/
def echo_transport (abytes : Nat) : Transport (List Nat) := fun dev msgs =>
  match msgs with
  | [w] => (1, ((w.buf.take w.len).drop abytes), [w])
  | [a, r] =>
    match write_at r.buf 0 (dev.take r.len) with
    | some buf1 => (2, dev, [a, { r with buf := buf1 }])
    | none => (-1, dev, [a, r])
  | _ => (-1, dev, msgs)

/-! ## The register catalog -/

/-- `strcmp` on the characters of two C strings: the strings are compared
character by character up to the first difference or the end of one of them;
only the sign of the result is specified. -/
def strcmp_chars : List Char → List Char → Int
  | [], [] => 0
  | [], _ :: _ => -1
  | _ :: _, [] => 1
  | a :: as, b :: bs =>
    if a = b then strcmp_chars as bs else if a.toNat < b.toNat then -1 else 1

/-- `strcmp` of `<string.h>` on two C strings, each given by its characters
before the terminating NUL. -/
def strcmp (a b : String) : Int := strcmp_chars a.data b.data

/-- `std::string::c_str()` read as a C string: the characters before the first
NUL of the string, which is all that `strcmp` sees of it. -/
def c_str (s : String) : String :=
  String.mk (s.data.takeWhile fun c => c != Char.ofNat 0)

/-- The string holds no NUL character. -/
def no_nul (s : String) : Prop := Char.ofNat 0 ∉ s.data

instance (s : String) : Decidable (no_nul s) := by
  unfold no_nul; infer_instance

/-- Modelled from the spec: the record `FieldData` of `regfiledata.h`, which is
missing (section 6: `name_ref`, `high`, `low`); `name` is the C string that
`name(rfd)` resolves the name reference to. -/
structure FieldData where
  name : String
  high : Nat
  low : Nat
deriving DecidableEq, Repr

/-- Modelled from the spec: the record `RegisterData` of `regfiledata.h`, which
is missing (section 6: `name_ref`, `offset:u64`, `size:u32`,
`fields_offset:u32`, `num_fields:u32`); `offset` is relative to the base of the
owning block. -/
structure RegisterData where
  name : String
  offset : Nat
  size : Nat
  fields_offset : Nat
  num_fields : Nat
deriving DecidableEq, Repr

/-- Modelled from the spec: the record `RegisterBlockData` of `regfiledata.h`,
which is missing (section 6: `name_ref`, `base_offset:u64`, `size:u64`,
`regs_offset:u32`, `num_regs:u32`). -/
structure RegisterBlockData where
  name : String
  offset : Nat
  size : Nat
  regs_offset : Nat
  num_regs : Nat
deriving DecidableEq, Repr

/-- Modelled from the spec: the catalog blob behind a `RegisterFileData*`
(`regfiledata.h` is missing): the header's name and, after it, the block,
register and field arrays. The three counts of the header delimit the arrays,
so each array is as long as its count. -/
structure RegisterFileData where
  name : String
  blocks : List RegisterBlockData
  registers : List RegisterData
  fields : List FieldData
deriving DecidableEq, Repr

namespace RegisterFileData

def num_blocks (rfd : RegisterFileData) : Nat := rfd.blocks.length
def num_regs (rfd : RegisterFileData) : Nat := rfd.registers.length
def num_fields (rfd : RegisterFileData) : Nat := rfd.fields.length

/-- Reads the block record a pointer designates; `none` outside `blocks()`. -/
def block (rfd : RegisterFileData) (p : Nat) : Option RegisterBlockData := rfd.blocks[p]?

/-- Reads the register record a pointer designates; `none` outside
`registers()`. -/
def reg (rfd : RegisterFileData) (p : Nat) : Option RegisterData := rfd.registers[p]?

/-- Reads the field record a pointer designates; `none` outside `fields()`. -/
def field (rfd : RegisterFileData) (p : Nat) : Option FieldData := rfd.fields[p]?

/-- `RegisterFileData::at`: `&blocks()[idx]`. -/
def «at» (_rfd : RegisterFileData) (idx : Nat) : Nat := idx

end RegisterFileData

/-- `RegisterBlockData::at`: `&rfd->registers()[regs_offset() + idx]`, the sum
taken in `uint32_t`. -/
def RegisterBlockData.«at» (b : RegisterBlockData) (_rfd : RegisterFileData) (idx : Nat) : Nat :=
  (b.regs_offset + idx) % 2 ^ 32

/-- `RegisterData::at`: `&rfd->fields()[fields_offset() + idx]`, the sum taken
in `uint32_t`. -/
def RegisterData.«at» (r : RegisterData) (_rfd : RegisterFileData) (idx : Nat) : Nat :=
  (r.fields_offset + idx) % 2 ^ 32

/-- `for (unsigned i = start; i < start + n; ++i) body`: the body returns from
the enclosing function (`ok (some a)`), goes on to the next index (`ok none`)
or fails; leaving the loop gives `ok none`. -/
def for_loop {α : Type} (body : Nat → Result (Option α)) : Nat → Nat → Result (Option α)
  | 0, _ => .ok none
  | n + 1, i =>
    match body i with
    | .ok none => for_loop body n (i + 1)
    | r => r

/-- Applies `f` to the value a loop returns with, if it returns with one. -/
def Result.map_opt {α β : Type} (f : α → β) : Result (Option α) → Result (Option β)
  | .ok (some a) => .ok (some (f a))
  | .ok none => .ok none
  | .throw e => .throw e
  | .abort => .abort
  | .transfer_failed m => .transfer_failed m
  | .fault x => .fault x

/-- Body of the loop of `RegisterFileData::find_block` at index `i`. -/
def RegisterFileData.find_block_body (rfd : RegisterFileData) (name : String) (i : Nat) :
    Result (Option Nat) :=
  let rbd := rfd.at i
  match rfd.block rbd with
  | none => .fault .out_of_bounds
  | some b => if strcmp b.name (c_str name) = 0 then .ok (some rbd) else .ok none

/-- `RegisterFileData::find_block`: a pointer to the block, or null. -/
def RegisterFileData.find_block (rfd : RegisterFileData) (name : String) :
    Result (Option Nat) :=
  for_loop (rfd.find_block_body name) rfd.num_blocks 0

/-- Body of the loop of `RegisterBlockData::find_register` at index `i`. -/
def RegisterBlockData.find_register_body (b : RegisterBlockData) (rfd : RegisterFileData)
    (name : String) (i : Nat) : Result (Option Nat) :=
  let rd := (b.regs_offset + i) % 2 ^ 32
  match rfd.reg rd with
  | none => .fault .out_of_bounds
  | some r => if strcmp r.name (c_str name) = 0 then .ok (some rd) else .ok none

/-- `RegisterBlockData::find_register`: a pointer to the register, or null. -/
def RegisterBlockData.find_register (b : RegisterBlockData) (rfd : RegisterFileData)
    (name : String) : Result (Option Nat) :=
  for_loop (b.find_register_body rfd name) b.num_regs 0

/-- Body of the loop of `RegisterData::find_field` at index `i`. -/
def RegisterData.find_field_body (r : RegisterData) (rfd : RegisterFileData)
    (name : String) (i : Nat) : Result (Option Nat) :=
  let fd := (r.fields_offset + i) % 2 ^ 32
  match rfd.field fd with
  | none => .fault .out_of_bounds
  | some f => if strcmp f.name (c_str name) = 0 then .ok (some fd) else .ok none

/-- `RegisterData::find_field`: a pointer to the field, or null. -/
def RegisterData.find_field (r : RegisterData) (rfd : RegisterFileData)
    (name : String) : Result (Option Nat) :=
  for_loop (r.find_field_body rfd name) r.num_fields 0

/-- What a `find_register` of `RegisterFileData` leaves behind: the pointer it
returns (`none` for null) and the value of the out-parameter `*rbd` (`none`
while it has not been assigned). -/
structure Found where
  rd : Option Nat
  rbd : Option Nat
deriving DecidableEq, Repr

/-- The loop of `RegisterFileData::find_register(const std::string&, ...)` with
`n` blocks left, at block `i`, `rbd0` being the current value of `*rbd`. -/
def RegisterFileData.find_register_str_loop (rfd : RegisterFileData) (name : String) :
    Nat → Nat → Option Nat → Result Found
  | 0, _, rbd0 => .ok { rd := none, rbd := rbd0 }
  | n + 1, i, _ =>
    let rbd := rfd.at i
    match rfd.block rbd with
    | none => .fault .out_of_bounds
    | some b =>
      match b.find_register rfd name with
      | .ok none => .fault .null_deref
      | .ok (some rd) =>
        match rfd.reg rd with
        | none => .fault .out_of_bounds
        | some r =>
          if strcmp r.name (c_str name) = 0 then .ok { rd := some rd, rbd := some rbd }
          else find_register_str_loop rfd name n (i + 1) (some rbd)
      | .throw e => .throw e
      | .abort => .abort
      | .transfer_failed m => .transfer_failed m
      | .fault f => .fault f

/-- `RegisterFileData::find_register(const std::string& name,
const RegisterBlockData** rbd)`; `rbd0` is the value of `*rbd` before the call. -/
def RegisterFileData.find_register_str (rfd : RegisterFileData) (name : String)
    (rbd0 : Option Nat) : Result Found :=
  rfd.find_register_str_loop name rfd.num_blocks 0 rbd0

/-- Body of the inner loop of `RegisterFileData::find_register(uint64_t, ...)`
in block `b`, at local index `ridx`. -/
def RegisterFileData.find_register_u64_body (rfd : RegisterFileData) (offset : Nat)
    (b : RegisterBlockData) (ridx : Nat) : Result (Option Nat) :=
  let rd := b.at rfd ridx
  match rfd.reg rd with
  | none => .fault .out_of_bounds
  | some r =>
    if r.offset = (offset + 2 ^ 64 - b.offset) % 2 ^ 64 then .ok (some rd) else .ok none

/-- The loop of `RegisterFileData::find_register(uint64_t, ...)` with `n` blocks
left, at block `bidx`, `rbd0` being the current value of `*rbd`. -/
def RegisterFileData.find_register_u64_loop (rfd : RegisterFileData) (offset : Nat) :
    Nat → Nat → Option Nat → Result Found
  | 0, _, rbd0 => .ok { rd := none, rbd := rbd0 }
  | n + 1, bidx, _ =>
    let rbd := rfd.at bidx
    match rfd.block rbd with
    | none => .fault .out_of_bounds
    | some b =>
      if offset < b.offset then find_register_u64_loop rfd offset n (bidx + 1) (some rbd)
      else if offset ≥ (b.offset + b.size) % 2 ^ 64 then
        find_register_u64_loop rfd offset n (bidx + 1) (some rbd)
      else
        match for_loop (rfd.find_register_u64_body offset b) b.num_regs 0 with
        | .ok none => find_register_u64_loop rfd offset n (bidx + 1) (some rbd)
        | .ok (some rd) => .ok { rd := some rd, rbd := some rbd }
        | .throw e => .throw e
        | .abort => .abort
        | .transfer_failed m => .transfer_failed m
        | .fault f => .fault f

/-- `RegisterFileData::find_register(uint64_t offset,
const RegisterBlockData** rbd)`; `rbd0` is the value of `*rbd` before the call. -/
def RegisterFileData.find_register_u64 (rfd : RegisterFileData) (offset : Nat)
    (rbd0 : Option Nat) : Result Found :=
  rfd.find_register_u64_loop offset rfd.num_blocks 0 rbd0

/-! ## The hierarchy views of `regs.cpp` -/

/-- Modelled from the spec: class `RegisterFile` of `regs.h`, which is missing:
a handle on the mapped catalog. -/
structure RegisterFile where
  m_rfd : RegisterFileData
deriving DecidableEq, Repr

/-- Modelled from the spec: class `RegisterBlock` of `regs.h`, which is
missing: the catalog and a pointer to a block record. -/
structure RegisterBlock where
  m_rfd : RegisterFileData
  m_rbd : Nat
deriving DecidableEq, Repr

/-- Modelled from the spec: class `Register` of `regs.h`, which is missing: the
catalog, a pointer to the owning block record and a pointer to the register
record; the constructor of `regs.cpp` stores its three arguments. -/
structure Register where
  m_rfd : RegisterFileData
  m_rbd : Nat
  m_rd : Nat
deriving DecidableEq, Repr

/-- Modelled from the spec: class `Field` of `regs.h`, which is missing: the
catalog and a pointer to a field record. -/
structure Field where
  m_rfd : RegisterFileData
  m_fd : Nat
deriving DecidableEq, Repr

/-- Modelled from the spec: the accessors of the views (`name()`, `offset()`,
`size()`, `num_regs()`, `num_fields()`, `high()`, `low()`) are declared in
`regs.h`, which is missing; each forwards to the record the view points to.
This reads that record. -/
def RegisterBlock.data (rb : RegisterBlock) : Option RegisterBlockData :=
  rb.m_rfd.block rb.m_rbd

/-- Modelled from the spec: see `RegisterBlock.data`; the record a `Register`
points to. -/
def Register.data (reg : Register) : Option RegisterData :=
  reg.m_rfd.reg reg.m_rd

/-- Modelled from the spec: see `RegisterBlock.data`; the record a `Field`
points to. -/
def Field.data (f : Field) : Option FieldData :=
  f.m_rfd.field f.m_fd

/-- Modelled from the spec: `RegisterFile::num_blocks()` of `regs.h`. -/
def RegisterFile.num_blocks (rf : RegisterFile) : Nat := rf.m_rfd.num_blocks

/-- `Register::at`. -/
def Register.«at» (reg : Register) (idx : Nat) : Result Field :=
  match reg.data with
  | none => .fault .out_of_bounds
  | some rd =>
    if idx ≥ rd.num_fields then .throw (.runtime_error "field idx too high")
    else .ok { m_rfd := reg.m_rfd, m_fd := rd.at reg.m_rfd idx }

/-- `RegisterBlock::at`. -/
def RegisterBlock.«at» (rb : RegisterBlock) (idx : Nat) : Result Register :=
  match rb.data with
  | none => .fault .out_of_bounds
  | some rbd =>
    if idx ≥ rbd.num_regs then .throw (.runtime_error "register idx too high")
    else .ok { m_rfd := rb.m_rfd, m_rbd := rb.m_rbd, m_rd := rbd.at rb.m_rfd idx }

/-- `RegisterFile::at`. -/
def RegisterFile.«at» (rf : RegisterFile) (idx : Nat) : Result RegisterBlock :=
  if idx ≥ rf.m_rfd.num_blocks then .throw (.runtime_error "register block idx too high")
  else .ok { m_rfd := rf.m_rfd, m_rbd := rf.m_rfd.at idx }

/-- `RegisterFile::get_register_block`. -/
def RegisterFile.get_register_block (rf : RegisterFile) (name : String) :
    Result RegisterBlock :=
  (rf.m_rfd.find_block name).bind fun rb =>
    match rb with
    | some rb => .ok { m_rfd := rf.m_rfd, m_rbd := rb }
    | none => .throw (.runtime_error "register block not found")

/-- Body of the inner loop of both `RegisterFile::get_register`: register
`ridx` of the block view `rb` is fetched with `rb.at(ridx)` and returned when
`test` accepts its record. -/
def RegisterBlock.scan_body (rb : RegisterBlock) (test : RegisterData → Bool) (ridx : Nat) :
    Result (Option Register) :=
  (rb.at ridx).bind fun reg =>
    match reg.data with
    | none => .fault .out_of_bounds
    | some rd => if test rd then .ok (some reg) else .ok none

/-- The inner loop of both `RegisterFile::get_register`, over
`ridx < rb.num_regs()`. -/
def RegisterBlock.scan (rb : RegisterBlock) (test : RegisterData → Bool) :
    Result (Option Register) :=
  match rb.data with
  | none => .fault .out_of_bounds
  | some rbd => for_loop (rb.scan_body test) rbd.num_regs 0

/-- Body of the outer loop of `RegisterFile::get_register(const string&)`. -/
def RegisterFile.get_register_str_body (rf : RegisterFile) (name : String) (bidx : Nat) :
    Result (Option Register) :=
  (rf.at bidx).bind fun rb =>
    rb.scan fun rd => decide (strcmp rd.name (c_str name) = 0)

/-- `RegisterFile::get_register(const string& name)`. -/
def RegisterFile.get_register_str (rf : RegisterFile) (name : String) : Result Register :=
  (for_loop (rf.get_register_str_body name) rf.num_blocks 0).bind fun found =>
    match found with
    | some reg => .ok reg
    | none => .throw (.runtime_error "register not found")

/-- Body of the outer loop of `RegisterFile::get_register(uint64_t)`. -/
def RegisterFile.get_register_u64_body (rf : RegisterFile) (offset : Nat) (bidx : Nat) :
    Result (Option Register) :=
  (rf.at bidx).bind fun rb =>
    match rb.data with
    | none => .fault .out_of_bounds
    | some rbd =>
      if offset < rbd.offset then .ok none
      else if offset ≥ (rbd.offset + rbd.size) % 2 ^ 64 then .ok none
      else rb.scan fun rd => decide (rd.offset = (offset + 2 ^ 64 - rbd.offset) % 2 ^ 64)

/-- `RegisterFile::get_register(uint64_t offset)`. -/
def RegisterFile.get_register_u64 (rf : RegisterFile) (offset : Nat) : Result Register :=
  (for_loop (rf.get_register_u64_body offset) rf.num_blocks 0).bind fun found =>
    match found with
    | some reg => .ok reg
    | none => .throw (.runtime_error "register not found")

/-! ## Well-formed catalogs and scan order -/

/-- The register half of the invariant of section 3: the register count fits
its 32-bit header field and the registers of every block lie inside the global
register array. -/
def RegisterFileData.regs_in_range (rfd : RegisterFileData) : Prop :=
  rfd.registers.length < 2 ^ 32 ∧
  ∀ b ∈ rfd.blocks, b.regs_offset + b.num_regs ≤ rfd.registers.length

/-- The field half of the invariant of section 3: the field count fits its
32-bit header field and the fields of every register lie inside the global
field array. -/
def RegisterFileData.fields_in_range (rfd : RegisterFileData) : Prop :=
  rfd.fields.length < 2 ^ 32 ∧
  ∀ r ∈ rfd.registers, r.fields_offset + r.num_fields ≤ rfd.fields.length

/-- The invariant of section 3 on the computed array boundaries. -/
def RegisterFileData.WellFormed (rfd : RegisterFileData) : Prop :=
  rfd.regs_in_range ∧ rfd.fields_in_range

instance (rfd : RegisterFileData) : Decidable rfd.regs_in_range := by
  unfold RegisterFileData.regs_in_range; infer_instance

instance (rfd : RegisterFileData) : Decidable rfd.fields_in_range := by
  unfold RegisterFileData.fields_in_range; infer_instance

instance (rfd : RegisterFileData) : Decidable rfd.WellFormed := by
  unfold RegisterFileData.WellFormed; infer_instance

/-- Register `ri` of block `bi`: the block record, the place of the register in
the global register array, and the register record. -/
def RegisterFileData.child (rfd : RegisterFileData) (bi ri : Nat) :
    Option (RegisterBlockData × Nat × RegisterData) :=
  match rfd.blocks[bi]? with
  | none => none
  | some b =>
    if ri < b.num_regs then
      match rfd.registers[b.regs_offset + ri]? with
      | none => none
      | some r => some (b, b.regs_offset + ri, r)
    else none

/-- Scan order: blocks in array order, and inside a block its registers in
local index order. -/
def scan_before (bj rj bi ri : Nat) : Prop := bj < bi ∨ (bj = bi ∧ rj < ri)

/-- `(bi, ri)` is the first register in scan order that satisfies `P`. -/
def RegisterFileData.first_child (rfd : RegisterFileData)
    (P : RegisterBlockData → RegisterData → Prop) (bi ri p : Nat) : Prop :=
  ∃ b r, rfd.child bi ri = some (b, p, r) ∧ P b r ∧
    ∀ bj rj b1 p1 r1, scan_before bj rj bi ri → rfd.child bj rj = some (b1, p1, r1) → ¬ P b1 r1

/-- No register of any block satisfies `P`. -/
def RegisterFileData.no_child (rfd : RegisterFileData)
    (P : RegisterBlockData → RegisterData → Prop) : Prop :=
  ∀ bi ri b p r, rfd.child bi ri = some (b, p, r) → ¬ P b r

/-- The catalog of section 8: one block at base `0x1000` with the registers at
relative offsets `0x10` and `0x20`, and one field. -/
def example_catalog : RegisterFileData :=
  { name := "example"
    blocks := [{ name := "blk", offset := 0x1000, size := 0x100, regs_offset := 0, num_regs := 2 }]
    registers :=
      [{ name := "r0", offset := 0x10, size := 4, fields_offset := 0, num_fields := 1 },
       { name := "r1", offset := 0x20, size := 4, fields_offset := 1, num_fields := 0 }]
    fields := [{ name := "f0", high := 7, low := 0 }] }

/-- Two blocks of one register each, `"A"` in the first and `"B"` in the
second. -/
def two_block_catalog : RegisterFileData :=
  { name := "two"
    blocks :=
      [{ name := "b0", offset := 0, size := 0x10, regs_offset := 0, num_regs := 1 },
       { name := "b1", offset := 0x10, size := 0x10, regs_offset := 1, num_regs := 1 }]
    registers :=
      [{ name := "A", offset := 0, size := 4, fields_offset := 0, num_fields := 0 },
       { name := "B", offset := 0, size := 4, fields_offset := 0, num_fields := 0 }]
    fields := [] }

/-- Two blocks with the same name. -/
def twin_catalog : RegisterFileData :=
  { name := "twin"
    blocks :=
      [{ name := "other", offset := 0, size := 0x10, regs_offset := 0, num_regs := 0 },
       { name := "dup", offset := 0x10, size := 0x10, regs_offset := 0, num_regs := 1 },
       { name := "dup", offset := 0x20, size := 0x10, regs_offset := 1, num_regs := 0 }]
    registers :=
      [{ name := "A", offset := 0, size := 4, fields_offset := 0, num_fields := 0 }]
    fields := [] }

/-! ## Name and bit-range lookups of the views -/

/-- Conversion of an `unsigned` value to `int`, as in `return i;` of a function
that returns `int`. -/
def int_of_unsigned (i : Nat) : Int :=
  if i % 2 ^ 32 < 2 ^ 31 then ((i % 2 ^ 32 : Nat) : Int) else ((i % 2 ^ 32 : Nat) : Int) - 2 ^ 32

/-- Conversion of an `int` to `uint32_t`, as in `at(i)` with `int i`. -/
def unsigned_of_int (i : Int) : Nat := (i % 2 ^ 32).toNat

/-- Body of the loop of `Register::find_field` at index `i`. -/
def Register.find_field_body (reg : Register) (name : String) (i : Nat) :
    Result (Option Int) :=
  (reg.at i).bind fun f =>
    match f.data with
    | none => .fault .out_of_bounds
    | some fd =>
      if strcmp fd.name (c_str name) = 0 then .ok (some (int_of_unsigned i)) else .ok none

/-- `Register::find_field`: the local index of the field, or `-1`. -/
def Register.find_field (reg : Register) (name : String) : Result Int :=
  match reg.data with
  | none => .fault .out_of_bounds
  | some rd =>
    (for_loop (reg.find_field_body name) rd.num_fields 0).bind fun found =>
      match found with
      | some i => .ok i
      | none => .ok (-1)

/-- `Register::get_field(const string& name)`. -/
def Register.get_field_str (reg : Register) (name : String) : Result Field :=
  (reg.find_field name).bind fun i =>
    if i < 0 then .throw (.runtime_error "field not found")
    else reg.at (unsigned_of_int i)

/-- Body of the loop of `Register::get_field(uint8_t high, uint8_t low)` at
index `i`. -/
def Register.get_field_bits_body (reg : Register) (high low : Nat) (i : Nat) :
    Result (Option Field) :=
  (reg.at i).bind fun f =>
    match f.data with
    | none => .fault .out_of_bounds
    | some fd => if low = fd.low ∧ high = fd.high then .ok (some f) else .ok none

/-- `Register::get_field(uint8_t high, uint8_t low)`. -/
def Register.get_field_bits (reg : Register) (high low : Nat) : Result Field :=
  match reg.data with
  | none => .fault .out_of_bounds
  | some rd =>
    (for_loop (reg.get_field_bits_body high low) rd.num_fields 0).bind fun found =>
      match found with
      | some f => .ok f
      | none => .throw (.runtime_error "field not found")

/-- Body of the loop of `RegisterBlock::find_register` at index `i`. -/
def RegisterBlock.find_register_body (rb : RegisterBlock) (name : String) (i : Nat) :
    Result (Option Int) :=
  (rb.at i).bind fun reg =>
    match reg.data with
    | none => .fault .out_of_bounds
    | some rd =>
      if strcmp rd.name (c_str name) = 0 then .ok (some (int_of_unsigned i)) else .ok none

/-- `RegisterBlock::find_register`: the local index of the register, or `-1`. -/
def RegisterBlock.find_register (rb : RegisterBlock) (name : String) : Result Int :=
  match rb.data with
  | none => .fault .out_of_bounds
  | some rbd =>
    (for_loop (rb.find_register_body name) rbd.num_regs 0).bind fun found =>
      match found with
      | some i => .ok i
      | none => .ok (-1)

/-- `RegisterBlock::get_register`. -/
def RegisterBlock.get_register (rb : RegisterBlock) (name : String) : Result Register :=
  (rb.find_register name).bind fun i =>
    if i < 0 then .throw (.runtime_error "register not found")
    else rb.at (unsigned_of_int i)

/-! ## The layout of the blob -/

/-- Modelled from the spec: the sizes in bytes of the four record types of
`regfiledata.h`, which is missing: `sizeof(RegisterFileData)`,
`sizeof(RegisterBlockData)`, `sizeof(RegisterData)` and `sizeof(FieldData)`. -/
structure RecordSizes where
  H : Nat
  B : Nat
  R : Nat
  F : Nat
deriving DecidableEq, Repr

namespace RegisterFileData

/-- `RegisterFileData::blocks()` as a byte offset from `this`:
`(uint8_t*)this + sizeof(RegisterFileData)`. -/
def blocks_ptr (_rfd : RegisterFileData) (sz : RecordSizes) : Nat := 0 + sz.H

/-- `RegisterFileData::registers()` as a byte offset from `this`:
`&blocks()[num_blocks()]`. -/
def registers_ptr (rfd : RegisterFileData) (sz : RecordSizes) : Nat :=
  rfd.blocks_ptr sz + rfd.num_blocks * sz.B

/-- `RegisterFileData::fields()` as a byte offset from `this`:
`&registers()[num_regs()]`. -/
def fields_ptr (rfd : RegisterFileData) (sz : RecordSizes) : Nat :=
  rfd.registers_ptr sz + rfd.num_regs * sz.R

/-- `RegisterFileData::strings()` as a byte offset from `this`:
`&fields()[num_fields()]`. -/
def strings_ptr (rfd : RegisterFileData) (sz : RecordSizes) : Nat :=
  rfd.fields_ptr sz + rfd.num_fields * sz.F

end RegisterFileData

/-! ## Calls as steps, and more fixtures -/

/-- `I2CTarget::read` as a step on the object and the bus: the member function
is `const`, the object after the call is the object before it. -/
def I2CTarget.read_call {σ : Type} (host : HostOrder) (ioctl : Transport σ)
    (s : I2CTarget × σ) (addr numbytes : Nat) : Result Nat × (I2CTarget × σ) :=
  let r := s.1.read host ioctl s.2 addr numbytes
  (r.1, (s.1, r.2))

/-- `I2CTarget::write` as a step on the object and the bus: the body assigns its
parameters `addr` and `numbytes` and no member, the object after the call is
the object before it. -/
def I2CTarget.write_call {σ : Type} (host : HostOrder) (ioctl : Transport σ)
    (s : I2CTarget × σ) (addr numbytes value : Nat) : Result Unit × (I2CTarget × σ) :=
  let r := s.1.write host ioctl s.2 addr numbytes value
  (r.1, (s.1, r.2))

/-- A transport stub that records: every transaction succeeds and is appended,
with its messages, to the state. -/
def recording_transport : Transport (List (List i2c_msg)) := fun dev msgs =>
  ((msgs.length : Int), dev ++ [msgs], msgs)

/-- The bytes a message carries: the first `len` bytes of its buffer. -/
def i2c_msg.content (m : i2c_msg) : List Nat := m.buf.take m.len

/-- A malformed catalog: the block claims two registers and the register two
fields, the global arrays hold one of each. -/
def malformed_catalog : RegisterFileData :=
  { name := "malformed"
    blocks := [{ name := "blk", offset := 0, size := 0x10, regs_offset := 0, num_regs := 2 }]
    registers := [{ name := "r0", offset := 0, size := 4, fields_offset := 0, num_fields := 2 }]
    fields := [{ name := "f0", high := 7, low := 0 }] }

/-- A block that ends at the top of the 64-bit address space. -/
def top_catalog : RegisterFileData :=
  { name := "top"
    blocks :=
      [{ name := "blk", offset := 0xFFFFFFFFFFFFF000, size := 0x1000, regs_offset := 0,
         num_regs := 1 }]
    registers := [{ name := "r0", offset := 0, size := 4, fields_offset := 0, num_fields := 0 }]
    fields := [] }

/-- A register with three fields, two of them with the same name and the bit
range `7:0` of the first containing the range `3:0` of the second. -/
def fields_catalog : RegisterFileData :=
  { name := "fields"
    blocks := [{ name := "blk", offset := 0, size := 0x10, regs_offset := 0, num_regs := 2 }]
    registers :=
      [{ name := "r0", offset := 0, size := 4, fields_offset := 0, num_fields := 3 },
       { name := "r0", offset := 4, size := 4, fields_offset := 3, num_fields := 0 }]
    fields :=
      [{ name := "wide", high := 7, low := 0 },
       { name := "f", high := 3, low := 0 },
       { name := "f", high := 5, low := 4 }] }

/-! ## The codec: lemmas and theorems -/

theorem swap32_eq (v : Nat) (h : v < 2 ^ 32) :
    swap32 v = (v % 65536) * 65536 + v / 65536 := by
  unfold swap32
  rw [Nat.shiftLeft_eq, Nat.shiftRight_eq_div_pow]
  have h1 : (v * 2 ^ 16) % 2 ^ 32 = 2 ^ 16 * (v % 65536) := by omega
  have h2 : v / 2 ^ 16 < 2 ^ 16 := by omega
  rw [h1, ← Nat.mul_add_lt_is_or h2]
  omega

theorem swap64_eq (v : Nat) (h : v < 2 ^ 64) :
    swap64 v = (v % 4294967296) * 4294967296 + v / 4294967296 := by
  unfold swap64
  rw [Nat.shiftLeft_eq, Nat.shiftRight_eq_div_pow]
  have h1 : (v * 2 ^ 32) % 2 ^ 64 = 2 ^ 32 * (v % 4294967296) := by omega
  have h2 : v / 2 ^ 32 < 2 ^ 32 := by omega
  rw [h1, ← Nat.mul_add_lt_is_or h2]
  omega

theorem land_ff (v : Nat) : v &&& 0xff = v % 256 := by
  have := Nat.and_pow_two_sub_one_eq_mod v 8
  simpa using this

theorem bytes_le_length (n v : Nat) : (bytes_le n v).length = n := by
  induction n generalizing v with
  | zero => rfl
  | succ n ih => simp [bytes_le, ih]

theorem bytes_le_lt (n v : Nat) : ∀ b ∈ bytes_le n v, b < 256 := by
  induction n generalizing v with
  | zero => simp [bytes_le]
  | succ n ih =>
    intro b hb
    simp only [bytes_le, List.mem_cons] at hb
    rcases hb with rfl | hb
    · omega
    · exact ih _ b hb

theorem bytes_le_of_bytes_le (bs : List Nat) (h : ∀ b ∈ bs, b < 256) :
    bytes_le bs.length (of_bytes_le bs) = bs := by
  induction bs with
  | nil => rfl
  | cons b bs ih =>
    have hb : b < 256 := h b (List.mem_cons_self _ _)
    have h1 : (b + 256 * of_bytes_le bs) % 256 = b := by omega
    have h2 : (b + 256 * of_bytes_le bs) / 256 = of_bytes_le bs := by omega
    simp only [List.length_cons, of_bytes_le, bytes_le, h1, h2]
    rw [ih (fun x hx => h x (List.mem_cons_of_mem _ hx))]

theorem of_bytes_le_bytes_le (n v : Nat) : of_bytes_le (bytes_le n v) = v % 256 ^ n := by
  induction n generalizing v with
  | zero => simp [bytes_le, of_bytes_le, Nat.mod_one]
  | succ n ih =>
    simp only [bytes_le, of_bytes_le, ih]
    rw [Nat.pow_succ, Nat.mul_comm (256 ^ n) 256, Nat.mod_mul]

theorem of_bytes_le_bytes_le_of_lt (n v : Nat) (h : v < 256 ^ n) :
    of_bytes_le (bytes_le n v) = v := by
  rw [of_bytes_le_bytes_le, Nat.mod_eq_of_lt h]

theorem store_host_le (host : HostOrder) (n v : Nat) :
    store host n (host_le host n v) = bytes_le n v := by
  cases host
  · rfl
  · have h := bytes_le_of_bytes_le (bytes_le n v).reverse
      (fun b hb => bytes_le_lt n v b (List.mem_reverse.mp hb))
    simp only [List.length_reverse, bytes_le_length] at h
    simp [store, host_le, bswap, h]

theorem store_host_be (host : HostOrder) (n v : Nat) :
    store host n (host_be host n v) = (bytes_le n v).reverse := by
  cases host
  · have h := bytes_le_of_bytes_le (bytes_le n v).reverse
      (fun b hb => bytes_le_lt n v b (List.mem_reverse.mp hb))
    simp only [List.length_reverse, bytes_le_length] at h
    simp [store, host_be, bswap, h]
  · rfl

theorem host_le_load (host : HostOrder) (bs : List Nat) (h : ∀ b ∈ bs, b < 256) :
    host_le host bs.length (load host bs) = of_bytes_le bs := by
  cases host
  · rfl
  · have h1 := bytes_le_of_bytes_le bs.reverse (fun b hb => h b (List.mem_reverse.mp hb))
    simp only [List.length_reverse] at h1
    simp [host_le, load, bswap, h1]

theorem host_be_load (host : HostOrder) (bs : List Nat) (h : ∀ b ∈ bs, b < 256) :
    host_be host bs.length (load host bs) = of_bytes_le bs.reverse := by
  cases host
  · have h1 := bytes_le_of_bytes_le bs h
    simp [host_be, load, bswap, h1]
  · rfl


theorem swap32_bytes (a b c d : Nat) (ha : a < 256) (hb : b < 256) (hc : c < 256)
    (hd : d < 256) : swap32 (of_bytes_le [a, b, c, d]) = of_bytes_le [c, d, a, b] := by
  have hlt : of_bytes_le [a, b, c, d] < 2 ^ 32 := by simp only [of_bytes_le]; omega
  rw [swap32_eq _ hlt]
  simp only [of_bytes_le]
  omega

theorem swap64_bytes (a b c d e f g h : Nat) (ha : a < 256) (hb : b < 256) (hc : c < 256)
    (hd : d < 256) (he : e < 256) (hf : f < 256) (hg : g < 256) (hh : h < 256) :
    swap64 (of_bytes_le [a, b, c, d, e, f, g, h]) = of_bytes_le [e, f, g, h, a, b, c, d] := by
  have hlt : of_bytes_le [a, b, c, d, e, f, g, h] < 2 ^ 64 := by simp only [of_bytes_le]; omega
  rw [swap64_eq _ hlt]
  simp only [of_bytes_le]
  omega


theorem bytes_le_mod (n v : Nat) : bytes_le n (v % 256 ^ n) = bytes_le n v := by
  have h := bytes_le_of_bytes_le (bytes_le n v) (bytes_le_lt n v)
  rwa [bytes_le_length, of_bytes_le_bytes_le] at h

theorem mem4 {a b c d : Nat} (ha : a < 256) (hb : b < 256) (hc : c < 256) (hd : d < 256) :
    ∀ x ∈ [a, b, c, d], x < 256 := by
  intro x hx
  simp only [List.mem_cons, List.mem_singleton, List.not_mem_nil, or_false] at hx
  rcases hx with rfl | rfl | rfl | rfl <;> assumption

theorem mem8 {a b c d e f g h : Nat} (ha : a < 256) (hb : b < 256) (hc : c < 256)
    (hd : d < 256) (he : e < 256) (hf : f < 256) (hg : g < 256) (hh : h < 256) :
    ∀ x ∈ [a, b, c, d, e, f, g, h], x < 256 := by
  intro x hx
  simp only [List.mem_cons, List.mem_singleton, List.not_mem_nil, or_false] at hx
  rcases hx with rfl | rfl | rfl | rfl | rfl | rfl | rfl | rfl <;> assumption

theorem bytes4 (v : Nat) : ∃ a b c d, a < 256 ∧ b < 256 ∧ c < 256 ∧ d < 256 ∧
    bytes_le 4 v = [a, b, c, d] :=
  ⟨v % 256, v / 256 % 256, v / 256 / 256 % 256, v / 256 / 256 / 256 % 256,
    Nat.mod_lt _ (by decide), Nat.mod_lt _ (by decide), Nat.mod_lt _ (by decide),
    Nat.mod_lt _ (by decide), rfl⟩

theorem bl4 {a b c d : Nat} (ha : a < 256) (hb : b < 256) (hc : c < 256) (hd : d < 256) :
    bytes_le 4 (of_bytes_le [a, b, c, d]) = [a, b, c, d] :=
  bytes_le_of_bytes_le [a, b, c, d] (mem4 ha hb hc hd)

theorem bl8 {a b c d e f g h : Nat} (ha : a < 256) (hb : b < 256) (hc : c < 256)
    (hd : d < 256) (he : e < 256) (hf : f < 256) (hg : g < 256) (hh : h < 256) :
    bytes_le 8 (of_bytes_le [a, b, c, d, e, f, g, h]) = [a, b, c, d, e, f, g, h] :=
  bytes_le_of_bytes_le [a, b, c, d, e, f, g, h] (mem8 ha hb hc hd he hf hg hh)

theorem store_swap32 (host : HostOrder) {a b c d : Nat} (ha : a < 256) (hb : b < 256)
    (hc : c < 256) (hd : d < 256) :
    store host 4 (swap32 (host_le host 4 (of_bytes_le [a, b, c, d]))) = [c, d, a, b] ∧
    store host 4 (swap32 (host_be host 4 (of_bytes_le [a, b, c, d]))) = [b, a, d, c] := by
  cases host
  · constructor
    · simp only [host_le, store]
      rw [swap32_bytes a b c d ha hb hc hd, bl4 hc hd ha hb]
    · simp only [host_be, store, bswap]
      rw [bl4 ha hb hc hd]
      simp only [List.reverse_cons, List.reverse_nil, List.nil_append, List.cons_append]
      rw [swap32_bytes d c b a hd hc hb ha, bl4 hb ha hd hc]
  · constructor
    · simp only [host_le, store, bswap]
      rw [bl4 ha hb hc hd]
      simp only [List.reverse_cons, List.reverse_nil, List.nil_append, List.cons_append]
      rw [swap32_bytes d c b a hd hc hb ha, bl4 hb ha hd hc]
      rfl
    · simp only [host_be, store]
      rw [swap32_bytes a b c d ha hb hc hd, bl4 hc hd ha hb]
      rfl

theorem load_swap32 (host : HostOrder) {a b c d : Nat} (ha : a < 256) (hb : b < 256)
    (hc : c < 256) (hd : d < 256) :
    swap32 (host_le host 4 (load host [a, b, c, d])) = of_bytes_le [c, d, a, b] ∧
    swap32 (host_be host 4 (load host [a, b, c, d])) = of_bytes_le [b, a, d, c] := by
  have h1 := host_le_load host [a, b, c, d] (mem4 ha hb hc hd)
  have h2 := host_be_load host [a, b, c, d] (mem4 ha hb hc hd)
  simp only [List.length_cons, List.length_nil, List.reverse_cons, List.reverse_nil,
    List.nil_append, List.cons_append] at h1 h2
  constructor
  · rw [h1, swap32_bytes a b c d ha hb hc hd]
  · rw [h2, swap32_bytes d c b a hd hc hb ha]


theorem store_swap64 (host : HostOrder) {a b c d e f g h : Nat} (ha : a < 256)
    (hb : b < 256) (hc : c < 256) (hd : d < 256) (he : e < 256) (hf : f < 256)
    (hg : g < 256) (hh : h < 256) :
    store host 8 (swap64 (host_le host 8 (of_bytes_le [a, b, c, d, e, f, g, h])))
      = [e, f, g, h, a, b, c, d] ∧
    store host 8 (swap64 (host_be host 8 (of_bytes_le [a, b, c, d, e, f, g, h])))
      = [d, c, b, a, h, g, f, e] := by
  cases host
  · constructor
    · simp only [host_le, store]
      rw [swap64_bytes a b c d e f g h ha hb hc hd he hf hg hh, bl8 he hf hg hh ha hb hc hd]
    · simp only [host_be, store, bswap]
      rw [bl8 ha hb hc hd he hf hg hh]
      simp only [List.reverse_cons, List.reverse_nil, List.nil_append, List.cons_append]
      rw [swap64_bytes h g f e d c b a hh hg hf he hd hc hb ha, bl8 hd hc hb ha hh hg hf he]
  · constructor
    · simp only [host_le, store, bswap]
      rw [bl8 ha hb hc hd he hf hg hh]
      simp only [List.reverse_cons, List.reverse_nil, List.nil_append, List.cons_append]
      rw [swap64_bytes h g f e d c b a hh hg hf he hd hc hb ha, bl8 hd hc hb ha hh hg hf he]
      rfl
    · simp only [host_be, store]
      rw [swap64_bytes a b c d e f g h ha hb hc hd he hf hg hh, bl8 he hf hg hh ha hb hc hd]
      rfl

theorem load_swap64 (host : HostOrder) {a b c d e f g h : Nat} (ha : a < 256)
    (hb : b < 256) (hc : c < 256) (hd : d < 256) (he : e < 256) (hf : f < 256)
    (hg : g < 256) (hh : h < 256) :
    swap64 (host_le host 8 (load host [a, b, c, d, e, f, g, h]))
      = of_bytes_le [e, f, g, h, a, b, c, d] ∧
    swap64 (host_be host 8 (load host [a, b, c, d, e, f, g, h]))
      = of_bytes_le [d, c, b, a, h, g, f, e] := by
  have h1 := host_le_load host [a, b, c, d, e, f, g, h] (mem8 ha hb hc hd he hf hg hh)
  have h2 := host_be_load host [a, b, c, d, e, f, g, h] (mem8 ha hb hc hd he hf hg hh)
  simp only [List.length_cons, List.length_nil, List.reverse_cons, List.reverse_nil,
    List.nil_append, List.cons_append] at h1 h2
  constructor
  · rw [h1, swap64_bytes a b c d e f g h ha hb hc hd he hf hg hh]
  · rw [h2, swap64_bytes h g f e d c b a hh hg hf he hd hc hb ha]

theorem bytes8 (v : Nat) : ∃ a b c d e f g h, a < 256 ∧ b < 256 ∧ c < 256 ∧ d < 256 ∧
    e < 256 ∧ f < 256 ∧ g < 256 ∧ h < 256 ∧ bytes_le 8 v = [a, b, c, d, e, f, g, h] :=
  ⟨v % 256, v / 256 % 256, v / 256 / 256 % 256, v / 256 / 256 / 256 % 256,
    v / 256 / 256 / 256 / 256 % 256, v / 256 / 256 / 256 / 256 / 256 % 256,
    v / 256 / 256 / 256 / 256 / 256 / 256 % 256,
    v / 256 / 256 / 256 / 256 / 256 / 256 / 256 % 256,
    Nat.mod_lt _ (by decide), Nat.mod_lt _ (by decide), Nat.mod_lt _ (by decide),
    Nat.mod_lt _ (by decide), Nat.mod_lt _ (by decide), Nat.mod_lt _ (by decide),
    Nat.mod_lt _ (by decide), Nat.mod_lt _ (by decide), rfl⟩

theorem bytes2 (v : Nat) : ∃ a b, a < 256 ∧ b < 256 ∧ bytes_le 2 v = [a, b] :=
  ⟨v % 256, v / 256 % 256, Nat.mod_lt _ (by decide), Nat.mod_lt _ (by decide), rfl⟩

theorem h2d_4 (host : HostOrder) (v : Nat) {a b c d : Nat} (ha : a < 256) (hb : b < 256)
    (hc : c < 256) (hd : d < 256) (hv : bytes_le 4 v = [a, b, c, d]) :
    host_to_device host v 4 .Little = .ok [a, b, c, d] ∧
    host_to_device host v 4 .Big = .ok [d, c, b, a] ∧
    host_to_device host v 4 .LittleSwapped = .ok [c, d, a, b] ∧
    host_to_device host v 4 .BigSwapped = .ok [b, a, d, c] := by
  have hm : v % 2 ^ 32 = of_bytes_le [a, b, c, d] := by
    rw [← hv, of_bytes_le_bytes_le]; norm_num
  have hs := store_swap32 host ha hb hc hd
  have h1 := store_host_le host 4 (of_bytes_le [a, b, c, d])
  have h2 := store_host_be host 4 (of_bytes_le [a, b, c, d])
  rw [bl4 ha hb hc hd] at h1 h2
  simp only [host_to_device, htole32, htobe32, hm, h1, h2, hs.1, hs.2]
  simp

theorem d2h_4 (host : HostOrder) {a b c d : Nat} (ha : a < 256) (hb : b < 256)
    (hc : c < 256) (hd : d < 256) :
    device_to_host host [a, b, c, d] 4 .Little = .ok (of_bytes_le [a, b, c, d]) ∧
    device_to_host host [a, b, c, d] 4 .Big = .ok (of_bytes_le [d, c, b, a]) ∧
    device_to_host host [a, b, c, d] 4 .LittleSwapped = .ok (of_bytes_le [c, d, a, b]) ∧
    device_to_host host [a, b, c, d] 4 .BigSwapped = .ok (of_bytes_le [b, a, d, c]) := by
  have h1 := host_le_load host [a, b, c, d] (mem4 ha hb hc hd)
  have h2 := host_be_load host [a, b, c, d] (mem4 ha hb hc hd)
  have hs := load_swap32 host ha hb hc hd
  simp only [List.length_cons, List.length_nil, List.reverse_cons, List.reverse_nil,
    List.nil_append, List.cons_append] at h1 h2
  have hl : load_at host [a, b, c, d] 4 = some (load host [a, b, c, d]) := by
    simp [load_at]
  simp only [device_to_host, hl, le32toh, be32toh]
  exact ⟨by rw [h1], by rw [h2], by rw [hs.1], by rw [hs.2]⟩


theorem h2d_8 (host : HostOrder) (v : Nat) {a b c d e f g h : Nat} (ha : a < 256)
    (hb : b < 256) (hc : c < 256) (hd : d < 256) (he : e < 256) (hf : f < 256)
    (hg : g < 256) (hh : h < 256) (hv : bytes_le 8 v = [a, b, c, d, e, f, g, h]) :
    host_to_device host v 8 .Little = .ok [a, b, c, d, e, f, g, h] ∧
    host_to_device host v 8 .Big = .ok [h, g, f, e, d, c, b, a] ∧
    host_to_device host v 8 .LittleSwapped = .ok [e, f, g, h, a, b, c, d] ∧
    host_to_device host v 8 .BigSwapped = .ok [d, c, b, a, h, g, f, e] := by
  have hm : v % 2 ^ 64 = of_bytes_le [a, b, c, d, e, f, g, h] := by
    rw [← hv, of_bytes_le_bytes_le]; norm_num
  have hs := store_swap64 host ha hb hc hd he hf hg hh
  have h1 := store_host_le host 8 (of_bytes_le [a, b, c, d, e, f, g, h])
  have h2 := store_host_be host 8 (of_bytes_le [a, b, c, d, e, f, g, h])
  rw [bl8 ha hb hc hd he hf hg hh] at h1 h2
  simp only [host_to_device, htole64, htobe64, hm, h1, h2, hs.1, hs.2]
  simp

theorem d2h_8 (host : HostOrder) {a b c d e f g h : Nat} (ha : a < 256)
    (hb : b < 256) (hc : c < 256) (hd : d < 256) (he : e < 256) (hf : f < 256)
    (hg : g < 256) (hh : h < 256) :
    device_to_host host [a, b, c, d, e, f, g, h] 8 .Little
      = .ok (of_bytes_le [a, b, c, d, e, f, g, h]) ∧
    device_to_host host [a, b, c, d, e, f, g, h] 8 .Big
      = .ok (of_bytes_le [h, g, f, e, d, c, b, a]) ∧
    device_to_host host [a, b, c, d, e, f, g, h] 8 .LittleSwapped
      = .ok (of_bytes_le [e, f, g, h, a, b, c, d]) ∧
    device_to_host host [a, b, c, d, e, f, g, h] 8 .BigSwapped
      = .ok (of_bytes_le [d, c, b, a, h, g, f, e]) := by
  have h1 := host_le_load host [a, b, c, d, e, f, g, h] (mem8 ha hb hc hd he hf hg hh)
  have h2 := host_be_load host [a, b, c, d, e, f, g, h] (mem8 ha hb hc hd he hf hg hh)
  have hs := load_swap64 host ha hb hc hd he hf hg hh
  simp only [List.length_cons, List.length_nil, List.reverse_cons, List.reverse_nil,
    List.nil_append, List.cons_append] at h1 h2
  have hl : load_at host [a, b, c, d, e, f, g, h] 8
      = some (load host [a, b, c, d, e, f, g, h]) := by
    simp [load_at]
  simp only [device_to_host, hl, le64toh, be64toh]
  exact ⟨by rw [h1], by rw [h2], by rw [hs.1], by rw [hs.2]⟩

theorem mem2 {a b : Nat} (ha : a < 256) (hb : b < 256) : ∀ x ∈ [a, b], x < 256 := by
  intro x hx
  simp only [List.mem_cons, List.mem_singleton, List.not_mem_nil, or_false] at hx
  rcases hx with rfl | rfl <;> assumption

theorem h2d_2 (host : HostOrder) (v : Nat) {a b : Nat} (ha : a < 256) (hb : b < 256)
    (hv : bytes_le 2 v = [a, b]) :
    host_to_device host v 2 .Little = .ok [a, b] ∧
    host_to_device host v 2 .Big = .ok [b, a] := by
  have hm : v % 2 ^ 16 = of_bytes_le [a, b] := by
    rw [← hv, of_bytes_le_bytes_le]; norm_num
  have h1 := store_host_le host 2 (of_bytes_le [a, b])
  have h2 := store_host_be host 2 (of_bytes_le [a, b])
  rw [show bytes_le 2 (of_bytes_le [a, b]) = [a, b] from
    bytes_le_of_bytes_le [a, b] (mem2 ha hb)] at h1 h2
  simp only [host_to_device, htole16, htobe16, hm, h1, h2]
  simp

theorem d2h_2 (host : HostOrder) {a b : Nat} (ha : a < 256) (hb : b < 256) :
    device_to_host host [a, b] 2 .Little = .ok (of_bytes_le [a, b]) ∧
    device_to_host host [a, b] 2 .Big = .ok (of_bytes_le [b, a]) := by
  have h1 := host_le_load host [a, b] (mem2 ha hb)
  have h2 := host_be_load host [a, b] (mem2 ha hb)
  simp only [List.length_cons, List.length_nil, List.reverse_cons, List.reverse_nil,
    List.nil_append, List.cons_append] at h1 h2
  have hl : load_at host [a, b] 2 = some (load host [a, b]) := by
    simp [load_at]
  simp only [device_to_host, hl, le16toh, be16toh]
  exact ⟨by rw [h1], by rw [h2]⟩


theorem round_trip_2 (host : HostOrder) (v : Nat) (hv : v < 2 ^ 16) :
    (∃ bytes, host_to_device host v 2 .Little = .ok bytes ∧ bytes.length = 2 ∧
      device_to_host host bytes 2 .Little = .ok v) ∧
    (∃ bytes, host_to_device host v 2 .Big = .ok bytes ∧ bytes.length = 2 ∧
      device_to_host host bytes 2 .Big = .ok v) := by
  obtain ⟨a, b, ha, hb, hbs⟩ := bytes2 v
  have hv2 : of_bytes_le [a, b] = v := by
    rw [← hbs]; exact of_bytes_le_bytes_le_of_lt 2 v (by norm_num; omega)
  have he := h2d_2 host v ha hb hbs
  refine ⟨⟨_, he.1, rfl, ?_⟩, ⟨_, he.2, rfl, ?_⟩⟩
  · rw [(d2h_2 host ha hb).1, hv2]
  · rw [(d2h_2 host hb ha).2, hv2]

theorem round_trip_4 (host : HostOrder) (v : Nat) (hv : v < 2 ^ 32) :
    (∃ bytes, host_to_device host v 4 .Little = .ok bytes ∧ bytes.length = 4 ∧
      device_to_host host bytes 4 .Little = .ok v) ∧
    (∃ bytes, host_to_device host v 4 .Big = .ok bytes ∧ bytes.length = 4 ∧
      device_to_host host bytes 4 .Big = .ok v) ∧
    (∃ bytes, host_to_device host v 4 .LittleSwapped = .ok bytes ∧ bytes.length = 4 ∧
      device_to_host host bytes 4 .LittleSwapped = .ok v) ∧
    (∃ bytes, host_to_device host v 4 .BigSwapped = .ok bytes ∧ bytes.length = 4 ∧
      device_to_host host bytes 4 .BigSwapped = .ok v) := by
  obtain ⟨a, b, c, d, ha, hb, hc, hd, hbs⟩ := bytes4 v
  have hv2 : of_bytes_le [a, b, c, d] = v := by
    rw [← hbs]; exact of_bytes_le_bytes_le_of_lt 4 v (by norm_num; omega)
  have he := h2d_4 host v ha hb hc hd hbs
  refine ⟨⟨_, he.1, rfl, ?_⟩, ⟨_, he.2.1, rfl, ?_⟩, ⟨_, he.2.2.1, rfl, ?_⟩,
    ⟨_, he.2.2.2, rfl, ?_⟩⟩
  · rw [(d2h_4 host ha hb hc hd).1, hv2]
  · rw [(d2h_4 host hd hc hb ha).2.1, hv2]
  · rw [(d2h_4 host hc hd ha hb).2.2.1, hv2]
  · rw [(d2h_4 host hb ha hd hc).2.2.2, hv2]

theorem round_trip_8 (host : HostOrder) (v : Nat) (hv : v < 2 ^ 64) :
    (∃ bytes, host_to_device host v 8 .Little = .ok bytes ∧ bytes.length = 8 ∧
      device_to_host host bytes 8 .Little = .ok v) ∧
    (∃ bytes, host_to_device host v 8 .Big = .ok bytes ∧ bytes.length = 8 ∧
      device_to_host host bytes 8 .Big = .ok v) ∧
    (∃ bytes, host_to_device host v 8 .LittleSwapped = .ok bytes ∧ bytes.length = 8 ∧
      device_to_host host bytes 8 .LittleSwapped = .ok v) ∧
    (∃ bytes, host_to_device host v 8 .BigSwapped = .ok bytes ∧ bytes.length = 8 ∧
      device_to_host host bytes 8 .BigSwapped = .ok v) := by
  obtain ⟨a, b, c, d, e, f, g, h, ha, hb, hc, hd, he, hf, hg, hh, hbs⟩ := bytes8 v
  have hv2 : of_bytes_le [a, b, c, d, e, f, g, h] = v := by
    rw [← hbs]; exact of_bytes_le_bytes_le_of_lt 8 v (by norm_num; omega)
  have hx := h2d_8 host v ha hb hc hd he hf hg hh hbs
  refine ⟨⟨_, hx.1, rfl, ?_⟩, ⟨_, hx.2.1, rfl, ?_⟩, ⟨_, hx.2.2.1, rfl, ?_⟩,
    ⟨_, hx.2.2.2, rfl, ?_⟩⟩
  · rw [(d2h_8 host ha hb hc hd he hf hg hh).1, hv2]
  · rw [(d2h_8 host hh hg hf he hd hc hb ha).2.1, hv2]
  · rw [(d2h_8 host he hf hg hh ha hb hc hd).2.2.1, hv2]
  · rw [(d2h_8 host hd hc hb ha hh hg hf he).2.2.2, hv2]

/-- C1: for every supported (width, order) pair and every value below
`2^(8*width)`, `host_to_device` writes `width` bytes and `device_to_host` on
those bytes, with the same width and order, returns the value; on hosts of
either byte order. -/
theorem codec_round_trip (host : HostOrder) (v w : Nat) (o : Endianness)
    (hs : supported w o = true) (hv : v < 2 ^ (8 * w)) :
    ∃ bytes, host_to_device host v w o = .ok bytes ∧ bytes.length = w ∧
      device_to_host host bytes w o = .ok v := by
  unfold supported at hs
  split at hs
  all_goals first
    | (exfalso; exact Bool.false_ne_true hs)
    | skip
  · refine ⟨[v % 256], ?_, rfl, ?_⟩
    · simp [host_to_device, land_ff]
    · have : v % 256 = v := Nat.mod_eq_of_lt (by simpa using hv)
      simp [device_to_host, this]
  · exact (round_trip_2 host v hv).2
  · exact (round_trip_2 host v hv).1
  · exact (round_trip_4 host v hv).2.1
  · exact (round_trip_4 host v hv).1
  · exact (round_trip_4 host v hv).2.2.2
  · exact (round_trip_4 host v hv).2.2.1
  · exact (round_trip_8 host v hv).2.1
  · exact (round_trip_8 host v hv).1
  · exact (round_trip_8 host v hv).2.2.2
  · exact (round_trip_8 host v hv).2.2.1

theorem codec_round_trip_witness :
    ∃ bytes, host_to_device .little 0x11223344 4 .BigSwapped = .ok bytes ∧
      bytes.length = 4 ∧ device_to_host .little bytes 4 .BigSwapped = .ok 0x11223344 :=
  codec_round_trip .little 0x11223344 4 .BigSwapped (by decide) (by decide)

/-- C2, as the claim states it, fails: the plain Big encoding of
`0x0011223344556677` is the words `(0011, 2233, 4455, 6677)`, and BigSwapped
writes `(4455, 6677, 0011, 2233)`, not `(2233, 0011, 6677, 4455)`. -/
theorem swap64_not_pairwise :
    host_to_device .little 0x0011223344556677 8 .Big
      = .ok [0x00, 0x11, 0x22, 0x33, 0x44, 0x55, 0x66, 0x77] ∧
    host_to_device .little 0x0011223344556677 8 .BigSwapped
      = .ok [0x44, 0x55, 0x66, 0x77, 0x00, 0x11, 0x22, 0x33] ∧
    host_to_device .little 0x0011223344556677 8 .BigSwapped
      ≠ .ok [0x22, 0x33, 0x00, 0x11, 0x66, 0x77, 0x44, 0x55] := by
  decide

/-- C2, amended: at width 8 the swapped orders exchange the two 32-bit halves
of the plain encoding: with the plain Big (resp. Little) encoding of a 64-bit
value being the bytes `b0 .. b7`, BigSwapped (resp. LittleSwapped) writes
`b4 b5 b6 b7 b0 b1 b2 b3`, that is the 16-bit words `(w2, w3, w0, w1)`, and
`device_to_host` maps those bytes back to the value. -/
theorem swap64_exchanges_halves (host : HostOrder) (v : Nat) (hv : v < 2 ^ 64) :
    (∃ b0 b1 b2 b3 b4 b5 b6 b7,
      host_to_device host v 8 .Big = .ok [b0, b1, b2, b3, b4, b5, b6, b7] ∧
      host_to_device host v 8 .BigSwapped = .ok [b4, b5, b6, b7, b0, b1, b2, b3] ∧
      device_to_host host [b4, b5, b6, b7, b0, b1, b2, b3] 8 .BigSwapped = .ok v) ∧
    (∃ b0 b1 b2 b3 b4 b5 b6 b7,
      host_to_device host v 8 .Little = .ok [b0, b1, b2, b3, b4, b5, b6, b7] ∧
      host_to_device host v 8 .LittleSwapped = .ok [b4, b5, b6, b7, b0, b1, b2, b3] ∧
      device_to_host host [b4, b5, b6, b7, b0, b1, b2, b3] 8 .LittleSwapped = .ok v) := by
  obtain ⟨a, b, c, d, e, f, g, h, ha, hb, hc, hd, he, hf, hg, hh, hbs⟩ := bytes8 v
  have hv2 : of_bytes_le [a, b, c, d, e, f, g, h] = v := by
    rw [← hbs]; exact of_bytes_le_bytes_le_of_lt 8 v (by norm_num; omega)
  have hx := h2d_8 host v ha hb hc hd he hf hg hh hbs
  refine ⟨⟨_, _, _, _, _, _, _, _, hx.2.1, hx.2.2.2, ?_⟩,
    ⟨_, _, _, _, _, _, _, _, hx.1, hx.2.2.1, ?_⟩⟩
  · rw [(d2h_8 host hd hc hb ha hh hg hf he).2.2.2, hv2]
  · rw [(d2h_8 host he hf hg hh ha hb hc hd).2.2.1, hv2]

theorem swap64_exchanges_halves_witness :
    (∃ b0 b1 b2 b3 b4 b5 b6 b7,
      host_to_device .big 0x0011223344556677 8 .Big = .ok [b0, b1, b2, b3, b4, b5, b6, b7] ∧
      host_to_device .big 0x0011223344556677 8 .BigSwapped
        = .ok [b4, b5, b6, b7, b0, b1, b2, b3] ∧
      device_to_host .big [b4, b5, b6, b7, b0, b1, b2, b3] 8 .BigSwapped
        = .ok 0x0011223344556677) ∧
    (∃ b0 b1 b2 b3 b4 b5 b6 b7,
      host_to_device .big 0x0011223344556677 8 .Little = .ok [b0, b1, b2, b3, b4, b5, b6, b7] ∧
      host_to_device .big 0x0011223344556677 8 .LittleSwapped
        = .ok [b4, b5, b6, b7, b0, b1, b2, b3] ∧
      device_to_host .big [b4, b5, b6, b7, b0, b1, b2, b3] 8 .LittleSwapped
        = .ok 0x0011223344556677) :=
  swap64_exchanges_halves .big 0x0011223344556677 (by decide)

/-- C3: at width 4, with the Little (resp. Big) encoding of a value being the
bytes `b0 b1 b2 b3`, LittleSwapped (resp. BigSwapped) writes `b2 b3 b0 b1`; in
particular `0x11223344` under LittleSwapped is written as `22 11 44 33`. -/
theorem swap32_exchanges_halves (host : HostOrder) (v : Nat) :
    (∃ b0 b1 b2 b3,
      host_to_device host v 4 .Little = .ok [b0, b1, b2, b3] ∧
      host_to_device host v 4 .LittleSwapped = .ok [b2, b3, b0, b1]) ∧
    (∃ b0 b1 b2 b3,
      host_to_device host v 4 .Big = .ok [b0, b1, b2, b3] ∧
      host_to_device host v 4 .BigSwapped = .ok [b2, b3, b0, b1]) ∧
    host_to_device host 0x11223344 4 .LittleSwapped = .ok [0x22, 0x11, 0x44, 0x33] := by
  obtain ⟨a, b, c, d, ha, hb, hc, hd, hbs⟩ := bytes4 v
  have hx := h2d_4 host v ha hb hc hd hbs
  refine ⟨⟨_, _, _, _, hx.1, hx.2.2.1⟩, ⟨_, _, _, _, hx.2.1, hx.2.2.2⟩, ?_⟩
  cases host <;> decide

theorem h2d_supported (host : HostOrder) (v w : Nat) (o : Endianness)
    (hs : supported w o = true) :
    (w = 1 ∧ ∃ a, host_to_device host v w o = .ok [a]) ∨
    (w = 2 ∧ ∃ a b, host_to_device host v w o = .ok [a, b]) ∨
    (w = 4 ∧ ∃ a b c d, host_to_device host v w o = .ok [a, b, c, d]) ∨
    (w = 8 ∧ ∃ a b c d e f g h, host_to_device host v w o = .ok [a, b, c, d, e, f, g, h]) := by
  obtain ⟨a2, b2, ha2, hb2, hbs2⟩ := bytes2 v
  obtain ⟨a4, b4, c4, d4, ha4, hb4, hc4, hd4, hbs4⟩ := bytes4 v
  obtain ⟨a, b, c, d, e, f, g, h, ha, hb, hc, hd, he, hf, hg, hh, hbs⟩ := bytes8 v
  have h2 := h2d_2 host v ha2 hb2 hbs2
  have h4 := h2d_4 host v ha4 hb4 hc4 hd4 hbs4
  have h8 := h2d_8 host v ha hb hc hd he hf hg hh hbs
  unfold supported at hs
  split at hs
  all_goals first
    | (exfalso; exact Bool.false_ne_true hs)
    | skip
  · exact Or.inl ⟨rfl, _, rfl⟩
  · exact Or.inr (Or.inl ⟨rfl, _, _, h2.2⟩)
  · exact Or.inr (Or.inl ⟨rfl, _, _, h2.1⟩)
  · exact Or.inr (Or.inr (Or.inl ⟨rfl, _, _, _, _, h4.2.1⟩))
  · exact Or.inr (Or.inr (Or.inl ⟨rfl, _, _, _, _, h4.1⟩))
  · exact Or.inr (Or.inr (Or.inl ⟨rfl, _, _, _, _, h4.2.2.2⟩))
  · exact Or.inr (Or.inr (Or.inl ⟨rfl, _, _, _, _, h4.2.2.1⟩))
  · exact Or.inr (Or.inr (Or.inr ⟨rfl, _, _, _, _, _, _, _, _, h8.2.1⟩))
  · exact Or.inr (Or.inr (Or.inr ⟨rfl, _, _, _, _, _, _, _, _, h8.1⟩))
  · exact Or.inr (Or.inr (Or.inr ⟨rfl, _, _, _, _, _, _, _, _, h8.2.2.2⟩))
  · exact Or.inr (Or.inr (Or.inr ⟨rfl, _, _, _, _, _, _, _, _, h8.2.2.1⟩))

theorem h2d_aabb (host : HostOrder) :
    host_to_device host 0xAABB 2 .Big = .ok [0xAA, 0xBB] ∧
    host_to_device host 0xAABB 2 .Little = .ok [0xBB, 0xAA] := by
  cases host <;> decide

theorem d2h_aabb (host : HostOrder) (rest : List Nat) :
    device_to_host host (0xAA :: 0xBB :: rest) 2 .Big = .ok 0xAABB ∧
    device_to_host host (0xBB :: 0xAA :: rest) 2 .Little = .ok 0xAABB := by
  have h1 : load_at host (0xAA :: 0xBB :: rest) 2 = some (load host [0xAA, 0xBB]) := by
    simp [load_at]
  have h2 : load_at host (0xBB :: 0xAA :: rest) 2 = some (load host [0xBB, 0xAA]) := by
    simp [load_at]
  simp only [device_to_host, h1, h2]
  cases host <;> decide

theorem echo_big_little (host : HostOrder) (t : I2CTarget) (addr : Nat) (dev : List Nat)
    (ha : supported t.m_address_bytes t.m_address_endianness = true)
    (hd : t.m_data_endianness = .Big ∨ t.m_data_endianness = .Little) :
    ∃ dev1, t.write host (echo_transport t.m_address_bytes) dev addr 2 0xAABB = (.ok (), dev1) ∧
      (t.read host (echo_transport t.m_address_bytes) dev1 addr 2).1 = .ok 0xAABB := by
  obtain ⟨i2c, off, aend, ab, dend, db⟩ := t
  simp only at ha hd
  have hb := h2d_aabb host
  have hdec := d2h_aabb host
  rcases h2d_supported host ((addr + off) % 18446744073709551616) ab aend ha with
    ⟨rfl, a, h⟩ | ⟨rfl, a, b, h⟩ | ⟨rfl, a, b, c, d, h⟩ | ⟨rfl, a, b, c, d, e, f, g, h', h⟩ <;>
  rcases hd with rfl | rfl <;>
  simp [I2CTarget.write, I2CTarget.read, host_to_device_at, Result.bind, h, hb.1, hb.2,
    write_at, echo_transport, hdec]


theorem h2d_2_swapped (host : HostOrder) (v : Nat) :
    host_to_device host v 2 .BigSwapped = .throw (.invalid_argument "Bad endianness") ∧
    host_to_device host v 2 .LittleSwapped = .throw (.invalid_argument "Bad endianness") := by
  simp [host_to_device]

theorem write_swapped_throws (host : HostOrder) (t : I2CTarget) (addr v : Nat) (dev : List Nat)
    (ha : supported t.m_address_bytes t.m_address_endianness = true)
    (hd : t.m_data_endianness = .BigSwapped ∨ t.m_data_endianness = .LittleSwapped) :
    t.write host (echo_transport t.m_address_bytes) dev addr 2 v
      = (.throw (.invalid_argument "Bad endianness"), dev) := by
  obtain ⟨i2c, off, aend, ab, dend, db⟩ := t
  simp only at ha hd
  rcases h2d_supported host ((addr + off) % 18446744073709551616) ab aend ha with
    ⟨rfl, a, h⟩ | ⟨rfl, a, b, h⟩ | ⟨rfl, a, b, c, d, h⟩ | ⟨rfl, a, b, c, d, e, f, g, h', h⟩ <;>
  rcases hd with rfl | rfl <;>
  simp [I2CTarget.write, host_to_device_at, Result.bind, h, write_at,
    (h2d_2_swapped host v).1, (h2d_2_swapped host v).2]

/-- C9, as the claim states it, fails: with an order that is none of the four
enumerators, width 2 ends in the exception `invalid_argument`, not in
`abort()`, and width 1 converts the byte. -/
theorem bad_order_is_not_fatal :
    host_to_device .little 0x41 2 (.other 0) = .throw (.invalid_argument "Bad endianness") ∧
    host_to_device .little 0x41 2 (.other 0) ≠ .abort ∧
    device_to_host .little [0x41, 0] 2 (.other 0)
      = .throw (.invalid_argument "Bad endianness") ∧
    host_to_device .little 0x41 1 (.other 0) = .ok [0x41] ∧
    device_to_host .little [0x41] 1 (.other 0) = .ok 0x41 := by
  decide

/-- C9, amended: for every width outside {1,2,4,8}, whatever the order, both
`host_to_device` and `device_to_host` end in `abort()`; for width 2, 4 or 8 and
an order that is none of the four enumerators both throw
`invalid_argument("Bad endianness")`; at width 1 the order is not examined and
the byte is converted. -/
theorem bad_width_aborts_bad_order_throws (host : HostOrder) :
    (∀ w v buf o, w ≠ 1 → w ≠ 2 → w ≠ 4 → w ≠ 8 →
      host_to_device host v w o = .abort ∧ device_to_host host buf w o = .abort) ∧
    (∀ w raw v buf, (w = 2 ∨ w = 4 ∨ w = 8) → w ≤ buf.length →
      host_to_device host v w (.other raw) = .throw (.invalid_argument "Bad endianness") ∧
      device_to_host host buf w (.other raw) = .throw (.invalid_argument "Bad endianness")) ∧
    (∀ raw v b rest, host_to_device host v 1 (.other raw) = .ok [v % 256] ∧
      device_to_host host (b :: rest) 1 (.other raw) = .ok b) := by
  refine ⟨?_, ?_, ?_⟩
  · intro w v buf o h1 h2 h4 h8
    constructor
    · unfold host_to_device
      split <;> first | contradiction | rfl
    · unfold device_to_host
      split <;> first | contradiction | rfl
  · intro w raw v buf hw hlen
    rcases hw with rfl | rfl | rfl <;> simp [host_to_device, device_to_host, load_at, hlen]
  · intro raw v b rest
    simp [host_to_device, device_to_host, land_ff]

theorem bad_width_aborts_bad_order_throws_witness :
    (host_to_device .little 5 3 .Big = .abort ∧ device_to_host .little [5] 3 .Big = .abort) ∧
    (host_to_device .little 5 4 (.other 9) = .throw (.invalid_argument "Bad endianness") ∧
      device_to_host .little [1, 2, 3, 4] 4 (.other 9)
        = .throw (.invalid_argument "Bad endianness")) :=
  ⟨(bad_width_aborts_bad_order_throws .little).1 3 5 [5] .Big (by decide) (by decide)
      (by decide) (by decide),
    (bad_width_aborts_bad_order_throws .little).2.1 4 9 5 [1, 2, 3, 4] (by decide) (by decide)⟩

/-- C10, as the claim states it, fails: at width 2 BigSwapped does not write the
bytes that Big writes, it throws, and so does a `write` of width 2 on a target
whose data order is BigSwapped. -/
theorem width2_swapped_is_rejected :
    host_to_device .little 0xAABB 2 .Big = .ok [0xAA, 0xBB] ∧
    host_to_device .little 0xAABB 2 .BigSwapped
      = .throw (.invalid_argument "Bad endianness") ∧
    (I2CTarget.write .little
      { m_i2c_addr := 0x50, m_offset := 0, m_address_endianness := .Big, m_address_bytes := 1,
        m_data_endianness := .BigSwapped, m_data_bytes := 2 }
      (echo_transport 1) [] 0x10 2 0xAABB).1 = .throw (.invalid_argument "Bad endianness") := by
  decide

/-- C10, amended: at width 2 both swapped orders are rejected: `host_to_device`
and `device_to_host` throw `invalid_argument("Bad endianness")`. On a target
with a supported address configuration, `write(addr, 2, 0xAABB)` followed by
`read(addr, 2)` through the echoing transport returns `0xAABB` when the data
order is Big or Little, and the `write` throws when it is BigSwapped or
LittleSwapped. -/
theorem width2_orders (host : HostOrder) (t : I2CTarget) (addr : Nat) (dev : List Nat)
    (ha : supported t.m_address_bytes t.m_address_endianness = true) :
    (∀ v, host_to_device host v 2 .BigSwapped = .throw (.invalid_argument "Bad endianness") ∧
      host_to_device host v 2 .LittleSwapped = .throw (.invalid_argument "Bad endianness")) ∧
    (∀ buf, 2 ≤ buf.length →
      device_to_host host buf 2 .BigSwapped = .throw (.invalid_argument "Bad endianness") ∧
      device_to_host host buf 2 .LittleSwapped
        = .throw (.invalid_argument "Bad endianness")) ∧
    ((t.m_data_endianness = .Big ∨ t.m_data_endianness = .Little) →
      ∃ dev1,
        t.write host (echo_transport t.m_address_bytes) dev addr 2 0xAABB = (.ok (), dev1) ∧
        (t.read host (echo_transport t.m_address_bytes) dev1 addr 2).1 = .ok 0xAABB) ∧
    ((t.m_data_endianness = .BigSwapped ∨ t.m_data_endianness = .LittleSwapped) →
      t.write host (echo_transport t.m_address_bytes) dev addr 2 0xAABB
        = (.throw (.invalid_argument "Bad endianness"), dev)) := by
  refine ⟨?_, ?_, echo_big_little host t addr dev ha, write_swapped_throws host t addr _ dev ha⟩
  · exact h2d_2_swapped host
  · intro buf hlen
    simp [device_to_host, load_at, hlen]

theorem width2_orders_witness :
    (device_to_host .little [0xAA, 0xBB] 2 .BigSwapped
        = .throw (.invalid_argument "Bad endianness") ∧
      device_to_host .little [0xAA, 0xBB] 2 .LittleSwapped
        = .throw (.invalid_argument "Bad endianness")) ∧
    (∃ dev1,
      I2CTarget.write .little
        { m_i2c_addr := 0x50, m_offset := 0x100, m_address_endianness := .Big,
          m_address_bytes := 2, m_data_endianness := .Little, m_data_bytes := 2 }
        (echo_transport 2) [] 0x10 2 0xAABB = (.ok (), dev1) ∧
      (I2CTarget.read .little
        { m_i2c_addr := 0x50, m_offset := 0x100, m_address_endianness := .Big,
          m_address_bytes := 2, m_data_endianness := .Little, m_data_bytes := 2 }
        (echo_transport 2) dev1 0x10 2).1 = .ok 0xAABB) ∧
    I2CTarget.write .little
      { m_i2c_addr := 0x50, m_offset := 0x100, m_address_endianness := .Big,
        m_address_bytes := 2, m_data_endianness := .LittleSwapped, m_data_bytes := 2 }
      (echo_transport 2) [] 0x10 2 0xAABB
        = (.throw (.invalid_argument "Bad endianness"), []) :=
  ⟨(width2_orders .little
      { m_i2c_addr := 0x50, m_offset := 0x100, m_address_endianness := .Big,
        m_address_bytes := 2, m_data_endianness := .Little, m_data_bytes := 2 }
      0x10 [] (by decide)).2.1 [0xAA, 0xBB] (by decide),
    (width2_orders .little
      { m_i2c_addr := 0x50, m_offset := 0x100, m_address_endianness := .Big,
        m_address_bytes := 2, m_data_endianness := .Little, m_data_bytes := 2 }
      0x10 [] (by decide)).2.2.1 (Or.inr rfl),
    (width2_orders .little
      { m_i2c_addr := 0x50, m_offset := 0x100, m_address_endianness := .Big,
        m_address_bytes := 2, m_data_endianness := .LittleSwapped, m_data_bytes := 2 }
      0x10 [] (by decide)).2.2.2 (Or.inr rfl)⟩

/-! ## The catalog: lemmas and theorems -/

theorem strcmp_chars_eq_zero (a b : List Char) : strcmp_chars a b = 0 ↔ a = b := by
  induction a generalizing b with
  | nil => cases b <;> simp [strcmp_chars]
  | cons x xs ih =>
    cases b with
    | nil => simp [strcmp_chars]
    | cons y ys =>
      simp only [strcmp_chars]
      by_cases hxy : x = y
      · simp [hxy, ih]
      · simp only [hxy, if_false, List.cons.injEq, false_and, iff_false]
        split <;> decide

theorem strcmp_eq_zero (a b : String) : strcmp a b = 0 ↔ a = b := by
  unfold strcmp
  rw [strcmp_chars_eq_zero]
  constructor
  · exact String.ext
  · intro h; rw [h]

/-- A string without a NUL is its own C string. -/
theorem c_str_of_no_nul (s : String) (h : no_nul s) : c_str s = s := by
  unfold c_str
  have htw : (s.data.takeWhile fun c => c != Char.ofNat 0) = s.data := by
    rw [List.takeWhile_eq_self_iff]
    intro c hc
    simp only [bne_iff_ne, ne_eq]
    intro hc0
    exact h (hc0 ▸ hc)
  rw [htw]

/-- The C string of a string holds no NUL. -/
theorem no_nul_c_str (s : String) : no_nul (c_str s) := by
  unfold no_nul c_str
  intro hmem
  have h := List.mem_takeWhile_imp hmem
  simp at h

/-- A name with an embedded NUL is compared up to that NUL: the lookups find the
record named by the part before it. -/
theorem lookup_reads_name_to_first_nul :
    c_str (String.mk ['d', 'u', 'p', Char.ofNat 0, 'z']) = "dup" ∧
    ¬ no_nul (String.mk ['d', 'u', 'p', Char.ofNat 0, 'z']) ∧
    twin_catalog.find_block (String.mk ['d', 'u', 'p', Char.ofNat 0, 'z']) = .ok (some 1) ∧
    (RegisterFile.mk two_block_catalog).get_register_str (String.mk ['B', Char.ofNat 0])
      = .ok { m_rfd := two_block_catalog, m_rbd := 1, m_rd := 1 } ∧
    (RegisterBlock.mk fields_catalog 0).find_register
      (String.mk ['r', '0', Char.ofNat 0, 'j']) = .ok 0 := by
  decide

/-- Either the loop runs to its end, every body continuing, or it stops at the
first index whose body does not continue, with the outcome of that body. -/
theorem for_loop_cases {α : Type} (body : Nat → Result (Option α)) (n s : Nat) :
    (for_loop body n s = .ok none ∧ ∀ j, j < n → body (s + j) = .ok none) ∨
    (∃ k, k < n ∧ (∀ j, j < k → body (s + j) = .ok none) ∧ body (s + k) ≠ .ok none ∧
      for_loop body n s = body (s + k)) := by
  induction n generalizing s with
  | zero => left; exact ⟨rfl, fun j hj => absurd hj (Nat.not_lt_zero _)⟩
  | succ n ih =>
    by_cases h0 : body s = .ok none
    · have hstep : for_loop body (n + 1) s = for_loop body n (s + 1) := by
        simp only [for_loop, h0]
      rcases ih (s + 1) with ⟨hres, hall⟩ | ⟨k, hk, hprev, hne, hres⟩
      · left
        refine ⟨by rw [hstep, hres], ?_⟩
        intro j hj
        cases j with
        | zero => simpa using h0
        | succ j =>
          have := hall j (by omega)
          rwa [show s + 1 + j = s + (j + 1) by omega] at this
      · right
        refine ⟨k + 1, by omega, ?_, ?_, ?_⟩
        · intro j hj
          cases j with
          | zero => simpa using h0
          | succ j =>
            have := hprev j (by omega)
            rwa [show s + 1 + j = s + (j + 1) by omega] at this
        · rwa [show s + 1 + k = s + (k + 1) by omega] at hne
        · rw [hstep, hres, show s + 1 + k = s + (k + 1) by omega]
    · right
      refine ⟨0, by omega, fun j hj => absurd hj (Nat.not_lt_zero _), by simpa using h0, ?_⟩
      simp only [for_loop, Nat.add_zero]

/-- Two loops whose bodies agree on the indices they visit agree. -/
theorem for_loop_congr {α : Type} (f g : Nat → Result (Option α)) (n s : Nat)
    (h : ∀ j, j < n → f (s + j) = g (s + j)) : for_loop f n s = for_loop g n s := by
  induction n generalizing s with
  | zero => rfl
  | succ n ih =>
    have h0 : f s = g s := by simpa using h 0 (by omega)
    have hrest : for_loop f n (s + 1) = for_loop g n (s + 1) := by
      apply ih
      intro j hj
      have := h (j + 1) (by omega)
      rwa [show s + (j + 1) = s + 1 + j by omega] at this
    simp only [for_loop, h0, hrest]


theorem getElem?_of_lt_length {α : Type} (l : List α) (i : Nat) (h : i < l.length) :
    ∃ x, l[i]? = some x ∧ x ∈ l :=
  ⟨l[i], List.getElem?_eq_getElem h, List.getElem_mem h⟩

theorem lt_length_of_getElem? {α : Type} (l : List α) (i : Nat) (x : α)
    (h : l[i]? = some x) : i < l.length := by
  by_contra hlt
  rw [List.getElem?_eq_none (by omega)] at h
  exact Option.noConfusion h

/-- Outcome of `find_block`: null and no block has the name, or a pointer to
the first block that has it. -/
theorem find_block_spec (rfd : RegisterFileData) (name : String) :
    (rfd.find_block name = .ok none ∧
      ∀ (i : Nat) (b : RegisterBlockData), rfd.blocks[i]? = some b → b.name ≠ c_str name) ∨
    (∃ (i : Nat) (b : RegisterBlockData), rfd.find_block name = .ok (some i) ∧
      rfd.blocks[i]? = some b ∧ b.name = c_str name ∧
      ∀ (j : Nat) (b1 : RegisterBlockData), j < i → rfd.blocks[j]? = some b1 →
        b1.name ≠ c_str name) := by
  have hbody : ∀ (j : Nat) (b : RegisterBlockData), rfd.blocks[j]? = some b →
      rfd.find_block_body name j
        = if b.name = c_str name then Result.ok (some j) else Result.ok none := by
    intro j b hb
    simp only [RegisterFileData.find_block_body, RegisterFileData.at, RegisterFileData.block,
      hb, strcmp_eq_zero]
  unfold RegisterFileData.find_block
  rcases for_loop_cases (rfd.find_block_body name) rfd.num_blocks 0 with
    ⟨hres, hall⟩ | ⟨k, hk, hprev, hne, hres⟩
  · left
    refine ⟨hres, ?_⟩
    intro i b hb hname
    have hi := lt_length_of_getElem? rfd.blocks i b hb
    have h1 := hall i hi
    rw [Nat.zero_add, hbody i b hb, if_pos hname] at h1
    exact absurd h1 (by simp)
  · right
    obtain ⟨b, hb, _⟩ := getElem?_of_lt_length rfd.blocks k hk
    rw [Nat.zero_add] at hne hres
    rw [hbody k b hb] at hne hres
    by_cases hname : b.name = c_str name
    · rw [if_pos hname] at hres
      refine ⟨k, b, hres, hb, hname, ?_⟩
      intro j b1 hj hb1 hname1
      have h1 := hprev j hj
      rw [Nat.zero_add, hbody j b1 hb1, if_pos hname1] at h1
      exact absurd h1 (by simp)
    · rw [if_neg hname] at hne
      exact absurd rfl hne


/-- C7: for a name without an embedded NUL (the code compares `name.c_str()`),
`find_block` returns the block with the smallest array index whose name equals
the given name, and null exactly when no block has that name; with two blocks of
the same name it returns the one with the lower index; `get_register_block`
returns the view of that same block and throws "register block not found"
exactly when `find_block` returns null. -/
theorem find_block_first (rf : RegisterFile) (name : String) (hnul : no_nul name) :
    (∃ p, rf.m_rfd.find_block name = .ok p) ∧
    (∀ i : Nat, rf.m_rfd.find_block name = .ok (some i) ↔
      ∃ b : RegisterBlockData, rf.m_rfd.blocks[i]? = some b ∧ b.name = name ∧
        ∀ (j : Nat) (b1 : RegisterBlockData), j < i → rf.m_rfd.blocks[j]? = some b1 →
          b1.name ≠ name) ∧
    (rf.m_rfd.find_block name = .ok none ↔
      ∀ (i : Nat) (b : RegisterBlockData), rf.m_rfd.blocks[i]? = some b → b.name ≠ name) ∧
    (∀ i : Nat, rf.m_rfd.find_block name = .ok (some i) →
      rf.get_register_block name = .ok { m_rfd := rf.m_rfd, m_rbd := i }) ∧
    (rf.get_register_block name = .throw (.runtime_error "register block not found") ↔
      rf.m_rfd.find_block name = .ok none) ∧
    (twin_catalog.blocks.map (fun b => b.name) = ["other", "dup", "dup"] ∧
      twin_catalog.find_block "dup" = .ok (some 1) ∧
      (RegisterFile.mk twin_catalog).get_register_block "dup"
        = .ok { m_rfd := twin_catalog, m_rbd := 1 }) := by
  have hspec := find_block_spec rf.m_rfd name
  rw [c_str_of_no_nul name hnul] at hspec
  refine ⟨?_, ?_, ?_, ?_, ?_, by decide⟩
  · rcases hspec with ⟨h, _⟩ | ⟨i, b, h, _⟩
    · exact ⟨_, h⟩
    · exact ⟨_, h⟩
  · intro i
    constructor
    · intro hi
      rcases hspec with ⟨h, _⟩ | ⟨k, b, h, hb, hname, hmin⟩
      · rw [h] at hi; exact absurd hi (by simp)
      · rw [h] at hi
        have hki : k = i := by simpa using hi
        subst hki
        exact ⟨b, hb, hname, hmin⟩
    · rintro ⟨b, hb, hname, hmin⟩
      rcases hspec with ⟨_, hnone⟩ | ⟨k, b1, h, hb1, hname1, hmin1⟩
      · exact absurd hname (hnone i b hb)
      · rcases Nat.lt_trichotomy k i with hlt | heq | hgt
        · exact absurd hname1 (hmin k b1 hlt hb1)
        · rw [h, heq]
        · exact absurd hname (hmin1 i b hgt hb)
  · constructor
    · intro hnone i b hb hname
      rcases hspec with ⟨_, h⟩ | ⟨k, b1, h, _⟩
      · exact h i b hb hname
      · rw [h] at hnone; exact absurd hnone (by simp)
    · intro hall
      rcases hspec with ⟨h, _⟩ | ⟨k, b1, _, hb1, hname1, _⟩
      · exact h
      · exact absurd hname1 (hall k b1 hb1)
  · intro i hi
    simp only [RegisterFile.get_register_block, hi, Result.bind]
  · rcases hspec with ⟨h, _⟩ | ⟨k, b1, h, _⟩
    · simp only [RegisterFile.get_register_block, h, Result.bind]
    · simp only [RegisterFile.get_register_block, h, Result.bind]
      constructor <;> intro hx <;> exact absurd hx (by simp)

theorem find_block_first_witness :
    no_nul "dup" ∧
    (twin_catalog.find_block "dup" = .ok (some 1) ↔
      ∃ b : RegisterBlockData, twin_catalog.blocks[1]? = some b ∧ b.name = "dup" ∧
        ∀ (j : Nat) (b1 : RegisterBlockData), j < 1 → twin_catalog.blocks[j]? = some b1 →
          b1.name ≠ "dup") :=
  ⟨by decide, (find_block_first (RegisterFile.mk twin_catalog) "dup" (by decide)).2.1 1⟩

/-- C4: the code at the failing input. In `two_block_catalog` the name `"B"`
belongs to the register of the second block; `find_register` reads the name
through the null pointer that the first block's `find_register` returned,
while `RegisterFile::get_register` finds the register, and with a name no
register has the same null pointer is read instead of null being returned. -/
theorem find_register_str_null_deref :
    two_block_catalog.find_register_str "B" none = .fault .null_deref ∧
    (RegisterFile.mk two_block_catalog).get_register_str "B"
      = .ok { m_rfd := two_block_catalog, m_rbd := 1, m_rd := 1 } ∧
    two_block_catalog.find_register_str "C" none = .fault .null_deref ∧
    two_block_catalog.find_register_str "A" none = .ok { rd := some 0, rbd := some 0 } := by
  decide

/-- C8: each `at` throws its error exactly when the index is not below the
count of children, and for every index below the count returns the view of the
child with that local index, which is the record at `regs_offset + idx` (resp.
`fields_offset + idx`) of the global array when the children lie inside that
array. -/
theorem at_bounds_checked (rfd : RegisterFileData) (idx : Nat) :
    ((RegisterFile.mk rfd).at idx = .throw (.runtime_error "register block idx too high")
        ↔ idx ≥ rfd.num_blocks) ∧
    (idx < rfd.num_blocks →
      (RegisterFile.mk rfd).at idx = .ok { m_rfd := rfd, m_rbd := idx } ∧
      ∃ b, (RegisterBlock.mk rfd idx).data = some b ∧ rfd.blocks[idx]? = some b) ∧
    (∀ (p : Nat) (b : RegisterBlockData), (RegisterBlock.mk rfd p).data = some b →
      ((RegisterBlock.mk rfd p).at idx = .throw (.runtime_error "register idx too high")
        ↔ idx ≥ b.num_regs) ∧
      (idx < b.num_regs →
        (RegisterBlock.mk rfd p).at idx
          = .ok { m_rfd := rfd, m_rbd := p, m_rd := b.at rfd idx } ∧
        (rfd.regs_in_range → b.at rfd idx = b.regs_offset + idx ∧
          ∃ r, (Register.mk rfd p (b.at rfd idx)).data = some r ∧
            rfd.registers[b.regs_offset + idx]? = some r))) ∧
    (∀ (p q : Nat) (r : RegisterData), (Register.mk rfd p q).data = some r →
      ((Register.mk rfd p q).at idx = .throw (.runtime_error "field idx too high")
        ↔ idx ≥ r.num_fields) ∧
      (idx < r.num_fields →
        (Register.mk rfd p q).at idx = .ok { m_rfd := rfd, m_fd := r.at rfd idx } ∧
        (rfd.fields_in_range → r.at rfd idx = r.fields_offset + idx ∧
          ∃ f, (Field.mk rfd (r.at rfd idx)).data = some f ∧
            rfd.fields[r.fields_offset + idx]? = some f))) := by
  refine ⟨?_, ?_, ?_, ?_⟩
  · simp only [RegisterFile.at]
    split
    · simp [*]
    · constructor
      · intro h; exact absurd h (by simp)
      · intro h; contradiction
  · intro h
    refine ⟨?_, ?_⟩
    · simp [RegisterFile.at, RegisterFileData.at, Nat.not_le.mpr h]
    · obtain ⟨b, hb, _⟩ := getElem?_of_lt_length rfd.blocks idx h
      exact ⟨b, hb, hb⟩
  · intro p b hb
    have hmem : b ∈ rfd.blocks := List.getElem?_mem hb
    refine ⟨?_, ?_⟩
    · simp only [RegisterBlock.at, hb]
      split
      · simp [*]
      · constructor
        · intro h; exact absurd h (by simp)
        · intro h; contradiction
    · intro h
      refine ⟨?_, ?_⟩
      · simp [RegisterBlock.at, hb, Nat.not_le.mpr h]
      · intro hwf
        have hle := hwf.2 b hmem
        have hlt := hwf.1
        have hat : b.at rfd idx = b.regs_offset + idx := by
          simp only [RegisterBlockData.at]
          exact Nat.mod_eq_of_lt (by omega)
        refine ⟨hat, ?_⟩
        obtain ⟨r, hr, _⟩ := getElem?_of_lt_length rfd.registers (b.regs_offset + idx)
          (by omega)
        exact ⟨r, by simpa [Register.data, RegisterFileData.reg, hat] using hr, hr⟩
  · intro p q r hr
    have hmem : r ∈ rfd.registers := List.getElem?_mem hr
    refine ⟨?_, ?_⟩
    · simp only [Register.at, hr]
      split
      · simp [*]
      · constructor
        · intro h; exact absurd h (by simp)
        · intro h; contradiction
    · intro h
      refine ⟨?_, ?_⟩
      · simp [Register.at, hr, Nat.not_le.mpr h]
      · intro hwf
        have hle := hwf.2 r hmem
        have hlt := hwf.1
        have hat : r.at rfd idx = r.fields_offset + idx := by
          simp only [RegisterData.at]
          exact Nat.mod_eq_of_lt (by omega)
        refine ⟨hat, ?_⟩
        obtain ⟨f, hf, _⟩ := getElem?_of_lt_length rfd.fields (r.fields_offset + idx)
          (by omega)
        exact ⟨f, by simpa [Field.data, RegisterFileData.field, hat] using hf, hf⟩


theorem child_eq_some (rfd : RegisterFileData) (bi ri : Nat) (b : RegisterBlockData) (p : Nat)
    (r : RegisterData) :
    rfd.child bi ri = some (b, p, r) ↔
      rfd.blocks[bi]? = some b ∧ ri < b.num_regs ∧ p = b.regs_offset + ri ∧
        rfd.registers[b.regs_offset + ri]? = some r := by
  unfold RegisterFileData.child
  cases hb : rfd.blocks[bi]? with
  | none => simp
  | some b1 =>
    simp only [Option.some.injEq]
    by_cases hri : ri < b1.num_regs
    · simp only [hri, if_true]
      cases hr : rfd.registers[b1.regs_offset + ri]? with
      | none =>
        constructor
        · intro h; exact Option.noConfusion h
        · rintro ⟨h1, _, _, h4⟩
          subst h1
          rw [hr] at h4
          exact Option.noConfusion h4
      | some r1 =>
        simp only [Option.some.injEq, Prod.mk.injEq]
        constructor
        · rintro ⟨h1, h2, h3⟩
          subst h1; subst h3
          exact ⟨rfl, hri, h2.symm, hr⟩
        · rintro ⟨h1, _, h3, h4⟩
          subst h1
          rw [hr] at h4
          exact ⟨rfl, h3.symm, by simpa using h4⟩
    · simp only [hri, if_false]
      constructor
      · intro h; exact Option.noConfusion h
      · rintro ⟨h1, h2, _, _⟩
        subst h1
        exact absurd h2 hri

theorem scan_body_eq (rfd : RegisterFileData) (hwf : rfd.regs_in_range) (bi : Nat)
    (b : RegisterBlockData) (test : RegisterData → Bool) (hb : rfd.blocks[bi]? = some b)
    (ri : Nat) (hri : ri < b.num_regs) :
    ∃ r, rfd.registers[b.regs_offset + ri]? = some r ∧
      (RegisterBlock.mk rfd bi).scan_body test ri
        = if test r then .ok (some { m_rfd := rfd, m_rbd := bi, m_rd := b.regs_offset + ri })
          else .ok none := by
  have hmem : b ∈ rfd.blocks := List.getElem?_mem hb
  have hle := hwf.2 b hmem
  have hlt := hwf.1
  have hat : (b.regs_offset + ri) % 2 ^ 32 = b.regs_offset + ri :=
    Nat.mod_eq_of_lt (by omega)
  obtain ⟨r, hr, _⟩ := getElem?_of_lt_length rfd.registers (b.regs_offset + ri) (by omega)
  refine ⟨r, hr, ?_⟩
  have hdata : (RegisterBlock.mk rfd bi).data = some b := hb
  simp only [RegisterBlock.scan_body, RegisterBlock.at, hdata, ge_iff_le, Nat.not_le.mpr hri,
    if_false, Result.bind, Register.data, RegisterFileData.reg, RegisterBlockData.at, hat, hr]

/-- Outcome of the inner loop on a block whose registers lie inside the global
register array. -/
theorem scan_spec (rfd : RegisterFileData) (hwf : rfd.regs_in_range) (bi : Nat)
    (b : RegisterBlockData) (test : RegisterData → Bool) (hb : rfd.blocks[bi]? = some b) :
    ((RegisterBlock.mk rfd bi).scan test = .ok none ∧
      ∀ (ri : Nat) (r : RegisterData), ri < b.num_regs →
        rfd.registers[b.regs_offset + ri]? = some r → test r = false) ∨
    (∃ (ri : Nat) (r : RegisterData), ri < b.num_regs ∧
      rfd.registers[b.regs_offset + ri]? = some r ∧ test r = true ∧
      (∀ (rj : Nat) (r1 : RegisterData), rj < ri →
        rfd.registers[b.regs_offset + rj]? = some r1 → test r1 = false) ∧
      (RegisterBlock.mk rfd bi).scan test
        = .ok (some { m_rfd := rfd, m_rbd := bi, m_rd := b.regs_offset + ri })) := by
  have hdata : (RegisterBlock.mk rfd bi).data = some b := hb
  simp only [RegisterBlock.scan, hdata]
  rcases for_loop_cases ((RegisterBlock.mk rfd bi).scan_body test) b.num_regs 0 with
    ⟨hres, hall⟩ | ⟨k, hk, hprev, hne, hres⟩
  · left
    refine ⟨hres, ?_⟩
    intro ri r hri hr
    obtain ⟨r1, hr1, hbody⟩ := scan_body_eq rfd hwf bi b test hb ri hri
    have h1 := hall ri hri
    rw [Nat.zero_add, hbody] at h1
    rw [hr] at hr1
    cases hr1
    cases ht : test r with
    | false => rfl
    | true => rw [ht] at h1; exact absurd h1 (by simp)
  · right
    obtain ⟨r, hr, hbody⟩ := scan_body_eq rfd hwf bi b test hb k hk
    rw [Nat.zero_add] at hne hres
    rw [hbody] at hne hres
    cases ht : test r with
    | false => rw [ht] at hne; exact absurd rfl hne
    | true =>
      rw [ht] at hres
      refine ⟨k, r, hk, hr, ht, ?_, hres⟩
      intro rj r1 hrj hr1
      obtain ⟨r2, hr2, hbody2⟩ := scan_body_eq rfd hwf bi b test hb rj (by omega)
      have h1 := hprev rj hrj
      rw [Nat.zero_add, hbody2] at h1
      rw [hr1] at hr2
      cases hr2
      cases ht1 : test r1 with
      | false => rfl
      | true => rw [ht1] at h1; exact absurd h1 (by simp)

/-- Outcome of an outer loop whose body skips a block or scans it, on a catalog
whose blocks have their registers inside the global register array. -/
theorem blocks_spec (rfd : RegisterFileData) (hwf : rfd.regs_in_range)
    (body : Nat → Result (Option Register)) (accept : RegisterBlockData → Bool)
    (test : RegisterBlockData → RegisterData → Bool)
    (hbody : ∀ (bi : Nat) (b : RegisterBlockData), rfd.blocks[bi]? = some b →
      body bi = if accept b then (RegisterBlock.mk rfd bi).scan (test b) else .ok none) :
    (for_loop body rfd.num_blocks 0 = .ok none ∧
      rfd.no_child (fun b r => accept b = true ∧ test b r = true)) ∨
    (∃ bi ri p, rfd.first_child (fun b r => accept b = true ∧ test b r = true) bi ri p ∧
      for_loop body rfd.num_blocks 0 = .ok (some { m_rfd := rfd, m_rbd := bi, m_rd := p })) := by
  have hnone : ∀ (bj : Nat) (b1 : RegisterBlockData), rfd.blocks[bj]? = some b1 →
      body bj = .ok none → ∀ (rj : Nat) (r1 : RegisterData), rj < b1.num_regs →
      rfd.registers[b1.regs_offset + rj]? = some r1 →
      ¬ (accept b1 = true ∧ test b1 r1 = true) := by
    intro bj b1 hb1 hbj rj r1 hrj hr1 ⟨hacc, htest⟩
    rw [hbody bj b1 hb1, if_pos hacc] at hbj
    rcases scan_spec rfd hwf bj b1 (test b1) hb1 with ⟨_, hall⟩ | ⟨_, _, _, _, _, _, hres⟩
    · rw [hall rj r1 hrj hr1] at htest
      exact absurd htest (by simp)
    · rw [hres] at hbj
      exact absurd hbj (by simp)
  rcases for_loop_cases body rfd.num_blocks 0 with ⟨hres, hall⟩ | ⟨k, hk, hprev, hne, hres⟩
  · left
    refine ⟨hres, ?_⟩
    intro bi ri b p r hchild
    rw [child_eq_some] at hchild
    obtain ⟨hb, hri, _, hr⟩ := hchild
    have hbi := lt_length_of_getElem? rfd.blocks bi b hb
    have h1 := hall bi hbi
    rw [Nat.zero_add] at h1
    exact hnone bi b hb h1 ri r hri hr
  · right
    obtain ⟨b, hb, _⟩ := getElem?_of_lt_length rfd.blocks k hk
    rw [Nat.zero_add] at hne hres
    rw [hbody k b hb] at hne hres
    cases hacc : accept b with
    | false => rw [hacc] at hne; exact absurd rfl hne
    | true =>
      rw [hacc] at hne hres
      simp only [if_true] at hne hres
      rcases scan_spec rfd hwf k b (test b) hb with
        ⟨hsc, _⟩ | ⟨ri, r, hri, hr, htest, hmin, hsc⟩
      · exact absurd hsc hne
      · refine ⟨k, ri, b.regs_offset + ri, ⟨b, r, ?_, ⟨hacc, htest⟩, ?_⟩, by rw [hres, hsc]⟩
        · rw [child_eq_some]; exact ⟨hb, hri, rfl, hr⟩
        · intro bj rj b1 p1 r1 hbefore hchild
          rw [child_eq_some] at hchild
          obtain ⟨hb1, hrj, _, hr1⟩ := hchild
          rcases hbefore with hlt | ⟨heq, hlt⟩
          · have h1 := hprev bj hlt
            rw [Nat.zero_add] at h1
            exact hnone bj b1 hb1 h1 rj r1 hrj hr1
          · subst heq
            rw [hb] at hb1
            cases hb1
            intro ⟨_, ht⟩
            rw [hmin rj r1 hlt hr1] at ht
            exact absurd ht (by simp)


theorem child_block_mem (rfd : RegisterFileData) (bi ri : Nat) (b : RegisterBlockData)
    (p : Nat) (r : RegisterData) (h : rfd.child bi ri = some (b, p, r)) : b ∈ rfd.blocks :=
  List.getElem?_mem ((child_eq_some rfd bi ri b p r).mp h).1

theorem first_child_congr (rfd : RegisterFileData)
    (P Q : RegisterBlockData → RegisterData → Prop)
    (h : ∀ b r, b ∈ rfd.blocks → (P b r ↔ Q b r)) (bi ri p : Nat) :
    rfd.first_child P bi ri p → rfd.first_child Q bi ri p := by
  rintro ⟨b, r, hc, hP, hmin⟩
  refine ⟨b, r, hc, (h b r (child_block_mem rfd bi ri b p r hc)).mp hP, ?_⟩
  intro bj rj b1 p1 r1 hbefore hc1 hQ
  exact hmin bj rj b1 p1 r1 hbefore hc1
    ((h b1 r1 (child_block_mem rfd bj rj b1 p1 r1 hc1)).mpr hQ)

theorem no_child_congr (rfd : RegisterFileData)
    (P Q : RegisterBlockData → RegisterData → Prop)
    (h : ∀ b r, b ∈ rfd.blocks → (P b r ↔ Q b r)) :
    rfd.no_child P → rfd.no_child Q := by
  intro hn bi ri b p r hc hQ
  exact hn bi ri b p r hc ((h b r (child_block_mem rfd bi ri b p r hc)).mpr hQ)

/-- The first child in scan order is unique. -/
theorem first_child_unique (rfd : RegisterFileData)
    (P : RegisterBlockData → RegisterData → Prop) (bi ri p bj rj q : Nat)
    (h1 : rfd.first_child P bi ri p) (h2 : rfd.first_child P bj rj q) :
    bi = bj ∧ ri = rj ∧ p = q := by
  obtain ⟨b, r, hc, hP, hmin⟩ := h1
  obtain ⟨b1, r1, hc1, hP1, hmin1⟩ := h2
  have hnot1 : ¬ scan_before bj rj bi ri := fun hb => hmin bj rj b1 q r1 hb hc1 hP1
  have hnot2 : ¬ scan_before bi ri bj rj := fun hb => hmin1 bi ri b p r hb hc hP
  unfold scan_before at hnot1 hnot2
  have hbi : bi = bj := by omega
  have hri : ri = rj := by omega
  subst hbi; subst hri
  rw [hc] at hc1
  simp only [Option.some.injEq, Prod.mk.injEq] at hc1
  exact ⟨rfl, rfl, hc1.2.1⟩

theorem first_child_not_no_child (rfd : RegisterFileData)
    (P : RegisterBlockData → RegisterData → Prop) (bi ri p : Nat)
    (h1 : rfd.first_child P bi ri p) (h2 : rfd.no_child P) : False := by
  obtain ⟨b, r, hc, hP, _⟩ := h1
  exact h2 bi ri b p r hc hP

theorem get_register_str_body_eq (rf : RegisterFile) (name : String) (bi : Nat)
    (b : RegisterBlockData) (hb : rf.m_rfd.blocks[bi]? = some b) :
    rf.get_register_str_body name bi
      = if (fun _ : RegisterBlockData => true) b then
          (RegisterBlock.mk rf.m_rfd bi).scan
            ((fun (_ : RegisterBlockData) (rd : RegisterData) =>
              decide (strcmp rd.name (c_str name) = 0)) b)
        else .ok none := by
  have hbi := lt_length_of_getElem? rf.m_rfd.blocks bi b hb
  simp only [RegisterFile.get_register_str_body, RegisterFile.at, RegisterFileData.num_blocks,
    ge_iff_le, Nat.not_le.mpr hbi, if_false, Result.bind, RegisterFileData.at, if_true]

/-- Outcome of `get_register(name)` on a catalog whose blocks have their
registers inside the global register array. -/
theorem get_register_str_spec (rf : RegisterFile) (name : String)
    (hwf : rf.m_rfd.regs_in_range) :
    (rf.get_register_str name = .throw (.runtime_error "register not found") ∧
      rf.m_rfd.no_child (fun _ r => r.name = c_str name)) ∨
    (∃ bi ri p, rf.m_rfd.first_child (fun _ r => r.name = c_str name) bi ri p ∧
      rf.get_register_str name = .ok { m_rfd := rf.m_rfd, m_rbd := bi, m_rd := p }) := by
  have hiff : ∀ (b : RegisterBlockData) (r : RegisterData), b ∈ rf.m_rfd.blocks →
      (((fun _ : RegisterBlockData => true) b = true ∧
        (fun (_ : RegisterBlockData) (rd : RegisterData) =>
          decide (strcmp rd.name (c_str name) = 0)) b r = true) ↔ r.name = c_str name) := by
    intro b r _
    simp [strcmp_eq_zero]
  rcases blocks_spec rf.m_rfd hwf (rf.get_register_str_body name) (fun _ => true)
      (fun _ rd => decide (strcmp rd.name (c_str name) = 0))
      (get_register_str_body_eq rf name) with ⟨hres, hno⟩ | ⟨bi, ri, p, hfirst, hres⟩
  · left
    refine ⟨?_, no_child_congr rf.m_rfd _ _ hiff hno⟩
    simp only [RegisterFile.get_register_str, RegisterFile.num_blocks, hres, Result.bind]
  · right
    refine ⟨bi, ri, p, first_child_congr rf.m_rfd _ _ hiff bi ri p hfirst, ?_⟩
    simp only [RegisterFile.get_register_str, RegisterFile.num_blocks, hres, Result.bind]

/-- C6: on a catalog whose blocks have their registers inside the global
register array (the invariant of section 3), and for a name without an embedded
NUL (the code compares `name.c_str()`), `get_register(name)` returns the first
register in scan order (blocks in array order, registers of a block in local
index order) whose name equals the given name, as a view that carries the
owning block, and it throws "register not found" exactly when no register of
any block has that name. -/
theorem get_register_by_name (rf : RegisterFile) (name : String)
    (hwf : rf.m_rfd.regs_in_range) (hnul : no_nul name) :
    (∀ bi ri p, rf.m_rfd.first_child (fun _ r => r.name = name) bi ri p →
      rf.get_register_str name = .ok { m_rfd := rf.m_rfd, m_rbd := bi, m_rd := p }) ∧
    (∀ reg, rf.get_register_str name = .ok reg →
      reg.m_rfd = rf.m_rfd ∧
      ∃ ri, rf.m_rfd.first_child (fun _ r => r.name = name) reg.m_rbd ri reg.m_rd) ∧
    (rf.get_register_str name = .throw (.runtime_error "register not found") ↔
      rf.m_rfd.no_child (fun _ r => r.name = name)) := by
  have hspec := get_register_str_spec rf name hwf
  rw [c_str_of_no_nul name hnul] at hspec
  refine ⟨?_, ?_, ?_⟩
  · intro bi ri p hfirst
    rcases hspec with ⟨_, hno⟩ | ⟨bj, rj, q, hfirst1, hres⟩
    · exact absurd (first_child_not_no_child _ _ bi ri p hfirst hno) id
    · obtain ⟨h1, _, h3⟩ := first_child_unique _ _ bi ri p bj rj q hfirst hfirst1
      rw [hres, h1, h3]
  · intro reg hreg
    rcases hspec with ⟨hres, _⟩ | ⟨bj, rj, q, hfirst1, hres⟩
    · rw [hres] at hreg; exact absurd hreg (by simp)
    · rw [hres] at hreg
      simp only [Result.ok.injEq] at hreg
      subst hreg
      exact ⟨rfl, rj, hfirst1⟩
  · rcases hspec with ⟨hres, hno⟩ | ⟨bj, rj, q, hfirst1, hres⟩
    · exact ⟨fun _ => hno, fun _ => hres⟩
    · constructor
      · intro h; rw [hres] at h; exact absurd h (by simp)
      · intro hno; exact absurd (first_child_not_no_child _ _ bj rj q hfirst1 hno) id

theorem get_register_by_name_witness :
    (RegisterFile.mk two_block_catalog).get_register_str "B"
      = .ok { m_rfd := two_block_catalog, m_rbd := 1, m_rd := 1 } :=
  (get_register_by_name (RegisterFile.mk two_block_catalog) "B" (by decide) (by decide)).1 1 0 1
    ⟨{ name := "b1", offset := 0x10, size := 0x10, regs_offset := 1, num_regs := 1 },
      { name := "B", offset := 0, size := 4, fields_offset := 0, num_fields := 0 },
      by decide, rfl, by
        intro bj rj b1 p1 r1 hbefore hc
        rw [child_eq_some] at hc
        obtain ⟨hb, hrj, _, hr⟩ := hc
        have hbj : bj = 0 := by
          have := lt_length_of_getElem? _ _ _ hb
          rcases hbefore with h | ⟨h, h2⟩
          · omega
          · omega
        subst hbj
        simp only [two_block_catalog, List.getElem?_cons_zero, Option.some.injEq] at hb
        subst hb
        have hrj0 : rj = 0 := by simp only at hrj; omega
        subst hrj0
        simp only [two_block_catalog, Nat.add_zero, List.getElem?_cons_zero,
          Option.some.injEq] at hr
        subst hr
        decide⟩


theorem for_loop_map {α β : Type} (f : α → β) (body1 : Nat → Result (Option α))
    (body2 : Nat → Result (Option β)) (n s : Nat)
    (h : ∀ j, j < n → body2 (s + j) = (body1 (s + j)).map_opt f) :
    for_loop body2 n s = (for_loop body1 n s).map_opt f := by
  induction n generalizing s with
  | zero => rfl
  | succ n ih =>
    have h0 : body2 s = (body1 s).map_opt f := by simpa using h 0 (by omega)
    have hrest : for_loop body2 n (s + 1) = (for_loop body1 n (s + 1)).map_opt f := by
      apply ih
      intro j hj
      have := h (j + 1) (by omega)
      rwa [show s + (j + 1) = s + 1 + j by omega] at this
    simp only [for_loop, h0]
    cases hb : body1 s with
    | ok a =>
      cases a with
      | none => simp only [Result.map_opt, hrest]
      | some a => simp only [Result.map_opt]
    | throw e => simp only [Result.map_opt]
    | abort => simp only [Result.map_opt]
    | transfer_failed m => simp only [Result.map_opt]
    | fault x => simp only [Result.map_opt]

theorem find_u64_body_eq (rfd : RegisterFileData) (offset bi : Nat) (b : RegisterBlockData)
    (hb : rfd.blocks[bi]? = some b) (ridx : Nat) (h : ridx < b.num_regs) :
    rfd.find_register_u64_body offset b ridx
      = ((RegisterBlock.mk rfd bi).scan_body
          (fun rd => decide (rd.offset = (offset + 2 ^ 64 - b.offset) % 2 ^ 64)) ridx).map_opt
          Register.m_rd := by
  have hdata : (RegisterBlock.mk rfd bi).data = some b := hb
  simp only [RegisterFileData.find_register_u64_body, RegisterBlock.scan_body, RegisterBlock.at,
    hdata, ge_iff_le, Nat.not_le.mpr h, if_false, Result.bind, Register.data]
  cases hr : rfd.reg (b.at rfd ridx) with
  | none => rfl
  | some r =>
    simp only [decide_eq_true_eq]
    split <;> rfl

theorem scan_body_rbd (rb : RegisterBlock) (test : RegisterData → Bool) (ridx : Nat)
    (reg : Register) (h : rb.scan_body test ridx = .ok (some reg)) : reg.m_rbd = rb.m_rbd := by
  unfold RegisterBlock.scan_body RegisterBlock.at at h
  cases hd : rb.data with
  | none => rw [hd] at h; exact Result.noConfusion h
  | some b =>
    rw [hd] at h
    simp only at h
    split at h
    · exact Result.noConfusion h
    · simp only [Result.bind] at h
      split at h
      · exact Result.noConfusion h
      · split at h
        · simp only [Result.ok.injEq, Option.some.injEq] at h
          rw [← h]
        · simp at h

theorem scan_loop_rbd (rb : RegisterBlock) (test : RegisterData → Bool) (n s : Nat)
    (reg : Register) (h : for_loop (rb.scan_body test) n s = .ok (some reg)) :
    reg.m_rbd = rb.m_rbd := by
  rcases for_loop_cases (rb.scan_body test) n s with ⟨hres, _⟩ | ⟨k, _, _, _, hres⟩
  · rw [hres] at h; exact absurd h (by simp)
  · rw [hres] at h
    exact scan_body_rbd rb test (s + k) reg h


theorem get_register_u64_body_eq (rf : RegisterFile) (offset : Nat) (bi : Nat)
    (b : RegisterBlockData) (hb : rf.m_rfd.blocks[bi]? = some b) :
    rf.get_register_u64_body offset bi
      = if (fun b : RegisterBlockData =>
            decide (¬ offset < b.offset ∧ ¬ offset ≥ (b.offset + b.size) % 2 ^ 64)) b then
          (RegisterBlock.mk rf.m_rfd bi).scan
            ((fun (b : RegisterBlockData) (rd : RegisterData) =>
              decide (rd.offset = (offset + 2 ^ 64 - b.offset) % 2 ^ 64)) b)
        else .ok none := by
  have hbi := lt_length_of_getElem? rf.m_rfd.blocks bi b hb
  have hdata : (RegisterBlock.mk rf.m_rfd bi).data = some b := hb
  simp only [RegisterFile.get_register_u64_body, RegisterFile.at, RegisterFileData.num_blocks,
    ge_iff_le, Nat.not_le.mpr hbi, if_false, Result.bind, RegisterFileData.at, hdata]
  by_cases h1 : offset < b.offset
  · simp [h1]
  · by_cases h2 : (b.offset + b.size) % 18446744073709551616 ≤ offset
    · simp [h1, h2, Nat.not_lt.mpr h2]
    · simp [h1, h2, Nat.not_le.mp h2]

/-- The loop of `find_register(offset, &rbd)` follows the loop of
`get_register(offset)` step by step. -/
theorem find_u64_lockstep (rfd : RegisterFileData) (offset : Nat) (n : Nat) :
    ∀ (bidx : Nat) (rbd0 : Option Nat), bidx + n ≤ rfd.blocks.length →
    (∀ reg, for_loop ((RegisterFile.mk rfd).get_register_u64_body offset) n bidx
        = .ok (some reg) →
      rfd.find_register_u64_loop offset n bidx rbd0
        = .ok { rd := some reg.m_rd, rbd := some reg.m_rbd }) ∧
    (for_loop ((RegisterFile.mk rfd).get_register_u64_body offset) n bidx = .ok none →
      rfd.find_register_u64_loop offset n bidx rbd0
        = .ok { rd := none, rbd := if n = 0 then rbd0 else some (bidx + n - 1) }) := by
  induction n with
  | zero =>
    intro bidx rbd0 _
    constructor
    · intro reg h
      simp [for_loop] at h
    · intro _
      simp [RegisterFileData.find_register_u64_loop]
  | succ n ih =>
    intro bidx rbd0 hle
    obtain ⟨b, hb, _⟩ := getElem?_of_lt_length rfd.blocks bidx (by omega)
    have hih := ih (bidx + 1) (some bidx) (by omega)
    have hlast : (if n = 0 then some bidx else some (bidx + 1 + n - 1))
        = (if n + 1 = 0 then rbd0 else some (bidx + (n + 1) - 1)) := by
      by_cases hn : n = 0
      · subst hn; simp
      · simp only [hn, if_false, Nat.succ_ne_zero]
        congr 1
        omega
    have hcont : (∀ reg, for_loop ((RegisterFile.mk rfd).get_register_u64_body offset) n
          (bidx + 1) = .ok (some reg) →
        rfd.find_register_u64_loop offset n (bidx + 1) (some bidx)
          = .ok { rd := some reg.m_rd, rbd := some reg.m_rbd }) ∧
      (for_loop ((RegisterFile.mk rfd).get_register_u64_body offset) n (bidx + 1) = .ok none →
        rfd.find_register_u64_loop offset n (bidx + 1) (some bidx)
          = .ok { rd := none, rbd := if n + 1 = 0 then rbd0 else some (bidx + (n + 1) - 1) }) := by
      refine ⟨hih.1, ?_⟩
      intro h
      rw [← hlast]
      exact hih.2 h
    have hgb := get_register_u64_body_eq (RegisterFile.mk rfd) offset bidx b hb
    have hblock : rfd.block bidx = some b := hb
    have hdata : (RegisterBlock.mk rfd bidx).data = some b := hb
    simp only [decide_eq_true_eq] at hgb
    by_cases hacc : ¬ offset < b.offset ∧ ¬ offset ≥ (b.offset + b.size) % 2 ^ 64
    · rw [if_pos hacc] at hgb
      have hinner : for_loop (rfd.find_register_u64_body offset b) b.num_regs 0
          = ((RegisterBlock.mk rfd bidx).scan
              (fun rd => decide (rd.offset = (offset + 2 ^ 64 - b.offset) % 2 ^ 64))).map_opt
              Register.m_rd := by
        simp only [RegisterBlock.scan, hdata]
        apply for_loop_map
        intro j hj
        rw [Nat.zero_add]
        exact find_u64_body_eq rfd offset bidx b hb j hj
      have hfind : rfd.find_register_u64_loop offset (n + 1) bidx rbd0
          = match ((RegisterBlock.mk rfd bidx).scan
              (fun rd => decide (rd.offset = (offset + 2 ^ 64 - b.offset) % 2 ^ 64))).map_opt
              Register.m_rd with
            | .ok none => rfd.find_register_u64_loop offset n (bidx + 1) (some bidx)
            | .ok (some rd) => .ok { rd := some rd, rbd := some bidx }
            | .throw e => .throw e
            | .abort => .abort
            | .transfer_failed m => .transfer_failed m
            | .fault f => .fault f := by
        simp only [RegisterFileData.find_register_u64_loop, RegisterFileData.at, hblock,
          hacc.1, hacc.2, if_false, hinner]
      rw [hfind]
      cases hsc : (RegisterBlock.mk rfd bidx).scan
          (fun rd => decide (rd.offset = (offset + 2 ^ 64 - b.offset) % 2 ^ 64)) with
      | ok a =>
        cases a with
        | none =>
          simp only [for_loop, hgb, hsc, Result.map_opt]
          exact hcont
        | some reg =>
          simp only [for_loop, hgb, hsc, Result.map_opt]
          have hrbd : reg.m_rbd = bidx := by
            have h := hsc
            simp only [RegisterBlock.scan, hdata] at h
            exact scan_loop_rbd (RegisterBlock.mk rfd bidx) _ _ _ reg h
          constructor
          · intro reg1 h1
            simp only [Result.ok.injEq, Option.some.injEq] at h1
            subst h1
            rw [hrbd]
          · intro h1; exact absurd h1 (by simp)
      | throw e =>
        simp only [for_loop, hgb, hsc, Result.map_opt]
        exact ⟨fun _ h => absurd h (by simp), fun h => absurd h (by simp)⟩
      | abort =>
        simp only [for_loop, hgb, hsc, Result.map_opt]
        exact ⟨fun _ h => absurd h (by simp), fun h => absurd h (by simp)⟩
      | transfer_failed m =>
        simp only [for_loop, hgb, hsc, Result.map_opt]
        exact ⟨fun _ h => absurd h (by simp), fun h => absurd h (by simp)⟩
      | fault x =>
        simp only [for_loop, hgb, hsc, Result.map_opt]
        exact ⟨fun _ h => absurd h (by simp), fun h => absurd h (by simp)⟩
    · rw [if_neg hacc] at hgb
      have hget : for_loop ((RegisterFile.mk rfd).get_register_u64_body offset) (n + 1) bidx
          = for_loop ((RegisterFile.mk rfd).get_register_u64_body offset) n (bidx + 1) := by
        simp only [for_loop, hgb]
      have hfind : rfd.find_register_u64_loop offset (n + 1) bidx rbd0
          = rfd.find_register_u64_loop offset n (bidx + 1) (some bidx) := by
        simp only [RegisterFileData.find_register_u64_loop, RegisterFileData.at, hblock]
        by_cases h1 : offset < b.offset
        · simp only [h1, if_true]
        · have h2 : offset ≥ (b.offset + b.size) % 2 ^ 64 := by
            by_contra h2
            exact hacc ⟨h1, h2⟩
          simp only [h1, h2, if_false, if_true]
      rw [hfind, hget]
      exact hcont


/-- Outcome of both address lookups on a catalog whose blocks have their
registers inside the global register array and whose block ranges do not
overflow. -/
theorem get_register_u64_spec (rf : RegisterFile) (offset : Nat) (rbd0 : Option Nat)
    (hwf : rf.m_rfd.regs_in_range)
    (hno : ∀ b ∈ rf.m_rfd.blocks, b.offset + b.size < 2 ^ 64) (hoff : offset < 2 ^ 64) :
    (rf.get_register_u64 offset = .throw (.runtime_error "register not found") ∧
      (∃ last, rf.m_rfd.find_register_u64 offset rbd0 = .ok { rd := none, rbd := last }) ∧
      rf.m_rfd.no_child (fun b r =>
        b.offset ≤ offset ∧ offset < b.offset + b.size ∧ r.offset = offset - b.offset)) ∨
    (∃ bi ri p, rf.m_rfd.first_child (fun b r =>
        b.offset ≤ offset ∧ offset < b.offset + b.size ∧ r.offset = offset - b.offset) bi ri p ∧
      rf.get_register_u64 offset = .ok { m_rfd := rf.m_rfd, m_rbd := bi, m_rd := p } ∧
      rf.m_rfd.find_register_u64 offset rbd0 = .ok { rd := some p, rbd := some bi }) := by
  have hiff : ∀ (b : RegisterBlockData) (r : RegisterData), b ∈ rf.m_rfd.blocks →
      (((fun b : RegisterBlockData =>
          decide (¬ offset < b.offset ∧ ¬ offset ≥ (b.offset + b.size) % 2 ^ 64)) b = true ∧
        (fun (b : RegisterBlockData) (rd : RegisterData) =>
          decide (rd.offset = (offset + 2 ^ 64 - b.offset) % 2 ^ 64)) b r = true) ↔
        (b.offset ≤ offset ∧ offset < b.offset + b.size ∧ r.offset = offset - b.offset)) := by
    intro b r hmem
    have hb := hno b hmem
    simp only [decide_eq_true_eq]
    constructor
    · rintro ⟨⟨h1, h2⟩, h3⟩
      refine ⟨by omega, by omega, by omega⟩
    · rintro ⟨h1, h2, h3⟩
      refine ⟨⟨by omega, by omega⟩, by omega⟩
  have hlock := find_u64_lockstep rf.m_rfd offset rf.m_rfd.blocks.length 0 rbd0 (by omega)
  rcases blocks_spec rf.m_rfd hwf (rf.get_register_u64_body offset) _ _
      (get_register_u64_body_eq rf offset) with ⟨hres, hnone⟩ | ⟨bi, ri, p, hfirst, hres⟩
  · left
    refine ⟨?_, ⟨_, hlock.2 hres⟩, no_child_congr rf.m_rfd _ _ hiff hnone⟩
    simp only [RegisterFile.get_register_u64, RegisterFile.num_blocks, hres, Result.bind]
  · right
    refine ⟨bi, ri, p, first_child_congr rf.m_rfd _ _ hiff bi ri p hfirst, ?_, hlock.1 _ hres⟩
    simp only [RegisterFile.get_register_u64, RegisterFile.num_blocks, hres, Result.bind]

/-- C5: on a catalog whose blocks have their registers inside the global
register array (the invariant of section 3) and in which `base_offset + size`
of every block is below `2^64`, and for every 64-bit offset, `find_register(offset, &rbd)` and
`get_register(offset)` select the same register: the first pair (block,
register of the block) in scan order with
`b.offset <= offset < b.offset + b.size` and `r.offset == offset - b.offset`,
`rbd` being set to that block; when there is no such pair the first returns
null and the second throws "register not found". In the catalog of section 8,
offset `0x1020` gives register 1 and offset `0x1030` gives not-found. -/
theorem find_register_by_address (rf : RegisterFile) (offset : Nat) (rbd0 : Option Nat)
    (hwf : rf.m_rfd.regs_in_range)
    (hno : ∀ b ∈ rf.m_rfd.blocks, b.offset + b.size < 2 ^ 64) (hoff : offset < 2 ^ 64) :
    (∀ bi ri p, rf.m_rfd.first_child (fun b r =>
        b.offset ≤ offset ∧ offset < b.offset + b.size ∧ r.offset = offset - b.offset) bi ri p →
      rf.m_rfd.find_register_u64 offset rbd0 = .ok { rd := some p, rbd := some bi } ∧
      rf.get_register_u64 offset = .ok { m_rfd := rf.m_rfd, m_rbd := bi, m_rd := p }) ∧
    (rf.m_rfd.no_child (fun b r =>
        b.offset ≤ offset ∧ offset < b.offset + b.size ∧ r.offset = offset - b.offset) →
      (∃ last, rf.m_rfd.find_register_u64 offset rbd0 = .ok { rd := none, rbd := last }) ∧
      rf.get_register_u64 offset = .throw (.runtime_error "register not found")) ∧
    ((∃ bi ri p, rf.m_rfd.first_child (fun b r =>
        b.offset ≤ offset ∧ offset < b.offset + b.size ∧ r.offset = offset - b.offset) bi ri p) ∨
      rf.m_rfd.no_child (fun b r =>
        b.offset ≤ offset ∧ offset < b.offset + b.size ∧ r.offset = offset - b.offset)) ∧
    (example_catalog.find_register_u64 0x1020 none = .ok { rd := some 1, rbd := some 0 } ∧
      (RegisterFile.mk example_catalog).get_register_u64 0x1020
        = .ok { m_rfd := example_catalog, m_rbd := 0, m_rd := 1 } ∧
      example_catalog.find_register_u64 0x1030 none = .ok { rd := none, rbd := some 0 } ∧
      (RegisterFile.mk example_catalog).get_register_u64 0x1030
        = .throw (.runtime_error "register not found")) := by
  refine ⟨?_, ?_, ?_, by decide⟩
  · intro bi ri p hfirst
    rcases get_register_u64_spec rf offset rbd0 hwf hno hoff with
      ⟨_, _, hnone⟩ | ⟨bj, rj, q, hfirst1, hget, hfind⟩
    · exact absurd (first_child_not_no_child _ _ bi ri p hfirst hnone) id
    · obtain ⟨h1, _, h3⟩ := first_child_unique _ _ bi ri p bj rj q hfirst hfirst1
      rw [hget, hfind, h1, h3]
      exact ⟨rfl, rfl⟩
  · intro hnone
    rcases get_register_u64_spec rf offset rbd0 hwf hno hoff with
      ⟨hget, hfind, _⟩ | ⟨bj, rj, q, hfirst1, _, _⟩
    · exact ⟨hfind, hget⟩
    · exact absurd (first_child_not_no_child _ _ bj rj q hfirst1 hnone) id
  · rcases get_register_u64_spec rf offset rbd0 hwf hno hoff with
      ⟨_, _, hnone⟩ | ⟨bj, rj, q, hfirst1, _, _⟩
    · exact Or.inr hnone
    · exact Or.inl ⟨bj, rj, q, hfirst1⟩

theorem find_register_by_address_witness :
    (∃ last, example_catalog.find_register_u64 0x30 none = .ok { rd := none, rbd := last }) ∧
    (RegisterFile.mk example_catalog).get_register_u64 0x30
      = .throw (.runtime_error "register not found") :=
  (find_register_by_address (RegisterFile.mk example_catalog) 0x30 none (by decide)
    (by decide) (by decide)).2.1 (by
      intro bi ri b p r hc
      rw [child_eq_some] at hc
      obtain ⟨hb, _, _, _⟩ := hc
      have hbi : bi = 0 := by
        have := lt_length_of_getElem? _ _ _ hb
        simp only [example_catalog, List.length_cons, List.length_nil] at this
        omega
      subst hbi
      simp only [example_catalog, List.getElem?_cons_zero, Option.some.injEq] at hb
      subst hb
      intro h
      simp only at h
      omega)

theorem at_bounds_checked_witness :
    ((RegisterFile.mk example_catalog).at 0 = .ok { m_rfd := example_catalog, m_rbd := 0 } ∧
      ∃ b, (RegisterBlock.mk example_catalog 0).data = some b ∧
        example_catalog.blocks[0]? = some b) ∧
    ((RegisterBlock.mk example_catalog 0).at 2 = .throw (.runtime_error "register idx too high")
      ↔ 2 ≥ 2) ∧
    ((Register.mk example_catalog 0 0).at 0 = .ok { m_rfd := example_catalog, m_fd := 0 }) :=
  ⟨(at_bounds_checked example_catalog 0).2.1 (by decide),
    ((at_bounds_checked example_catalog 2).2.2.1 0
      { name := "blk", offset := 0x1000, size := 0x100, regs_offset := 0, num_regs := 2 }
      rfl).1,
    (((at_bounds_checked example_catalog 0).2.2.2 0 0
      { name := "r0", offset := 0x10, size := 4, fields_offset := 0, num_fields := 1 }
      rfl).2 (by decide)).1⟩

/-! ## The plain byte orders against the reference definition -/

theorem shr_and_ff (v k : Nat) : (v >>> (8 * k)) &&& 0xff = v / 256 ^ k % 256 := by
  rw [land_ff, Nat.shiftRight_eq_div_pow, Nat.pow_mul]

theorem bytes_le_eq_map (n v : Nat) :
    bytes_le n v = (List.range n).map fun i => (v >>> (8 * i)) &&& 0xff := by
  induction n generalizing v with
  | zero => rfl
  | succ n ih =>
    rw [List.range_succ_eq_map, List.map_cons, List.map_map, bytes_le, ih]
    congr 1
    · have h := shr_and_ff v 0
      simp only [Nat.mul_zero, Nat.pow_zero, Nat.div_one] at h
      exact h.symm
    · apply List.map_congr_left
      intro i _
      simp only [Function.comp, shr_and_ff]
      rw [Nat.pow_succ, Nat.mul_comm, Nat.div_div_eq_div_mul]

theorem bytes_le_reverse_eq_map (n v : Nat) :
    (bytes_le n v).reverse
      = (List.range n).map fun i => (v >>> (8 * (n - 1 - i))) &&& 0xff := by
  rw [bytes_le_eq_map]
  apply List.ext_getElem
  · simp
  · intro i h1 h2
    simp only [List.length_reverse, List.length_map, List.length_range] at h1
    simp [List.getElem_reverse]

theorem of_bytes_le_eq_sum (bs : List Nat) :
    of_bytes_le bs = ∑ i ∈ Finset.range bs.length, bs.getD i 0 * 2 ^ (8 * i) := by
  induction bs with
  | nil => rfl
  | cons b bs ih =>
    rw [List.length_cons, Finset.sum_range_succ', of_bytes_le, ih, Finset.mul_sum]
    simp only [List.getD_cons_succ, List.getD_cons_zero, Nat.mul_zero, Nat.pow_zero, Nat.mul_one]
    rw [Nat.add_comm]
    congr 1
    apply Finset.sum_congr rfl
    intro i _
    rw [show 8 * (i + 1) = 8 * i + 8 by ring, Nat.pow_add]
    ring

theorem of_bytes_le_reverse_eq_sum (bs : List Nat) :
    of_bytes_le bs.reverse
      = ∑ i ∈ Finset.range bs.length, bs.getD i 0 * 2 ^ (8 * (bs.length - 1 - i)) := by
  rw [of_bytes_le_eq_sum, List.length_reverse, ← Finset.sum_range_reflect]
  apply Finset.sum_congr rfl
  intro i hi
  have hi1 : i < bs.length := Finset.mem_range.mp hi
  have h1 : bs.length - 1 - i < bs.reverse.length := by
    rw [List.length_reverse]; omega
  rw [List.getD_eq_getElem _ _ h1, List.getD_eq_getElem _ _ hi1, List.getElem_reverse]
  congr 2
  omega

theorem h2d_plain (host : HostOrder) (v w : Nat) (hw : w = 2 ∨ w = 4 ∨ w = 8) :
    host_to_device host v w .Little = .ok (bytes_le w v) ∧
    host_to_device host v w .Big = .ok (bytes_le w v).reverse := by
  have h2 := bytes_le_mod 2 v
  have h4 := bytes_le_mod 4 v
  have h8 := bytes_le_mod 8 v
  norm_num at h2 h4 h8
  rcases hw with rfl | rfl | rfl
  · simp only [host_to_device, htole16, htobe16, store_host_le, store_host_be]
    norm_num [h2]
  · simp only [host_to_device, htole32, htobe32, store_host_le, store_host_be]
    norm_num [h4]
  · simp only [host_to_device, htole64, htobe64, store_host_le, store_host_be]
    norm_num [h8]

theorem d2h_plain (host : HostOrder) (bytes : List Nat) (w : Nat) (hw : w = 2 ∨ w = 4 ∨ w = 8)
    (hlen : bytes.length = w) (hb : ∀ b ∈ bytes, b < 256) :
    device_to_host host bytes w .Little = .ok (of_bytes_le bytes) ∧
    device_to_host host bytes w .Big = .ok (of_bytes_le bytes.reverse) := by
  have hl : load_at host bytes bytes.length = some (load host bytes) := by
    simp [load_at]
  have h1 := host_le_load host bytes hb
  have h2 := host_be_load host bytes hb
  rw [hlen] at hl h1 h2
  rcases hw with rfl | rfl | rfl
  · simp only [device_to_host, hl, le16toh, be16toh, h1, h2, and_self]
  · simp only [device_to_host, hl, le32toh, be32toh, h1, h2, and_self]
  · simp only [device_to_host, hl, le64toh, be64toh, h1, h2, and_self]

/-- C11: for every width `w` in {2,4,8} and every value, byte `i` of
`host_to_device(v, w, Big)` is `(v >> 8*(w-1-i)) & 0xff` and byte `i` of
`host_to_device(v, w, Little)` is `(v >> 8*i) & 0xff`; `device_to_host` on `w`
bytes gives the sum of `bytes[i] * 2^(8*(w-1-i))` for Big and of
`bytes[i] * 2^(8*i)` for Little; at width 1 the single byte is `v & 0xff` and
the decoded value is that byte, whatever the order. On hosts of either byte
order. -/
theorem plain_orders_are_standard (host : HostOrder) (v w : Nat)
    (hw : w = 2 ∨ w = 4 ∨ w = 8) :
    host_to_device host v w .Big
      = .ok ((List.range w).map fun i => (v >>> (8 * (w - 1 - i))) &&& 0xff) ∧
    host_to_device host v w .Little
      = .ok ((List.range w).map fun i => (v >>> (8 * i)) &&& 0xff) ∧
    (∀ bytes : List Nat, bytes.length = w → (∀ b ∈ bytes, b < 256) →
      device_to_host host bytes w .Big
        = .ok (∑ i ∈ Finset.range w, bytes.getD i 0 * 2 ^ (8 * (w - 1 - i))) ∧
      device_to_host host bytes w .Little
        = .ok (∑ i ∈ Finset.range w, bytes.getD i 0 * 2 ^ (8 * i))) ∧
    (∀ o, host_to_device host v 1 o = .ok [v &&& 0xff]) ∧
    (∀ (o : Endianness) (b : Nat) (rest : List Nat),
      device_to_host host (b :: rest) 1 o = .ok b) := by
  refine ⟨?_, ?_, ?_, ?_, ?_⟩
  · rw [(h2d_plain host v w hw).2, bytes_le_reverse_eq_map]
  · rw [(h2d_plain host v w hw).1, bytes_le_eq_map]
  · intro bytes hlen hb
    have h := d2h_plain host bytes w hw hlen hb
    rw [h.1, h.2, of_bytes_le_reverse_eq_sum, of_bytes_le_eq_sum, hlen]
    exact ⟨rfl, rfl⟩
  · intro o
    simp [host_to_device]
  · intro o b rest
    simp [device_to_host]

theorem plain_orders_are_standard_witness :
    host_to_device .little 0x11223344 4 .Big
      = .ok ((List.range 4).map fun i => (0x11223344 >>> (8 * (4 - 1 - i))) &&& 0xff) ∧
    device_to_host .little [0x11, 0x22, 0x33, 0x44] 4 .Big
      = .ok (∑ i ∈ Finset.range 4, [0x11, 0x22, 0x33, 0x44].getD i 0 * 2 ^ (8 * (4 - 1 - i))) :=
  ⟨(plain_orders_are_standard .little 0x11223344 4 (by decide)).1,
    ((plain_orders_are_standard .little 0x11223344 4 (by decide)).2.2.1
      [0x11, 0x22, 0x33, 0x44] rfl (by decide)).1⟩

/-! ## The I2C target: default width, framing and the write buffer -/

theorem read_width_zero {σ : Type} (host : HostOrder) (t : I2CTarget) (ioctl : Transport σ)
    (dev : σ) (addr : Nat) :
    t.read host ioctl dev addr 0 = t.read host ioctl dev addr t.m_data_bytes := by
  unfold I2CTarget.read
  simp only [if_true, ite_self]

theorem write_width_zero {σ : Type} (host : HostOrder) (t : I2CTarget) (ioctl : Transport σ)
    (dev : σ) (addr value : Nat) :
    t.write host ioctl dev addr 0 value = t.write host ioctl dev addr t.m_data_bytes value := by
  unfold I2CTarget.write
  simp only [if_true, ite_self]

theorem read_width_given {σ : Type} (host : HostOrder) (t : I2CTarget) (ioctl : Transport σ)
    (dev : σ) (addr n d : Nat) (hn : n ≠ 0) :
    ({ t with m_data_bytes := d } : I2CTarget).read host ioctl dev addr n
      = t.read host ioctl dev addr n := by
  unfold I2CTarget.read
  simp only [hn, if_false]

theorem write_width_given {σ : Type} (host : HostOrder) (t : I2CTarget) (ioctl : Transport σ)
    (dev : σ) (addr value n d : Nat) (hn : n ≠ 0) :
    ({ t with m_data_bytes := d } : I2CTarget).write host ioctl dev addr n value
      = t.write host ioctl dev addr n value := by
  unfold I2CTarget.write
  simp only [hn, if_false]

/-- The transaction of a `read` on a target with a supported address
configuration: the address message and a read message of the resolved
width. -/
theorem read_messages (host : HostOrder) (t : I2CTarget) (addr n : Nat)
    (ha : supported t.m_address_bytes t.m_address_endianness = true) :
    ∃ abuf, (t.read host recording_transport [] addr n).2
      = [[{ addr := t.m_i2c_addr, flags := 0, len := t.m_address_bytes, buf := abuf },
          { addr := t.m_i2c_addr, flags := I2C_M_RD,
            len := if n = 0 then t.m_data_bytes else n, buf := List.replicate 8 0 }]] := by
  obtain ⟨i2c, off, aend, ab, dend, db⟩ := t
  simp only at ha
  rcases h2d_supported host ((addr + off) % 18446744073709551616) ab aend ha with
    ⟨rfl, a, h⟩ | ⟨rfl, a, b, h⟩ | ⟨rfl, a, b, c, d, h⟩ | ⟨rfl, a, b, c, d, e, f, g, h', h⟩ <;>
  simp [I2CTarget.read, host_to_device_at, Result.bind, h, write_at, recording_transport]

/-- C12: `read(addr, 0)` and `write(addr, 0, value)` behave as
`read(addr, m_data_bytes)` and `write(addr, m_data_bytes, value)`, the read
message of `read(addr, 0)` asking for `m_data_bytes` bytes; a call with a
non-zero width does not depend on the default data width; no call changes the
object, so a later call sees the same configuration; and `map` stores the
configuration it is given. -/
theorem default_data_width {σ : Type} (host : HostOrder) (t : I2CTarget) (ioctl : Transport σ)
    (dev : σ) (addr value : Nat) :
    t.read host ioctl dev addr 0 = t.read host ioctl dev addr t.m_data_bytes ∧
    t.write host ioctl dev addr 0 value = t.write host ioctl dev addr t.m_data_bytes value ∧
    (supported t.m_address_bytes t.m_address_endianness = true →
      ∃ abuf, (t.read host recording_transport [] addr 0).2
        = [[{ addr := t.m_i2c_addr, flags := 0, len := t.m_address_bytes, buf := abuf },
            { addr := t.m_i2c_addr, flags := I2C_M_RD, len := t.m_data_bytes,
              buf := List.replicate 8 0 }]]) ∧
    (∀ n d, n ≠ 0 →
      ({ t with m_data_bytes := d } : I2CTarget).read host ioctl dev addr n
        = t.read host ioctl dev addr n ∧
      ({ t with m_data_bytes := d } : I2CTarget).write host ioctl dev addr n value
        = t.write host ioctl dev addr n value) ∧
    (∀ n, (I2CTarget.read_call host ioctl (t, dev) addr n).2.1 = t ∧
      (I2CTarget.write_call host ioctl (t, dev) addr n value).2.1 = t) ∧
    (∀ offset length ae ab de db,
      t.map offset length ae ab de db
        = { m_i2c_addr := t.m_i2c_addr, m_offset := offset, m_address_endianness := ae,
            m_address_bytes := ab, m_data_endianness := de, m_data_bytes := db }) := by
  refine ⟨read_width_zero host t ioctl dev addr, write_width_zero host t ioctl dev addr value,
    ?_, ?_, ?_, ?_⟩
  · intro ha
    obtain ⟨abuf, h⟩ := read_messages host t addr 0 ha
    exact ⟨abuf, by simpa using h⟩
  · intro n d hn
    exact ⟨read_width_given host t ioctl dev addr n d hn,
      write_width_given host t ioctl dev addr value n d hn⟩
  · intro n
    exact ⟨rfl, rfl⟩
  · intro offset length ae ab de db
    rfl

theorem default_data_width_witness :
    (∃ abuf, (I2CTarget.read .little
        { m_i2c_addr := 0x50, m_offset := 0, m_address_endianness := .Big,
          m_address_bytes := 2, m_data_endianness := .Little, m_data_bytes := 4 }
        recording_transport [] 0x10 0).2
      = [[{ addr := 0x50, flags := 0, len := 2, buf := abuf },
          { addr := 0x50, flags := I2C_M_RD, len := 4, buf := List.replicate 8 0 }]]) ∧
    (I2CTarget.read .little
        { m_i2c_addr := 0x50, m_offset := 0, m_address_endianness := .Big,
          m_address_bytes := 2, m_data_endianness := .Little, m_data_bytes := 1 }
        (echo_transport 2) [0xAA, 0xBB] 0x10 2
      = I2CTarget.read .little
        { m_i2c_addr := 0x50, m_offset := 0, m_address_endianness := .Big,
          m_address_bytes := 2, m_data_endianness := .Little, m_data_bytes := 4 }
        (echo_transport 2) [0xAA, 0xBB] 0x10 2) :=
  ⟨(default_data_width .little
      { m_i2c_addr := 0x50, m_offset := 0, m_address_endianness := .Big,
        m_address_bytes := 2, m_data_endianness := .Little, m_data_bytes := 4 }
      recording_transport [] 0x10 0).2.2.1 (by decide),
    ((default_data_width .little
      { m_i2c_addr := 0x50, m_offset := 0, m_address_endianness := .Big,
        m_address_bytes := 2, m_data_endianness := .Little, m_data_bytes := 4 }
      (echo_transport 2) [0xAA, 0xBB] 0x10 0).2.2.2.1 2 1 (by decide)).1⟩


theorem write_framing_aux (host : HostOrder) (t : I2CTarget) (addr m value : Nat)
    (ha : supported t.m_address_bytes t.m_address_endianness = true)
    (hd : supported m t.m_data_endianness = true)
    (hfit : t.m_address_bytes + m ≤ 12) :
    ∃ abytes dbytes buf,
      host_to_device host ((addr + t.m_offset) % 2 ^ 64) t.m_address_bytes
        t.m_address_endianness = .ok abytes ∧
      host_to_device host value m t.m_data_endianness = .ok dbytes ∧
      t.write host recording_transport [] addr m value
        = (.ok (), [[{ addr := t.m_i2c_addr, flags := 0, len := t.m_address_bytes + m,
                       buf := buf }]]) ∧
      buf.take (t.m_address_bytes + m) = abytes ++ dbytes := by
  obtain ⟨i2c, off, aend, ab, dend, db⟩ := t
  simp only at ha hd hfit ⊢
  rcases h2d_supported host ((addr + off) % 18446744073709551616) ab aend ha with
    ⟨rfl, a1, h⟩ | ⟨rfl, a1, a2, h⟩ | ⟨rfl, a1, a2, a3, a4, h⟩ |
    ⟨rfl, a1, a2, a3, a4, a5, a6, a7, a8, h⟩ <;>
  rcases h2d_supported host value m dend hd with
    ⟨rfl, d1, k⟩ | ⟨rfl, d1, d2, k⟩ | ⟨rfl, d1, d2, d3, d4, k⟩ |
    ⟨rfl, d1, d2, d3, d4, d5, d6, d7, d8, k⟩ <;>
  first
    | (exfalso; omega)
    | simp [I2CTarget.write, host_to_device_at, Result.bind, h, k, write_at,
        recording_transport]

/-- The message of a `write` whose address and data encodings are supported and
fit the 12-byte buffer: the address bytes followed by the data bytes. -/
theorem write_framing (host : HostOrder) (t : I2CTarget) (addr n value : Nat)
    (ha : supported t.m_address_bytes t.m_address_endianness = true)
    (hd : supported (if n = 0 then t.m_data_bytes else n) t.m_data_endianness = true)
    (hfit : t.m_address_bytes + (if n = 0 then t.m_data_bytes else n) ≤ 12) :
    ∃ abytes dbytes buf,
      host_to_device host ((addr + t.m_offset) % 2 ^ 64) t.m_address_bytes
        t.m_address_endianness = .ok abytes ∧
      host_to_device host value (if n = 0 then t.m_data_bytes else n) t.m_data_endianness
        = .ok dbytes ∧
      t.write host recording_transport [] addr n value
        = (.ok (), [[{ addr := t.m_i2c_addr, flags := 0,
                       len := t.m_address_bytes + (if n = 0 then t.m_data_bytes else n),
                       buf := buf }]]) ∧
      buf.take (t.m_address_bytes + (if n = 0 then t.m_data_bytes else n))
        = abytes ++ dbytes := by
  by_cases hn : n = 0
  · subst hn
    simp only [if_true] at hd hfit ⊢
    rw [write_width_zero]
    exact write_framing_aux host t addr t.m_data_bytes value ha hd hfit
  · simp only [hn, if_false] at hd hfit ⊢
    exact write_framing_aux host t addr n value ha hd hfit

/-- C13: the code at the failing input. With an address width of 8 and a data
width of 8 both encodings exist, 16 bytes in all, but `write` runs over the end
of its 12-byte `data_buf` while it stores the data bytes and no message of
length 16 is handed to the transport; with an address width of 4 the message
is the address bytes followed by the data bytes. -/
theorem write_framing_breaks_at_8_8 :
    host_to_device .little 0x10 8 .Big = .ok [0, 0, 0, 0, 0, 0, 0, 0x10] ∧
    host_to_device .little 0x1122334455667788 8 .Big
      = .ok [0x11, 0x22, 0x33, 0x44, 0x55, 0x66, 0x77, 0x88] ∧
    I2CTarget.write .little
      { m_i2c_addr := 0x50, m_offset := 0, m_address_endianness := .Big, m_address_bytes := 8,
        m_data_endianness := .Big, m_data_bytes := 8 }
      recording_transport [] 0x10 8 0x1122334455667788 = (.fault .out_of_bounds, []) ∧
    I2CTarget.write .little
      { m_i2c_addr := 0x50, m_offset := 0, m_address_endianness := .Big, m_address_bytes := 4,
        m_data_endianness := .Big, m_data_bytes := 8 }
      recording_transport [] 0x10 8 0x1122334455667788
      = (.ok (), [[{ addr := 0x50, flags := 0, len := 12,
                     buf := [0, 0, 0, 0x10, 0x11, 0x22, 0x33, 0x44, 0x55, 0x66, 0x77, 0x88] }]]) := by
  decide

/-- C20: the code at the failing input. With an address width of 8 and a
resolved data width of 8 the second `host_to_device` stores 8 bytes at
`data_buf + 8`, that is at the indices 8 to 15 of a 12-byte buffer, and the
message length is 16; `read` keeps an 8-byte address in its own `addr_buf[8]`.
This holds for every host, address, value, offset and transport. -/
theorem write_overruns_data_buf {σ : Type} (host : HostOrder) (ioctl : Transport σ) (dev : σ)
    (i2c offset addr value db : Nat) :
    I2CTarget.write host
      { m_i2c_addr := i2c, m_offset := offset, m_address_endianness := .Big,
        m_address_bytes := 8, m_data_endianness := .Big, m_data_bytes := db }
      ioctl dev addr 8 value = (.fault .out_of_bounds, dev) ∧
    I2CTarget.write host
      { m_i2c_addr := i2c, m_offset := offset, m_address_endianness := .Big,
        m_address_bytes := 8, m_data_endianness := .Big, m_data_bytes := 8 }
      ioctl dev addr 0 value = (.fault .out_of_bounds, dev) ∧
    (∀ bytes : List Nat, bytes.length = 8 →
      write_at (List.replicate 12 0) 0 bytes ≠ none ∧
      ∀ buf : List Nat, buf.length = 12 → write_at buf 8 bytes = none) ∧
    ¬ (8 + 8 ≤ 12) ∧
    (∃ abuf, (I2CTarget.read host
      { m_i2c_addr := i2c, m_offset := offset, m_address_endianness := .Big,
        m_address_bytes := 8, m_data_endianness := .Big, m_data_bytes := 8 }
      recording_transport [] addr 8).2
      = [[{ addr := i2c, flags := 0, len := 8, buf := abuf },
          { addr := i2c, flags := I2C_M_RD, len := 8, buf := List.replicate 8 0 }]]) := by
  have hw : ∀ d, I2CTarget.write host
      { m_i2c_addr := i2c, m_offset := offset, m_address_endianness := .Big,
        m_address_bytes := 8, m_data_endianness := .Big, m_data_bytes := d }
      ioctl dev addr 8 value = (.fault .out_of_bounds, dev) := by
    intro d
    rcases h2d_supported host ((addr + offset) % 18446744073709551616) 8 .Big rfl with
      ⟨h0, _⟩ | ⟨h0, _⟩ | ⟨h0, _⟩ | ⟨_, a1, a2, a3, a4, a5, a6, a7, a8, h⟩
    · exact absurd h0 (by decide)
    · exact absurd h0 (by decide)
    · exact absurd h0 (by decide)
    · rcases h2d_supported host value 8 .Big rfl with
        ⟨h0, _⟩ | ⟨h0, _⟩ | ⟨h0, _⟩ | ⟨_, d1, d2, d3, d4, d5, d6, d7, d8, k⟩
      · exact absurd h0 (by decide)
      · exact absurd h0 (by decide)
      · exact absurd h0 (by decide)
      · simp [I2CTarget.write, host_to_device_at, Result.bind, h, k, write_at]
  refine ⟨hw db, ?_, ?_, by decide, ?_⟩
  · rw [write_width_zero]
    exact hw 8
  · intro bytes hlen
    refine ⟨by simp [write_at, hlen], ?_⟩
    intro buf hbuf
    simp [write_at, hlen, hbuf]
  · obtain ⟨abuf, h⟩ := read_messages host
      { m_i2c_addr := i2c, m_offset := offset, m_address_endianness := .Big,
        m_address_bytes := 8, m_data_endianness := .Big, m_data_bytes := 8 } addr 8 rfl
    exact ⟨abuf, by simpa using h⟩

/-! ## The range test, child resolution and the layout of the blob -/

/-- The block range test of the address lookups, in 64-bit arithmetic: the
block is kept exactly when the offset lies in `[offset, offset + size)` and
`offset + size` does not reach `2^64`. -/
theorem range_test_iff (b : RegisterBlockData) (offset : Nat) (hb : b.offset < 2 ^ 64)
    (hs : b.size < 2 ^ 64) :
    (¬ offset < b.offset ∧ ¬ offset ≥ (b.offset + b.size) % 2 ^ 64) ↔
      (b.offset ≤ offset ∧ offset < b.offset + b.size ∧ b.offset + b.size < 2 ^ 64) := by
  constructor
  · rintro ⟨h1, h2⟩
    refine ⟨by omega, by omega, by omega⟩
  · rintro ⟨h1, h2, h3⟩
    refine ⟨by omega, by omega⟩

/-- C19: the code at the failing input. The block of `top_catalog` covers
`[0xFFFFFFFFFFFFF000, 2^64)` and has a register at relative offset 0; the
offset `0xFFFFFFFFFFFFF000` lies in that interval, but `offset() + size()`
wraps to 0, the test `offset >= offset() + size()` holds, and both lookups skip
the block: null, and "register not found". -/
theorem range_test_wraps_at_top :
    top_catalog.child 0 0
      = some ({ name := "blk", offset := 0xFFFFFFFFFFFFF000, size := 0x1000, regs_offset := 0,
                num_regs := 1 }, 0,
              { name := "r0", offset := 0, size := 4, fields_offset := 0, num_fields := 0 }) ∧
    (0xFFFFFFFFFFFFF000 ≤ 0xFFFFFFFFFFFFF000 ∧
      0xFFFFFFFFFFFFF000 < 0xFFFFFFFFFFFFF000 + 0x1000 ∧
      0xFFFFFFFFFFFFF000 < 2 ^ 64) ∧
    (0xFFFFFFFFFFFFF000 + 0x1000) % 2 ^ 64 = 0 ∧
    top_catalog.find_register_u64 0xFFFFFFFFFFFFF000 none = .ok { rd := none, rbd := some 0 } ∧
    (RegisterFile.mk top_catalog).get_register_u64 0xFFFFFFFFFFFFF000
      = .throw (.runtime_error "register not found") ∧
    top_catalog.WellFormed := by
  decide

/-- C17: for every block and local index `i < num_regs` whose sum
`regs_offset + i` fits the 32-bit index arithmetic, `RegisterBlockData::at` is
the place `regs_offset + i` of the global register array, and likewise
`RegisterData::at` is the place `fields_offset + i` of the global field array;
in a well-formed catalog every child so resolved lies inside its global
array. -/
theorem child_resolution (rfd : RegisterFileData) :
    (∀ (b : RegisterBlockData) (i : Nat), i < b.num_regs → b.regs_offset + i < 2 ^ 32 →
      b.at rfd i = b.regs_offset + i ∧
      rfd.reg (b.at rfd i) = rfd.registers[b.regs_offset + i]?) ∧
    (∀ (r : RegisterData) (i : Nat), i < r.num_fields → r.fields_offset + i < 2 ^ 32 →
      r.at rfd i = r.fields_offset + i ∧
      rfd.field (r.at rfd i) = rfd.fields[r.fields_offset + i]?) ∧
    (rfd.WellFormed →
      (∀ b ∈ rfd.blocks, ∀ i, i < b.num_regs →
        b.at rfd i = b.regs_offset + i ∧ b.at rfd i < rfd.registers.length ∧
        ∃ rec, rfd.reg (b.at rfd i) = some rec) ∧
      (∀ r ∈ rfd.registers, ∀ i, i < r.num_fields →
        r.at rfd i = r.fields_offset + i ∧ r.at rfd i < rfd.fields.length ∧
        ∃ rec, rfd.field (r.at rfd i) = some rec)) := by
  refine ⟨?_, ?_, ?_⟩
  · intro b i _ hlt
    have hat : b.at rfd i = b.regs_offset + i := Nat.mod_eq_of_lt hlt
    exact ⟨hat, by rw [hat]; rfl⟩
  · intro r i _ hlt
    have hat : r.at rfd i = r.fields_offset + i := Nat.mod_eq_of_lt hlt
    exact ⟨hat, by rw [hat]; rfl⟩
  · rintro ⟨⟨hr1, hr2⟩, ⟨hf1, hf2⟩⟩
    constructor
    · intro b hb i hi
      have hle := hr2 b hb
      have hat : b.at rfd i = b.regs_offset + i := Nat.mod_eq_of_lt (by omega)
      have hlt : b.regs_offset + i < rfd.registers.length := by omega
      obtain ⟨rec, hrec, _⟩ := getElem?_of_lt_length rfd.registers _ hlt
      exact ⟨hat, by rw [hat]; exact hlt, rec, by rw [hat]; exact hrec⟩
    · intro r hr i hi
      have hle := hf2 r hr
      have hat : r.at rfd i = r.fields_offset + i := Nat.mod_eq_of_lt (by omega)
      have hlt : r.fields_offset + i < rfd.fields.length := by omega
      obtain ⟨rec, hrec, _⟩ := getElem?_of_lt_length rfd.fields _ hlt
      exact ⟨hat, by rw [hat]; exact hlt, rec, by rw [hat]; exact hrec⟩

theorem child_resolution_witness :
    (RegisterBlockData.at
        { name := "blk", offset := 0x1000, size := 0x100, regs_offset := 0, num_regs := 2 }
        example_catalog 1 = 0 + 1 ∧
      example_catalog.reg (RegisterBlockData.at
        { name := "blk", offset := 0x1000, size := 0x100, regs_offset := 0, num_regs := 2 }
        example_catalog 1) = example_catalog.registers[0 + 1]?) ∧
    (RegisterBlockData.at
        { name := "blk", offset := 0x1000, size := 0x100, regs_offset := 0, num_regs := 2 }
        example_catalog 1 = 0 + 1 ∧
      RegisterBlockData.at
        { name := "blk", offset := 0x1000, size := 0x100, regs_offset := 0, num_regs := 2 }
        example_catalog 1 < example_catalog.registers.length ∧
      ∃ rec, example_catalog.reg (RegisterBlockData.at
        { name := "blk", offset := 0x1000, size := 0x100, regs_offset := 0, num_regs := 2 }
        example_catalog 1) = some rec) :=
  ⟨(child_resolution example_catalog).1
      { name := "blk", offset := 0x1000, size := 0x100, regs_offset := 0, num_regs := 2 } 1
      (by decide) (by decide),
    ((child_resolution example_catalog).2.2 (by decide)).1
      { name := "blk", offset := 0x1000, size := 0x100, regs_offset := 0, num_regs := 2 }
      (by decide) 1 (by decide)⟩

/-- C18: with the record sizes `H`, `B`, `R`, `F`, `blocks()` starts at byte
`H`, `registers()` at `H + num_blocks*B`, `fields()` at
`H + num_blocks*B + num_regs*R` and `strings()` at
`H + num_blocks*B + num_regs*R + num_fields*F`; each region ends where the next
begins, the regions come in the order blocks, registers, fields, strings, and
every record of an array lies before the start of the next region. -/
theorem blob_layout (rfd : RegisterFileData) (sz : RecordSizes) :
    rfd.blocks_ptr sz = sz.H ∧
    rfd.registers_ptr sz = sz.H + rfd.num_blocks * sz.B ∧
    rfd.fields_ptr sz = sz.H + rfd.num_blocks * sz.B + rfd.num_regs * sz.R ∧
    rfd.strings_ptr sz
      = sz.H + rfd.num_blocks * sz.B + rfd.num_regs * sz.R + rfd.num_fields * sz.F ∧
    (rfd.blocks_ptr sz + rfd.num_blocks * sz.B = rfd.registers_ptr sz ∧
      rfd.registers_ptr sz + rfd.num_regs * sz.R = rfd.fields_ptr sz ∧
      rfd.fields_ptr sz + rfd.num_fields * sz.F = rfd.strings_ptr sz) ∧
    (sz.H ≤ rfd.blocks_ptr sz ∧ rfd.blocks_ptr sz ≤ rfd.registers_ptr sz ∧
      rfd.registers_ptr sz ≤ rfd.fields_ptr sz ∧ rfd.fields_ptr sz ≤ rfd.strings_ptr sz) ∧
    (∀ k, k < rfd.num_blocks →
      rfd.blocks_ptr sz + k * sz.B + sz.B ≤ rfd.registers_ptr sz) ∧
    (∀ k, k < rfd.num_regs →
      rfd.registers_ptr sz ≤ rfd.registers_ptr sz + k * sz.R ∧
      rfd.registers_ptr sz + k * sz.R + sz.R ≤ rfd.fields_ptr sz) ∧
    (∀ k, k < rfd.num_fields →
      rfd.fields_ptr sz ≤ rfd.fields_ptr sz + k * sz.F ∧
      rfd.fields_ptr sz + k * sz.F + sz.F ≤ rfd.strings_ptr sz) := by
  have hmul : ∀ k n s : Nat, k < n → k * s + s ≤ n * s := by
    intro k n s hk
    have h := Nat.mul_le_mul_right s (Nat.succ_le_of_lt hk)
    rw [Nat.succ_mul] at h
    exact h
  have hb : rfd.blocks_ptr sz = sz.H := by
    simp only [RegisterFileData.blocks_ptr, Nat.zero_add]
  have hr : rfd.registers_ptr sz = sz.H + rfd.num_blocks * sz.B := by
    simp only [RegisterFileData.registers_ptr, hb]
  have hf : rfd.fields_ptr sz = sz.H + rfd.num_blocks * sz.B + rfd.num_regs * sz.R := by
    simp only [RegisterFileData.fields_ptr, hr]
  have hs : rfd.strings_ptr sz
      = sz.H + rfd.num_blocks * sz.B + rfd.num_regs * sz.R + rfd.num_fields * sz.F := by
    simp only [RegisterFileData.strings_ptr, hf]
  refine ⟨hb, hr, hf, hs, ⟨by omega, by omega, by omega⟩,
    ⟨by omega, by omega, by omega, by omega⟩, ?_, ?_, ?_⟩
  · intro k hk
    have := hmul k rfd.num_blocks sz.B hk
    omega
  · intro k hk
    have := hmul k rfd.num_regs sz.R hk
    omega
  · intro k hk
    have := hmul k rfd.num_fields sz.F hk
    omega

/-! ## Malformed catalogs -/

/-- C14, as the claim states it, fails: in `malformed_catalog` the block claims
two registers and the register two fields while the global arrays hold one of
each; `RegisterBlock::at(1)` and `Register::at(1)` report no failure and return
views that point at index 1 of the global register and field arrays, where
these arrays hold no record; a name lookup that meets its name inside the
array returns as well without reporting a failure. -/
theorem malformed_catalog_not_detected :
    ¬ malformed_catalog.WellFormed ∧
    malformed_catalog.blocks.map (fun b => b.regs_offset + b.num_regs) = [2] ∧
    malformed_catalog.registers.length = 1 ∧
    malformed_catalog.registers.map (fun r => r.fields_offset + r.num_fields) = [2] ∧
    malformed_catalog.fields.length = 1 ∧
    (RegisterBlock.mk malformed_catalog 0).at 1
      = .ok { m_rfd := malformed_catalog, m_rbd := 0, m_rd := 1 } ∧
    malformed_catalog.registers[1]? = none ∧
    (Register.mk malformed_catalog 0 0).at 1 = .ok { m_rfd := malformed_catalog, m_fd := 1 } ∧
    malformed_catalog.fields[1]? = none ∧
    (RegisterBlock.mk malformed_catalog 0).find_register "r0" = .ok 0 ∧
    (Register.mk malformed_catalog 0 0).find_field "f0" = .ok 0 := by
  decide

/-- C14, amended: the indexed lookups do not detect a malformed catalog; they
check the local index against the child count and nothing else. For every
catalog, block and `idx < num_regs`, `RegisterBlock::at(idx)` reports no failure
and returns the view of the record that `RegisterBlockData::at` points at,
index `regs_offset + idx` (in 32-bit arithmetic) of the global register array,
and when that index is at or past the total register count the array holds no
record there. Every block with at least one register whose
`regs_offset + num_regs` exceeds the total register count, and is at most
`2^32`, has such an index. The same holds for `Register::at` and
`RegisterData::at` on the fields of a register. -/
theorem malformed_at_returns_outside (rfd : RegisterFileData) :
    (∀ (p : Nat) (b : RegisterBlockData), rfd.blocks[p]? = some b →
      (∀ idx, idx < b.num_regs →
        (RegisterBlock.mk rfd p).at idx
          = .ok { m_rfd := rfd, m_rbd := p, m_rd := b.at rfd idx } ∧
        b.at rfd idx = (b.regs_offset + idx) % 2 ^ 32 ∧
        (rfd.registers.length ≤ b.at rfd idx → rfd.registers[b.at rfd idx]? = none)) ∧
      (0 < b.num_regs → rfd.registers.length < b.regs_offset + b.num_regs →
        b.regs_offset + b.num_regs ≤ 2 ^ 32 →
        ∃ idx, idx < b.num_regs ∧ rfd.registers.length ≤ b.regs_offset + idx ∧
          (RegisterBlock.mk rfd p).at idx
            = .ok { m_rfd := rfd, m_rbd := p, m_rd := b.regs_offset + idx } ∧
          rfd.registers[b.regs_offset + idx]? = none)) ∧
    (∀ (p q : Nat) (r : RegisterData), rfd.registers[q]? = some r →
      (∀ idx, idx < r.num_fields →
        (Register.mk rfd p q).at idx = .ok { m_rfd := rfd, m_fd := r.at rfd idx } ∧
        r.at rfd idx = (r.fields_offset + idx) % 2 ^ 32 ∧
        (rfd.fields.length ≤ r.at rfd idx → rfd.fields[r.at rfd idx]? = none)) ∧
      (0 < r.num_fields → rfd.fields.length < r.fields_offset + r.num_fields →
        r.fields_offset + r.num_fields ≤ 2 ^ 32 →
        ∃ idx, idx < r.num_fields ∧ rfd.fields.length ≤ r.fields_offset + idx ∧
          (Register.mk rfd p q).at idx
            = .ok { m_rfd := rfd, m_fd := r.fields_offset + idx } ∧
          rfd.fields[r.fields_offset + idx]? = none)) := by
  constructor
  · intro p b hb
    have hdata : (RegisterBlock.mk rfd p).data = some b := hb
    have hat : ∀ idx, idx < b.num_regs →
        (RegisterBlock.mk rfd p).at idx
          = .ok { m_rfd := rfd, m_rbd := p, m_rd := b.at rfd idx } := by
      intro idx hidx
      simp only [RegisterBlock.at, hdata, ge_iff_le, Nat.not_le.mpr hidx, if_false]
    constructor
    · intro idx hidx
      exact ⟨hat idx hidx, rfl, fun hout => List.getElem?_eq_none hout⟩
    · intro hpos hbad hwrap
      have hidx : b.num_regs - 1 < b.num_regs := by omega
      have hmod : b.at rfd (b.num_regs - 1) = b.regs_offset + (b.num_regs - 1) := by
        simp only [RegisterBlockData.at]
        exact Nat.mod_eq_of_lt (by omega)
      have hout : rfd.registers.length ≤ b.regs_offset + (b.num_regs - 1) := by omega
      refine ⟨b.num_regs - 1, hidx, hout, ?_, List.getElem?_eq_none hout⟩
      rw [hat _ hidx, hmod]
  · intro p q r hr
    have hdata : (Register.mk rfd p q).data = some r := hr
    have hat : ∀ idx, idx < r.num_fields →
        (Register.mk rfd p q).at idx = .ok { m_rfd := rfd, m_fd := r.at rfd idx } := by
      intro idx hidx
      simp only [Register.at, hdata, ge_iff_le, Nat.not_le.mpr hidx, if_false]
    constructor
    · intro idx hidx
      exact ⟨hat idx hidx, rfl, fun hout => List.getElem?_eq_none hout⟩
    · intro hpos hbad hwrap
      have hidx : r.num_fields - 1 < r.num_fields := by omega
      have hmod : r.at rfd (r.num_fields - 1) = r.fields_offset + (r.num_fields - 1) := by
        simp only [RegisterData.at]
        exact Nat.mod_eq_of_lt (by omega)
      have hout : rfd.fields.length ≤ r.fields_offset + (r.num_fields - 1) := by omega
      refine ⟨r.num_fields - 1, hidx, hout, ?_, List.getElem?_eq_none hout⟩
      rw [hat _ hidx, hmod]

theorem malformed_at_returns_outside_witness :
    ((RegisterBlock.mk malformed_catalog 0).at 1
        = .ok { m_rfd := malformed_catalog, m_rbd := 0,
                m_rd := RegisterBlockData.at
                  { name := "blk", offset := 0, size := 0x10, regs_offset := 0, num_regs := 2 }
                  malformed_catalog 1 } ∧
      RegisterBlockData.at
          { name := "blk", offset := 0, size := 0x10, regs_offset := 0, num_regs := 2 }
          malformed_catalog 1 = (0 + 1) % 2 ^ 32 ∧
      (malformed_catalog.registers.length ≤ RegisterBlockData.at
          { name := "blk", offset := 0, size := 0x10, regs_offset := 0, num_regs := 2 }
          malformed_catalog 1 →
        malformed_catalog.registers[RegisterBlockData.at
          { name := "blk", offset := 0, size := 0x10, regs_offset := 0, num_regs := 2 }
          malformed_catalog 1]? = none)) ∧
    (∃ idx, idx < 2 ∧ malformed_catalog.fields.length ≤ 0 + idx ∧
      (Register.mk malformed_catalog 0 0).at idx
        = .ok { m_rfd := malformed_catalog, m_fd := 0 + idx } ∧
      malformed_catalog.fields[0 + idx]? = none) :=
  ⟨((malformed_at_returns_outside malformed_catalog).1 0
      { name := "blk", offset := 0, size := 0x10, regs_offset := 0, num_regs := 2 }
      rfl).1 1 (by decide),
    ((malformed_at_returns_outside malformed_catalog).2 0 0
      { name := "r0", offset := 0, size := 4, fields_offset := 0, num_fields := 2 }
      rfl).2 (by decide) (by decide) (by decide)⟩

/-! ## Name lookups of the views -/

/-- A loop whose body returns `g i` exactly at the indices that satisfy `P`
returns at the first such index, and runs to its end when there is none. -/
theorem first_index_loop {α : Type} (body : Nat → Result (Option α)) (n : Nat)
    (P : Nat → Prop) (g : Nat → α)
    (hyes : ∀ i, i < n → P i → body i = .ok (some (g i)))
    (hno : ∀ i, i < n → ¬ P i → body i = .ok none) :
    (for_loop body n 0 = .ok none ∧ ∀ i, i < n → ¬ P i) ∨
    (∃ i, i < n ∧ P i ∧ (∀ j, j < i → ¬ P j) ∧ for_loop body n 0 = .ok (some (g i))) := by
  rcases for_loop_cases body n 0 with ⟨hres, hall⟩ | ⟨k, hk, hprev, hne, hres⟩
  · left
    refine ⟨hres, ?_⟩
    intro i hi hP
    have h1 := hall i hi
    rw [Nat.zero_add, hyes i hi hP] at h1
    exact absurd h1 (by simp)
  · right
    rw [Nat.zero_add] at hne hres
    have hPk : P k := by
      by_contra hP
      exact hne (hno k hk hP)
    refine ⟨k, hk, hPk, ?_, by rw [hres, hyes k hk hPk]⟩
    intro j hj hP
    have h1 := hprev j hj
    rw [Nat.zero_add, hyes j (by omega) hP] at h1
    exact absurd h1 (by simp)

theorem int_of_unsigned_small (i : Nat) (h : i < 2 ^ 31) : int_of_unsigned i = (i : Int) := by
  have h1 : i % 2 ^ 32 = i := Nat.mod_eq_of_lt (by omega)
  simp only [int_of_unsigned, h1]
  rw [if_pos h]

theorem unsigned_of_int_small (i : Nat) (h : i < 2 ^ 31) : unsigned_of_int (i : Int) = i := by
  unfold unsigned_of_int
  have h1 : ((i : Int) % 2 ^ 32) = (i : Int) := by
    apply Int.emod_eq_of_lt
    · omega
    · have : (i : Int) < 2 ^ 31 := by exact_mod_cast h
      omega
  rw [h1]
  simp

/-- Outcome of the three name lookups on the fields of a register whose fields
lie inside the global field array. -/
theorem field_lookup_spec (rfd : RegisterFileData) (p q : Nat) (r : RegisterData)
    (name : String) (hr : rfd.registers[q]? = some r) (hin : rfd.fields_in_range)
    (hint : r.num_fields ≤ 2 ^ 31) :
    ((∀ (i : Nat) (f : FieldData), i < r.num_fields →
        rfd.fields[r.fields_offset + i]? = some f → f.name ≠ c_str name) ∧
      (Register.mk rfd p q).find_field name = .ok (-1) ∧
      r.find_field rfd name = .ok none ∧
      (Register.mk rfd p q).get_field_str name = .throw (.runtime_error "field not found")) ∨
    (∃ (i : Nat) (f : FieldData), i < r.num_fields ∧
      rfd.fields[r.fields_offset + i]? = some f ∧ f.name = c_str name ∧
      (∀ (j : Nat) (f1 : FieldData), j < i →
        rfd.fields[r.fields_offset + j]? = some f1 → f1.name ≠ c_str name) ∧
      (Register.mk rfd p q).find_field name = .ok (i : Int) ∧
      r.find_field rfd name = .ok (some (r.fields_offset + i)) ∧
      (Register.mk rfd p q).at i = .ok { m_rfd := rfd, m_fd := r.fields_offset + i } ∧
      (Register.mk rfd p q).get_field_str name
        = .ok { m_rfd := rfd, m_fd := r.fields_offset + i }) := by
  have hdata : (Register.mk rfd p q).data = some r := hr
  have hmem : r ∈ rfd.registers := List.getElem?_mem hr
  have hle := hin.2 r hmem
  have hlt := hin.1
  have hmod : ∀ i, i < r.num_fields → (r.fields_offset + i) % 2 ^ 32 = r.fields_offset + i := by
    intro i hi
    exact Nat.mod_eq_of_lt (by omega)
  have hget : ∀ i, i < r.num_fields → ∃ f, rfd.fields[r.fields_offset + i]? = some f := by
    intro i hi
    obtain ⟨f, hf, _⟩ := getElem?_of_lt_length rfd.fields (r.fields_offset + i) (by omega)
    exact ⟨f, hf⟩
  have hat : ∀ i, i < r.num_fields →
      (Register.mk rfd p q).at i = .ok { m_rfd := rfd, m_fd := r.fields_offset + i } := by
    intro i hi
    simp only [Register.at, hdata, ge_iff_le, Nat.not_le.mpr hi, if_false, RegisterData.at,
      hmod i hi]
  have hview : ∀ i, i < r.num_fields → ∀ f, rfd.fields[r.fields_offset + i]? = some f →
      (Register.mk rfd p q).find_field_body name i
        = if f.name = c_str name then .ok (some (i : Int)) else .ok none := by
    intro i hi f hf
    simp only [Register.find_field_body, hat i hi, Result.bind, Field.data,
      RegisterFileData.field, hf, strcmp_eq_zero, int_of_unsigned_small i (by omega)]
  have hrec : ∀ i, i < r.num_fields → ∀ f, rfd.fields[r.fields_offset + i]? = some f →
      r.find_field_body rfd name i
        = if f.name = c_str name then .ok (some (r.fields_offset + i)) else .ok none := by
    intro i hi f hf
    simp only [RegisterData.find_field_body, RegisterFileData.field, hmod i hi, hf,
      strcmp_eq_zero]
  have hP : ∀ i, i < r.num_fields →
      ((∃ f, rfd.fields[r.fields_offset + i]? = some f ∧ f.name = c_str name) ∨
        (∃ f, rfd.fields[r.fields_offset + i]? = some f ∧ f.name ≠ c_str name)) := by
    intro i hi
    obtain ⟨f, hf⟩ := hget i hi
    by_cases hn : f.name = c_str name
    · exact Or.inl ⟨f, hf, hn⟩
    · exact Or.inr ⟨f, hf, hn⟩
  have hloop1 := first_index_loop ((Register.mk rfd p q).find_field_body name) r.num_fields
    (fun i => ∃ f, rfd.fields[r.fields_offset + i]? = some f ∧ f.name = c_str name)
    (fun i => (i : Int))
    (by
      rintro i hi ⟨f, hf, hn⟩
      rw [hview i hi f hf, if_pos hn])
    (by
      intro i hi hnot
      obtain ⟨f, hf⟩ := hget i hi
      rw [hview i hi f hf, if_neg (fun hn => hnot ⟨f, hf, hn⟩)])
  have hloop2 := first_index_loop (r.find_field_body rfd name) r.num_fields
    (fun i => ∃ f, rfd.fields[r.fields_offset + i]? = some f ∧ f.name = c_str name)
    (fun i => r.fields_offset + i)
    (by
      rintro i hi ⟨f, hf, hn⟩
      rw [hrec i hi f hf, if_pos hn])
    (by
      intro i hi hnot
      obtain ⟨f, hf⟩ := hget i hi
      rw [hrec i hi f hf, if_neg (fun hn => hnot ⟨f, hf, hn⟩)])
  rcases hloop1 with ⟨hres1, hall⟩ | ⟨i, hi, ⟨f, hf, hn⟩, hmin, hres1⟩
  · left
    have hres2 : for_loop (r.find_field_body rfd name) r.num_fields 0 = .ok none := by
      rcases hloop2 with ⟨h, _⟩ | ⟨i, hi, hPi, _, _⟩
      · exact h
      · exact absurd hPi (hall i hi)
    have hfind : (Register.mk rfd p q).find_field name = .ok (-1) := by
      simp only [Register.find_field, hdata, hres1, Result.bind]
    refine ⟨?_, hfind, hres2, ?_⟩
    · intro i f hi hf hn
      exact hall i hi ⟨f, hf, hn⟩
    · simp only [Register.get_field_str, hfind, Result.bind]
      rfl
  · right
    have hres2 : for_loop (r.find_field_body rfd name) r.num_fields 0
        = .ok (some (r.fields_offset + i)) := by
      rcases hloop2 with ⟨_, hall⟩ | ⟨k, hk, hPk, hmink, h⟩
      · exact absurd ⟨f, hf, hn⟩ (hall i hi)
      · rcases Nat.lt_trichotomy k i with hlt | heq | hgt
        · exact absurd hPk (hmin k hlt)
        · rw [h, heq]
        · exact absurd ⟨f, hf, hn⟩ (hmink i hgt)
    have hfind : (Register.mk rfd p q).find_field name = .ok (i : Int) := by
      simp only [Register.find_field, hdata, hres1, Result.bind]
    refine ⟨i, f, hi, hf, hn, ?_, hfind, hres2, hat i hi, ?_⟩
    · intro j f1 hj hf1 hn1
      exact hmin j hj ⟨f1, hf1, hn1⟩
    · have hnn : ¬ ((i : Int) < 0) := by omega
      simp only [Register.get_field_str, hfind, Result.bind, hnn, if_false,
        unsigned_of_int_small i (by omega), hat i hi]

/-- Outcome of the three name lookups on the registers of a block whose
registers lie inside the global register array. -/
theorem register_lookup_spec (rfd : RegisterFileData) (p : Nat) (b : RegisterBlockData)
    (name : String) (hb : rfd.blocks[p]? = some b) (hin : rfd.regs_in_range)
    (hint : b.num_regs ≤ 2 ^ 31) :
    ((∀ (i : Nat) (r : RegisterData), i < b.num_regs →
        rfd.registers[b.regs_offset + i]? = some r → r.name ≠ c_str name) ∧
      (RegisterBlock.mk rfd p).find_register name = .ok (-1) ∧
      b.find_register rfd name = .ok none ∧
      (RegisterBlock.mk rfd p).get_register name
        = .throw (.runtime_error "register not found")) ∨
    (∃ (i : Nat) (r : RegisterData), i < b.num_regs ∧
      rfd.registers[b.regs_offset + i]? = some r ∧ r.name = c_str name ∧
      (∀ (j : Nat) (r1 : RegisterData), j < i →
        rfd.registers[b.regs_offset + j]? = some r1 → r1.name ≠ c_str name) ∧
      (RegisterBlock.mk rfd p).find_register name = .ok (i : Int) ∧
      b.find_register rfd name = .ok (some (b.regs_offset + i)) ∧
      (RegisterBlock.mk rfd p).at i
        = .ok { m_rfd := rfd, m_rbd := p, m_rd := b.regs_offset + i } ∧
      (RegisterBlock.mk rfd p).get_register name
        = .ok { m_rfd := rfd, m_rbd := p, m_rd := b.regs_offset + i }) := by
  have hdata : (RegisterBlock.mk rfd p).data = some b := hb
  have hmem : b ∈ rfd.blocks := List.getElem?_mem hb
  have hle := hin.2 b hmem
  have hlt := hin.1
  have hmod : ∀ i, i < b.num_regs → (b.regs_offset + i) % 2 ^ 32 = b.regs_offset + i := by
    intro i hi
    exact Nat.mod_eq_of_lt (by omega)
  have hget : ∀ i, i < b.num_regs → ∃ r, rfd.registers[b.regs_offset + i]? = some r := by
    intro i hi
    obtain ⟨r, hr, _⟩ := getElem?_of_lt_length rfd.registers (b.regs_offset + i) (by omega)
    exact ⟨r, hr⟩
  have hat : ∀ i, i < b.num_regs →
      (RegisterBlock.mk rfd p).at i
        = .ok { m_rfd := rfd, m_rbd := p, m_rd := b.regs_offset + i } := by
    intro i hi
    simp only [RegisterBlock.at, hdata, ge_iff_le, Nat.not_le.mpr hi, if_false,
      RegisterBlockData.at, hmod i hi]
  have hview : ∀ i, i < b.num_regs → ∀ r, rfd.registers[b.regs_offset + i]? = some r →
      (RegisterBlock.mk rfd p).find_register_body name i
        = if r.name = c_str name then .ok (some (i : Int)) else .ok none := by
    intro i hi r hr
    simp only [RegisterBlock.find_register_body, hat i hi, Result.bind, Register.data,
      RegisterFileData.reg, hr, strcmp_eq_zero, int_of_unsigned_small i (by omega)]
  have hrec : ∀ i, i < b.num_regs → ∀ r, rfd.registers[b.regs_offset + i]? = some r →
      b.find_register_body rfd name i
        = if r.name = c_str name then .ok (some (b.regs_offset + i)) else .ok none := by
    intro i hi r hr
    simp only [RegisterBlockData.find_register_body, RegisterFileData.reg, hmod i hi, hr,
      strcmp_eq_zero]
  have hloop1 := first_index_loop ((RegisterBlock.mk rfd p).find_register_body name)
    b.num_regs
    (fun i => ∃ r, rfd.registers[b.regs_offset + i]? = some r ∧ r.name = c_str name)
    (fun i => (i : Int))
    (by
      rintro i hi ⟨r, hr, hn⟩
      rw [hview i hi r hr, if_pos hn])
    (by
      intro i hi hnot
      obtain ⟨r, hr⟩ := hget i hi
      rw [hview i hi r hr, if_neg (fun hn => hnot ⟨r, hr, hn⟩)])
  have hloop2 := first_index_loop (b.find_register_body rfd name) b.num_regs
    (fun i => ∃ r, rfd.registers[b.regs_offset + i]? = some r ∧ r.name = c_str name)
    (fun i => b.regs_offset + i)
    (by
      rintro i hi ⟨r, hr, hn⟩
      rw [hrec i hi r hr, if_pos hn])
    (by
      intro i hi hnot
      obtain ⟨r, hr⟩ := hget i hi
      rw [hrec i hi r hr, if_neg (fun hn => hnot ⟨r, hr, hn⟩)])
  rcases hloop1 with ⟨hres1, hall⟩ | ⟨i, hi, ⟨r, hr, hn⟩, hmin, hres1⟩
  · left
    have hres2 : for_loop (b.find_register_body rfd name) b.num_regs 0 = .ok none := by
      rcases hloop2 with ⟨h, _⟩ | ⟨i, hi, hPi, _, _⟩
      · exact h
      · exact absurd hPi (hall i hi)
    have hfind : (RegisterBlock.mk rfd p).find_register name = .ok (-1) := by
      simp only [RegisterBlock.find_register, hdata, hres1, Result.bind]
    refine ⟨?_, hfind, hres2, ?_⟩
    · intro i r hi hr hn
      exact hall i hi ⟨r, hr, hn⟩
    · simp only [RegisterBlock.get_register, hfind, Result.bind]
      rfl
  · right
    have hres2 : for_loop (b.find_register_body rfd name) b.num_regs 0
        = .ok (some (b.regs_offset + i)) := by
      rcases hloop2 with ⟨_, hall⟩ | ⟨k, hk, hPk, hmink, h⟩
      · exact absurd ⟨r, hr, hn⟩ (hall i hi)
      · rcases Nat.lt_trichotomy k i with hlt | heq | hgt
        · exact absurd hPk (hmin k hlt)
        · rw [h, heq]
        · exact absurd ⟨r, hr, hn⟩ (hmink i hgt)
    have hfind : (RegisterBlock.mk rfd p).find_register name = .ok (i : Int) := by
      simp only [RegisterBlock.find_register, hdata, hres1, Result.bind]
    refine ⟨i, r, hi, hr, hn, ?_, hfind, hres2, hat i hi, ?_⟩
    · intro j r1 hj hr1 hn1
      exact hmin j hj ⟨r1, hr1, hn1⟩
    · have hnn : ¬ ((i : Int) < 0) := by omega
      simp only [RegisterBlock.get_register, hfind, Result.bind, hnn, if_false,
        unsigned_of_int_small i (by omega), hat i hi]

/-- C15: for a name without an embedded NUL (the code compares `name.c_str()`)
and a register whose fields lie inside the global field array (and number at
most `2^31`, so that a local index fits `int`), `Register::find_field(name)` returns the smallest local index whose field has
the name and `-1` exactly when no field has it, `RegisterData::find_field`
returns that same field and null when there is none, and
`Register::get_field(name)` throws "field not found" exactly when `find_field`
returns `-1` and otherwise returns the child `at` the found index;
`RegisterBlock::find_register`, `RegisterBlockData::find_register` and
`RegisterBlock::get_register` do the same over the registers of a block. -/
theorem name_lookup_of_children (rfd : RegisterFileData) (name : String)
    (hnul : no_nul name) :
    (∀ (p q : Nat) (r : RegisterData), rfd.registers[q]? = some r → rfd.fields_in_range →
      r.num_fields ≤ 2 ^ 31 →
      (∀ (i : Nat) (f : FieldData), i < r.num_fields →
        rfd.fields[r.fields_offset + i]? = some f → f.name = name →
        (∀ (j : Nat) (f1 : FieldData), j < i →
          rfd.fields[r.fields_offset + j]? = some f1 → f1.name ≠ name) →
        (Register.mk rfd p q).find_field name = .ok (i : Int) ∧
        r.find_field rfd name = .ok (some (r.fields_offset + i)) ∧
        (Register.mk rfd p q).get_field_str name = (Register.mk rfd p q).at i ∧
        (Register.mk rfd p q).at i = .ok { m_rfd := rfd, m_fd := r.fields_offset + i }) ∧
      ((Register.mk rfd p q).find_field name = .ok (-1) ↔
        ∀ (i : Nat) (f : FieldData), i < r.num_fields →
          rfd.fields[r.fields_offset + i]? = some f → f.name ≠ name) ∧
      ((Register.mk rfd p q).find_field name = .ok (-1) ↔ r.find_field rfd name = .ok none) ∧
      ((Register.mk rfd p q).get_field_str name = .throw (.runtime_error "field not found") ↔
        (Register.mk rfd p q).find_field name = .ok (-1))) ∧
    (∀ (p : Nat) (b : RegisterBlockData), rfd.blocks[p]? = some b → rfd.regs_in_range →
      b.num_regs ≤ 2 ^ 31 →
      (∀ (i : Nat) (r : RegisterData), i < b.num_regs →
        rfd.registers[b.regs_offset + i]? = some r → r.name = name →
        (∀ (j : Nat) (r1 : RegisterData), j < i →
          rfd.registers[b.regs_offset + j]? = some r1 → r1.name ≠ name) →
        (RegisterBlock.mk rfd p).find_register name = .ok (i : Int) ∧
        b.find_register rfd name = .ok (some (b.regs_offset + i)) ∧
        (RegisterBlock.mk rfd p).get_register name = (RegisterBlock.mk rfd p).at i ∧
        (RegisterBlock.mk rfd p).at i
          = .ok { m_rfd := rfd, m_rbd := p, m_rd := b.regs_offset + i }) ∧
      ((RegisterBlock.mk rfd p).find_register name = .ok (-1) ↔
        ∀ (i : Nat) (r : RegisterData), i < b.num_regs →
          rfd.registers[b.regs_offset + i]? = some r → r.name ≠ name) ∧
      ((RegisterBlock.mk rfd p).find_register name = .ok (-1) ↔
        b.find_register rfd name = .ok none) ∧
      ((RegisterBlock.mk rfd p).get_register name
          = .throw (.runtime_error "register not found") ↔
        (RegisterBlock.mk rfd p).find_register name = .ok (-1))) ∧
    ((Register.mk fields_catalog 0 0).find_field "f" = .ok 1 ∧
      (Register.mk fields_catalog 0 0).find_field "g" = .ok (-1) ∧
      (RegisterBlock.mk fields_catalog 0).find_register "r0" = .ok 0) := by
  have hneg : ∀ i : Nat, (Result.ok (i : Int) : Result Int) ≠ .ok (-1) := by
    intro i h
    simp only [Result.ok.injEq] at h
    omega
  refine ⟨?_, ?_, by decide⟩
  · intro p q r hr hin hint
    have hspec := field_lookup_spec rfd p q r name hr hin hint
    rw [c_str_of_no_nul name hnul] at hspec
    rcases hspec with
      ⟨hall, hfind, hdata, hget⟩ | ⟨k, fk, hk, hfk, hnk, hmin, hfind, hdata, hat, hget⟩
    · refine ⟨?_, ?_, ?_, ?_⟩
      · intro i f hi hf hn _
        exact absurd hn (hall i f hi hf)
      · exact ⟨fun _ => hall, fun _ => hfind⟩
      · exact ⟨fun _ => hdata, fun _ => hfind⟩
      · exact ⟨fun _ => hfind, fun _ => hget⟩
    · refine ⟨?_, ?_, ?_, ?_⟩
      · intro i f hi hf hn hmini
        have hik : i = k := by
          rcases Nat.lt_trichotomy i k with hlt | heq | hgt
          · exact absurd hn (hmin i f hlt hf)
          · exact heq
          · exact absurd hnk (hmini k fk hgt hfk)
        subst hik
        exact ⟨hfind, hdata, by rw [hget, hat], hat⟩
      · constructor
        · intro h; rw [hfind] at h; exact absurd h (hneg k)
        · intro hall; exact absurd hnk (hall k fk hk hfk)
      · constructor
        · intro h; rw [hfind] at h; exact absurd h (hneg k)
        · intro h; rw [hdata] at h; exact absurd h (by simp)
      · constructor
        · intro h; rw [hget] at h; exact absurd h (by simp)
        · intro h; rw [hfind] at h; exact absurd h (hneg k)
  · intro p b hb hin hint
    have hspec := register_lookup_spec rfd p b name hb hin hint
    rw [c_str_of_no_nul name hnul] at hspec
    rcases hspec with
      ⟨hall, hfind, hdata, hget⟩ | ⟨k, rk, hk, hrk, hnk, hmin, hfind, hdata, hat, hget⟩
    · refine ⟨?_, ?_, ?_, ?_⟩
      · intro i r hi hr hn _
        exact absurd hn (hall i r hi hr)
      · exact ⟨fun _ => hall, fun _ => hfind⟩
      · exact ⟨fun _ => hdata, fun _ => hfind⟩
      · exact ⟨fun _ => hfind, fun _ => hget⟩
    · refine ⟨?_, ?_, ?_, ?_⟩
      · intro i r hi hr hn hmini
        have hik : i = k := by
          rcases Nat.lt_trichotomy i k with hlt | heq | hgt
          · exact absurd hn (hmin i r hlt hr)
          · exact heq
          · exact absurd hnk (hmini k rk hgt hrk)
        subst hik
        exact ⟨hfind, hdata, by rw [hget, hat], hat⟩
      · constructor
        · intro h; rw [hfind] at h; exact absurd h (hneg k)
        · intro hall; exact absurd hnk (hall k rk hk hrk)
      · constructor
        · intro h; rw [hfind] at h; exact absurd h (hneg k)
        · intro h; rw [hdata] at h; exact absurd h (by simp)
      · constructor
        · intro h; rw [hget] at h; exact absurd h (by simp)
        · intro h; rw [hfind] at h; exact absurd h (hneg k)

theorem name_lookup_of_children_witness :
    ((Register.mk fields_catalog 0 0).find_field "f" = .ok ((1 : Nat) : Int) ∧
      RegisterData.find_field
        { name := "r0", offset := 0, size := 4, fields_offset := 0, num_fields := 3 }
        fields_catalog "f" = .ok (some (0 + 1)) ∧
      (Register.mk fields_catalog 0 0).get_field_str "f" = (Register.mk fields_catalog 0 0).at 1 ∧
      (Register.mk fields_catalog 0 0).at 1 = .ok { m_rfd := fields_catalog, m_fd := 0 + 1 }) ∧
    ((RegisterBlock.mk fields_catalog 0).get_register "zz"
        = .throw (.runtime_error "register not found") ↔
      (RegisterBlock.mk fields_catalog 0).find_register "zz" = .ok (-1)) :=
  ⟨((name_lookup_of_children fields_catalog "f" (by decide)).1 0 0
      { name := "r0", offset := 0, size := 4, fields_offset := 0, num_fields := 3 }
      rfl (by decide) (by decide)).1 1 { name := "f", high := 3, low := 0 } (by decide) rfl rfl
      (by
        intro j f1 hj hf1
        have hj0 : j = 0 := by omega
        subst hj0
        simp only [fields_catalog, Nat.zero_add, List.getElem?_cons_zero,
          Option.some.injEq] at hf1
        subst hf1
        decide),
    ((name_lookup_of_children fields_catalog "zz" (by decide)).2.1 0
      { name := "blk", offset := 0, size := 0x10, regs_offset := 0, num_regs := 2 }
      rfl (by decide) (by decide)).2.2.2⟩

/-! ## Field lookup by bit range -/

/-- Outcome of `get_field(high, low)` on a register whose fields lie inside the
global field array. -/
theorem get_field_bits_spec (rfd : RegisterFileData) (p q : Nat) (r : RegisterData)
    (high low : Nat) (hr : rfd.registers[q]? = some r) (hin : rfd.fields_in_range) :
    ((∀ (i : Nat) (f : FieldData), i < r.num_fields →
        rfd.fields[r.fields_offset + i]? = some f → ¬ (f.high = high ∧ f.low = low)) ∧
      (Register.mk rfd p q).get_field_bits high low
        = .throw (.runtime_error "field not found")) ∨
    (∃ (i : Nat) (f : FieldData), i < r.num_fields ∧
      rfd.fields[r.fields_offset + i]? = some f ∧ f.high = high ∧ f.low = low ∧
      (∀ (j : Nat) (f1 : FieldData), j < i →
        rfd.fields[r.fields_offset + j]? = some f1 → ¬ (f1.high = high ∧ f1.low = low)) ∧
      (Register.mk rfd p q).get_field_bits high low
        = .ok { m_rfd := rfd, m_fd := r.fields_offset + i }) := by
  have hdata : (Register.mk rfd p q).data = some r := hr
  have hmem : r ∈ rfd.registers := List.getElem?_mem hr
  have hle := hin.2 r hmem
  have hlt := hin.1
  have hmod : ∀ i, i < r.num_fields → (r.fields_offset + i) % 2 ^ 32 = r.fields_offset + i := by
    intro i hi
    exact Nat.mod_eq_of_lt (by omega)
  have hget : ∀ i, i < r.num_fields → ∃ f, rfd.fields[r.fields_offset + i]? = some f := by
    intro i hi
    obtain ⟨f, hf, _⟩ := getElem?_of_lt_length rfd.fields (r.fields_offset + i) (by omega)
    exact ⟨f, hf⟩
  have hbody : ∀ i, i < r.num_fields → ∀ f, rfd.fields[r.fields_offset + i]? = some f →
      (Register.mk rfd p q).get_field_bits_body high low i
        = if f.high = high ∧ f.low = low then
            .ok (some { m_rfd := rfd, m_fd := r.fields_offset + i })
          else .ok none := by
    intro i hi f hf
    simp only [Register.get_field_bits_body, Register.at, hdata, ge_iff_le, Nat.not_le.mpr hi,
      if_false, RegisterData.at, hmod i hi, Result.bind, Field.data, RegisterFileData.field, hf]
    by_cases h : f.high = high ∧ f.low = low
    · rw [if_pos h, if_pos ⟨h.2.symm, h.1.symm⟩]
    · rw [if_neg h, if_neg (fun h1 => h ⟨h1.2.symm, h1.1.symm⟩)]
  have hloop := first_index_loop ((Register.mk rfd p q).get_field_bits_body high low)
    r.num_fields
    (fun i => ∃ f, rfd.fields[r.fields_offset + i]? = some f ∧ f.high = high ∧ f.low = low)
    (fun i => { m_rfd := rfd, m_fd := r.fields_offset + i })
    (by
      rintro i hi ⟨f, hf, hn⟩
      rw [hbody i hi f hf, if_pos hn])
    (by
      intro i hi hnot
      obtain ⟨f, hf⟩ := hget i hi
      rw [hbody i hi f hf, if_neg (fun hn => hnot ⟨f, hf, hn⟩)])
  rcases hloop with ⟨hres, hall⟩ | ⟨i, hi, ⟨f, hf, hn⟩, hmin, hres⟩
  · left
    refine ⟨?_, ?_⟩
    · intro i f hi hf hn
      exact hall i hi ⟨f, hf, hn⟩
    · simp only [Register.get_field_bits, hdata, hres, Result.bind]
  · right
    refine ⟨i, f, hi, hf, hn.1, hn.2, ?_, ?_⟩
    · intro j f1 hj hf1 hn1
      exact hmin j hj ⟨f1, hf1, hn1⟩
    · simp only [Register.get_field_bits, hdata, hres, Result.bind]

/-- C16: for a register whose fields lie inside the global field array,
`get_field(high, low)` returns the field with the smallest local index whose
`high` and `low` both equal the given ones and throws "field not found"
exactly when no field of the register has that pair; every field it returns
has exactly that pair, so a field that overlaps or contains the range is not
returned. -/
theorem get_field_by_bit_range (rfd : RegisterFileData) (p q : Nat) (r : RegisterData)
    (high low : Nat) (hr : rfd.registers[q]? = some r) (hin : rfd.fields_in_range) :
    (∀ (i : Nat) (f : FieldData), i < r.num_fields →
      rfd.fields[r.fields_offset + i]? = some f → f.high = high → f.low = low →
      (∀ (j : Nat) (f1 : FieldData), j < i →
        rfd.fields[r.fields_offset + j]? = some f1 → ¬ (f1.high = high ∧ f1.low = low)) →
      (Register.mk rfd p q).get_field_bits high low
        = .ok { m_rfd := rfd, m_fd := r.fields_offset + i }) ∧
    ((Register.mk rfd p q).get_field_bits high low = .throw (.runtime_error "field not found") ↔
      ∀ (i : Nat) (f : FieldData), i < r.num_fields →
        rfd.fields[r.fields_offset + i]? = some f → ¬ (f.high = high ∧ f.low = low)) ∧
    (∀ fld : Field, (Register.mk rfd p q).get_field_bits high low = .ok fld →
      ∃ (i : Nat) (f : FieldData), i < r.num_fields ∧ fld.m_fd = r.fields_offset + i ∧
        fld.data = some f ∧ f.high = high ∧ f.low = low) ∧
    ((Register.mk fields_catalog 0 0).get_field_bits 3 0
        = .ok { m_rfd := fields_catalog, m_fd := 1 } ∧
      (Register.mk fields_catalog 0 0).get_field_bits 7 0
        = .ok { m_rfd := fields_catalog, m_fd := 0 } ∧
      (Register.mk fields_catalog 0 0).get_field_bits 4 0
        = .throw (.runtime_error "field not found")) := by
  refine ⟨?_, ?_, ?_, by decide⟩
  · intro i f hi hf hh hl hmini
    rcases get_field_bits_spec rfd p q r high low hr hin with
      ⟨hall, _⟩ | ⟨k, fk, hk, hfk, hhk, hlk, hmin, hres⟩
    · exact absurd ⟨hh, hl⟩ (hall i f hi hf)
    · have hik : i = k := by
        rcases Nat.lt_trichotomy i k with hlt | heq | hgt
        · exact absurd ⟨hh, hl⟩ (hmin i f hlt hf)
        · exact heq
        · exact absurd ⟨hhk, hlk⟩ (hmini k fk hgt hfk)
      subst hik
      exact hres
  · rcases get_field_bits_spec rfd p q r high low hr hin with
      ⟨hall, hres⟩ | ⟨k, fk, hk, hfk, hhk, hlk, hmin, hres⟩
    · exact ⟨fun _ => hall, fun _ => hres⟩
    · constructor
      · intro h; rw [hres] at h; exact absurd h (by simp)
      · intro hall; exact absurd ⟨hhk, hlk⟩ (hall k fk hk hfk)
  · intro fld hfld
    rcases get_field_bits_spec rfd p q r high low hr hin with
      ⟨_, hres⟩ | ⟨k, fk, hk, hfk, hhk, hlk, _, hres⟩
    · rw [hres] at hfld; exact absurd hfld (by simp)
    · rw [hres] at hfld
      simp only [Result.ok.injEq] at hfld
      subst hfld
      exact ⟨k, fk, hk, rfl, hfk, hhk, hlk⟩

theorem get_field_by_bit_range_witness :
    (Register.mk fields_catalog 0 0).get_field_bits 9 9
        = .throw (.runtime_error "field not found") ↔
      ∀ (i : Nat) (f : FieldData), i < 3 →
        fields_catalog.fields[0 + i]? = some f → ¬ (f.high = 9 ∧ f.low = 9) :=
  (get_field_by_bit_range fields_catalog 0 0
    { name := "r0", offset := 0, size := 4, fields_offset := 0, num_fields := 3 } 9 9
    rfl (by decide)).2.1

end Rwmem
